import Mathlib

/-!
# byedpi `extend.c`: the adaptive desync core

A shallow embedding of `src/extend.c`.

* Bytes are natural numbers below 256, buffers are lists of bytes.
* C integers (`int`, `ssize_t`, `time_t`) are `Int`; no wrap-around is modelled, the
  quantities are buffer sizes, strategy indices and wall-clock seconds.
  `attempt` is an `int` that is never negative in the program (`connect_hook` clamps it
  at 0, every other writer stores a loop index), so it is a `Nat`.
* A handler works on a `World`: the flow `*val` the event fired on, its peer `*val->pair`
  (with `val->pair->pair == val`), the strategy cache `params.mempool`, and the trace of
  calls made to functions outside `extend.c`.
* Results of functions outside `extend.c` (sockets, event pool, parsers, `desync`) come
  from an `Env` record.
* A failing `assert` aborts the process: the handler returns `none`.
-/

namespace Byedpi

abbrev Bytes := List Nat

/-! ## Constants of headers that are not among the sources -/

/-- Modelled from the spec: the socket headers are not among the sources; `AF_INET`
as on Linux. -/
def AF_INET : Nat := 2

/-- Modelled from the spec: the socket headers are not among the sources; `AF_INET6`
as on Linux. -/
def AF_INET6 : Nat := 10

/-- Modelled from the spec: `params.h` is not among the sources; one bit of the `detect`
mask (HTTP redirect to a block page). -/
def DETECT_HTTP_LOCAT : Nat := 1

/-- Modelled from the spec: `params.h` is not among the sources; one bit of the `detect`
mask (TLS handshake broken). -/
def DETECT_TLS_ERR : Nat := 2

/-- Modelled from the spec: `params.h` is not among the sources; one bit of the `detect`
mask (peer RST or timeout). -/
def DETECT_TORST : Nat := 8

/-- Modelled from the spec: `params.h` is not among the sources; bits of the `proto`
mask {TCP, HTTP, HTTPS, UDP}. -/
def IS_TCP : Nat := 1

/-- Modelled from the spec: bit of the `proto` mask, see `IS_TCP`. -/
def IS_UDP : Nat := 2

/-- Modelled from the spec: bit of the `proto` mask, see `IS_TCP`. -/
def IS_HTTP : Nat := 4

/-- Modelled from the spec: bit of the `proto` mask, see `IS_TCP`. -/
def IS_HTTPS : Nat := 8

/-- Modelled from the spec: `proxy.h` is not among the sources; flag of the flow that was
created by `create_conn` (the upstream side). -/
def FLAG_CONN : Nat := 4

/-- Modelled from the spec: the poll headers are not among the sources; readable event. -/
def POLLIN : Nat := 1

/-- Modelled from the spec: the poll headers are not among the sources; writable event. -/
def POLLOUT : Nat := 4

/-- Modelled from the spec: `errno.h` is not among the sources; value as on Linux. -/
def ECONNRESET : Nat := 104

/-- Modelled from the spec: `errno.h` is not among the sources; value as on Linux. -/
def ECONNREFUSED : Nat := 111

/-- Modelled from the spec: `errno.h` is not among the sources; value as on Linux. -/
def ETIMEDOUT : Nat := 110

/-- Modelled from the spec: socket option name of `SO_LINGER`, as on Linux. -/
def SO_LINGER : Nat := 13

/-- Modelled from the spec: socket option name of `TCP_USER_TIMEOUT`, as on Linux. -/
def TCP_USER_TIMEOUT : Nat := 18

/-- Modelled from the spec: `sizeof(uint16_t)`. -/
def SIZEOF_UINT16 : Nat := 2

/-- Modelled from the spec: `sizeof(sa_family_t)`, as on Linux. -/
def SIZEOF_SA_FAMILY : Nat := 2

/-- Modelled from the spec: `sizeof(struct in_addr)`. -/
def SIZEOF_IN_ADDR : Nat := 4

/-- Modelled from the spec: `sizeof(struct in6_addr)`. -/
def SIZEOF_IN6_ADDR : Nat := 16

/-- Modelled from the spec: `sizeof(struct sockaddr_in6)`. -/
def SIZEOF_SOCKADDR_IN6 : Nat := 28

/-- The macro `KEY_SIZE`. -/
def KEY_SIZE : Nat := SIZEOF_UINT16 + SIZEOF_SA_FAMILY + SIZEOF_SOCKADDR_IN6

/-- Modelled from the spec: the flow states of `proxy.h`
{CONN, DESYNC, PRE_TUNNEL, TUNNEL, IGNORE} and the other event kinds of the loop. -/
inductive eid where
  | EV_ACCEPT
  | EV_REQUEST
  | EV_CONNECT
  | EV_IGNORE
  | EV_TUNNEL
  | EV_PRE_TUNNEL
  | EV_UDP_TUNNEL
  | EV_DESYNC
deriving DecidableEq, Repr

/-! ## Data model -/

/-- Modelled from the spec: `union sockaddr_ina` (`proxy.h`). Each field is the unsigned
number its bytes in memory spell, least significant byte first; `sin_port` is shared by
the `in` and `in6` views, `sin_addr` (4 bytes) and `sin6_addr` (16 bytes) do not overlap. -/
structure sockaddr_ina where
  sa_family : Nat
  sin_port : Nat
  sin_addr : Nat
  sin6_addr : Nat
deriving DecidableEq, Repr

/-- Modelled from the spec: the value part of a cache entry, `struct elem` of `mpool.h`
(`strategy_index`, `last_used`). -/
structure elem where
  m : Int
  time : Int
deriving DecidableEq, Repr

/-- Modelled from the spec: `struct mphdr` of `mpool.h`, a mapping from byte keys to
entries with at most one entry per key. -/
abbrev mphdr := List (Bytes × elem)

/-- Modelled from the spec: `mem_get` of `mpool.c`, the entry stored under `key`. -/
def mem_get : mphdr → Bytes → Option elem
  | [], _ => none
  | (k, e) :: rest, key => if k = key then some e else mem_get rest key

/-- Modelled from the spec: `mem_delete` of `mpool.c`, removes the entry of `key`. -/
def mem_delete : mphdr → Bytes → mphdr
  | [], _ => []
  | (k, e) :: rest, key =>
    if k = key then mem_delete rest key else (k, e) :: mem_delete rest key

/-- Modelled from the spec: `mem_add` of `mpool.c` (an upsert that yields the entry of
`key`) together with the caller's writes through the returned pointer. -/
def mem_add (hdr : mphdr) (key : Bytes) (e : elem) : mphdr :=
  (key, e) :: mem_delete hdr key

/-- Modelled from the spec: `struct desync_params` of `params.h`, the fields read by
`extend.c`: `detect`, the port range `pf[0], pf[1]`, `proto`, `hosts` (`none` is the
null pointer). -/
structure desync_params where
  detect : Nat
  pf : Nat × Nat
  proto : Nat
  hosts : Option mphdr
deriving DecidableEq, Repr

/-- Modelled from the spec: the fields of the global `params` read by `extend.c`.
`dp_count` is the length of `dp`; the cache `params.mempool` lives in the `World`. -/
structure Params where
  dp : List desync_params
  cache_ttl : Int
  auto_level : Int
  timeout : Nat
  bfsize : Int
deriving Repr

/-- The field `params.dp_count`. -/
def Params.dp_count (params : Params) : Nat := params.dp.length

/-- Modelled from the spec: `struct buffer`, the first-payload buffer
`(data, size, offset)`; `data = none` is the null pointer. -/
structure buffer where
  data : Option Bytes
  size : Int
  offset : Int
deriving DecidableEq, Repr

/-- Modelled from the spec: `struct eval` of `conev.h`, the per-connection flow record.
`pair` tells whether the back-reference `val->pair` is set. -/
structure eval where
  fd : Int
  type : eid
  flag : Nat
  pair : Bool
  buff : buffer
  attempt : Nat
  cache : Bool
  mark : Bool
  recv_count : Int
  round_count : Int
  last_round : Int
  in6 : sockaddr_ina
deriving DecidableEq, Repr

/-- Calls to functions that are not defined in `extend.c`, in the order they are made. -/
inductive Call where
  | recv (fd : Int) (len : Int)
  | send (fd : Int) (data : Bytes) (n : Int)
  | create_conn (fd : Int) (dst : sockaddr_ina) (next : eid)
  | del_event (fd : Int)
  | mod_etype (fd : Int) (events : Nat)
  | setsockopt (fd : Int) (optname : Nat) (value : Nat)
  | desync (fd : Int) (n : Int) (offset : Int) (m : Nat)
  | desync_udp (fd : Int) (n : Int) (m : Nat)
  | post_desync (fd : Int) (m : Nat)
  | mem_add (key : Bytes) (m : Int) (time : Int)
  | mem_delete (key : Bytes)
  | free
deriving DecidableEq, Repr

/-- What `recv` hands back: the return value `n`, the bytes written to the scratch
buffer and the value of `get_e()` after a failure. -/
structure RecvResult where
  n : Int
  data : Bytes
  errno : Nat
deriving DecidableEq, Repr

/-- Results of the functions outside `extend.c`. -/
structure Env where
  time : Int
  recv : Int → Int → RecvResult
  send : Int → Bytes → Int → Int
  create_conn : Int → sockaddr_ina → eid → Int
  mod_etype : Int → Nat → Int
  setsockopt : Int → Nat → Nat → Int
  desync : Int → Bytes → Int → Int → Int → sockaddr_ina → Nat → Int
  desync_udp : Int → Bytes → Int → Int → sockaddr_ina → Nat → Int
  post_desync : Int → Nat → Int
  mem_add_ok : Bool
  realloc_ok : Bool
  is_http : Option Bytes → Int → Bool
  is_tls_chello : Option Bytes → Int → Bool
  is_tls_shello : Option Bytes → Int → Bool
  neq_tls_sid : Option Bytes → Int → Option Bytes → Int → Bool
  is_http_redirect : Option Bytes → Int → Option Bytes → Int → Bool
  parse_tls : Option Bytes → Int → Int × Bytes
  parse_http : Option Bytes → Int → Int × Bytes

/-- The state a handler works on. -/
structure World where
  val : eval
  peer : eval
  mempool : mphdr
  trace : List Call
deriving DecidableEq, Repr

/-- The same state seen from the peer: `val := val->pair`. -/
def World.swap (w : World) : World :=
  { w with val := w.peer, peer := w.val }

/-- Appends a call to the trace. -/
def World.log (w : World) (c : Call) : World :=
  { w with trace := w.trace ++ [c] }

/-! ## `set_timeout` -/

/-- The Linux branch of `set_timeout`. -/
def set_timeout (env : Env) (w : World) (fd : Int) (s : Nat) : Int × World :=
  let w := w.log (Call.setsockopt fd TCP_USER_TIMEOUT s)
  if env.setsockopt fd TCP_USER_TIMEOUT s ≠ 0 then (-1, w) else (0, w)

/-! ## `serialize_addr` -/

/-- The `size` bytes of a field holding `v`, as `memcpy` reads them. -/
def field_bytes : Nat → Nat → Bytes
  | 0, _ => []
  | size + 1, v => (v % 256) :: field_bytes size (v / 256)

/-- The call `memcpy(raw + counter, src, |src|)`. -/
def memcpy (raw : Bytes) (counter : Nat) (src : Bytes) : Bytes :=
  raw.take counter ++ src ++ raw.drop (counter + src.length)

/-- The macro `serialize(raw, field, len, counter)`; `none` is its `return 0`. -/
def serialize (raw : Bytes) (field : Nat) (size : Nat) (len : Nat) (counter : Nat) :
    Option (Bytes × Nat) :=
  if counter + size ≤ len then
    some (memcpy raw counter (field_bytes size field), counter + size)
  else none

/-- The function `serialize_addr`: the returned count and the buffer `out` afterwards. -/
def serialize_addr (dst : sockaddr_ina) (out : Bytes) (out_len : Nat) : Int × Bytes :=
  match serialize out dst.sin_port SIZEOF_UINT16 out_len 0 with
  | none => (0, out)
  | some (out1, c1) =>
    match serialize out1 dst.sa_family SIZEOF_SA_FAMILY out_len c1 with
    | none => (0, out1)
    | some (out2, c2) =>
      if dst.sa_family = AF_INET then
        match serialize out2 dst.sin_addr SIZEOF_IN_ADDR out_len c2 with
        | none => (0, out2)
        | some (out3, c3) => (c3, out3)
      else
        match serialize out2 dst.sin6_addr SIZEOF_IN6_ADDR out_len c2 with
        | none => (0, out2)
        | some (out3, c3) => (c3, out3)

/-- The cache key of a destination: the first `len` bytes of the zeroed `key[KEY_SIZE]`
after `serialize_addr`, as `mode_add_get` passes them to the mempool. -/
def cache_key (dst : sockaddr_ina) : Bytes :=
  let r := serialize_addr dst (List.replicate KEY_SIZE 0) KEY_SIZE
  r.2.take r.1.toNat

/-! ## `mode_add_get` -/

/-- The value an integer has in the 64-bit signed type of `time_t` and `long` (64-bit
Linux): two's-complement wrap-around into `[-2^63, 2^63)`. -/
def wrap_time (x : Int) : Int :=
  (x + 9223372036854775808) % 18446744073709551616 - 9223372036854775808

/-- The function `mode_add_get`: `m < 0` get, `m > 0` set, `m == 0` delete. The sum
`val->time + params.cache_ttl` is taken in `time_t`; `mem_add` is called (and logged)
whether or not it succeeds. -/
def mode_add_get (env : Env) (params : Params) (w : World) (dst : sockaddr_ina) (m : Int) :
    Option (Int × World) :=
  if ¬ (m ≥ -1 ∧ m < params.dp_count) then none else
  let r := serialize_addr dst (List.replicate KEY_SIZE 0) KEY_SIZE
  let len := r.1
  if ¬ (len > 0) then none else
  let key := r.2.take len.toNat
  if m < 0 then
    match mem_get w.mempool key with
    | none => some (-1, w)
    | some val =>
      let t := env.time
      if t > wrap_time (val.time + params.cache_ttl) then some (0, w)
      else some (val.m, w)
  else if m = 0 then
    some (0, { w with mempool := mem_delete w.mempool key,
                      trace := w.trace ++ [Call.mem_delete key] })
  else
    let t := env.time
    let w1 := { w with trace := w.trace ++ [Call.mem_add key m t] }
    if ¬ env.mem_add_ok then some (-1, w1)
    else some (0, { w1 with mempool := mem_add w.mempool key { m := m, time := t } })

/-! ## `check_port`, `connect_hook`, `reconnect` -/

/-- The function `check_port`. -/
def check_port (p : Nat × Nat) (dst : sockaddr_ina) : Bool :=
  decide (dst.sin_port ≥ p.1) && decide (dst.sin_port ≤ p.2)

/-- The function `connect_hook`; `val` is the dialing client flow. -/
def connect_hook (env : Env) (params : Params) (w : World) (dst : sockaddr_ina)
    (next : eid) : Option (Int × World) :=
  match mode_add_get env params w dst (-1) with
  | none => none
  | some (m, w1) =>
    let v := { w1.val with cache := decide (m = 0),
                           attempt := if m < 0 then 0 else m.toNat }
    let w2 := { w1 with val := v }
    some (env.create_conn w2.val.fd dst next,
          w2.log (Call.create_conn w2.val.fd dst next))

/-- The function `reconnect`; `val` is the upstream flow, `client = val->pair`. -/
def reconnect (env : Env) (w : World) (m : Nat) : Int × World :=
  let w1 := w.log (Call.create_conn w.peer.fd w.val.in6 eid.EV_DESYNC)
  if env.create_conn w.peer.fd w.val.in6 eid.EV_DESYNC ≠ 0 then (-1, w1)
  else
    let w2 := { w1 with val := { w1.val with pair := false } }
    let w3 := w2.log (Call.del_event w2.val.fd)
    let client := { w3.peer with type := eid.EV_IGNORE, attempt := m, cache := true,
                                 buff := { w3.peer.buff with offset := 0 } }
    (0, { w3 with peer := client })

/-! ## `check_host`, `check_proto_tcp` -/

/-- The call `memchr(s, c, |s|)`: the position of the first `c`. -/
def memchr : Bytes → Nat → Option Nat
  | [], _ => none
  | b :: rest, c => if b = c then some 0 else (memchr rest c).map (· + 1)

/-- The loop of `check_host` over the bytes in `[host, e)`; every round moves `host`
forward, so `|host|` rounds suffice. -/
def check_host_loop (hosts : mphdr) : Nat → Bytes → Bool
  | 0, _ => false
  | fuel + 1, host =>
    if host.length = 0 then false
    else if (mem_get hosts host).isSome then true
    else
      match memchr host 46 with
      | none => false
      | some i => check_host_loop hosts fuel (host.drop (i + 1))

/-- The function `check_host`. The parsers hand back the length and the bytes `host`
points at (never a null pointer, so `assert(len == 0 || host != 0)` holds). -/
def check_host (env : Env) (hosts : mphdr) (val : eval) : Bool :=
  let r := env.parse_tls val.buff.data val.buff.size
  let r := if r.1 = 0 then env.parse_http val.buff.data val.buff.size else r
  let len := r.1
  if len ≤ 0 then false
  else check_host_loop hosts len.toNat (r.2.take len.toNat)

/-- The function `check_proto_tcp`. -/
def check_proto_tcp (env : Env) (proto : Nat) (val : eval) : Bool :=
  if proto &&& IS_TCP ≠ 0 then true
  else if proto &&& IS_HTTP ≠ 0 ∧ env.is_http val.buff.data val.buff.size = true then true
  else if proto &&& IS_HTTPS ≠ 0 ∧ env.is_tls_chello val.buff.data val.buff.size = true then true
  else false

/-! ## The failure classifier: `on_torst`, `on_fin`, `on_response` -/

/-- The `for` loop of `on_torst` over `dp[m], dp[m+1], ...`: the value of `m` after the
loop (0 after meeting a strategy with `detect == 0`). -/
def on_torst_scan : List desync_params → Nat → Nat
  | [], m => m
  | dp :: rest, m =>
    if dp.detect = 0 then 0
    else if dp.detect &&& DETECT_TORST ≠ 0 then m
    else on_torst_scan rest (m + 1)

/-- The tail of `on_torst`: `setsockopt(val->pair->fd, SOL_SOCKET, SO_LINGER, ...)` with
`l_onoff = 1`, then `return -1` whatever it answers. -/
def on_torst_linger (env : Env) (w : World) : Int × World :=
  let w1 := w.log (Call.setsockopt w.peer.fd SO_LINGER 1)
  if env.setsockopt w.peer.fd SO_LINGER 1 < 0 then (-1, w1) else (-1, w1)

/-- The function `on_torst`; `val` is the upstream flow. -/
def on_torst (env : Env) (params : Params) (w : World) : Option (Int × World) :=
  let m := w.peer.attempt + 1
  let can_reconn := w.peer.buff.data.isSome && decide (w.val.recv_count = 0)
  if can_reconn = true ∨ params.auto_level ≥ 1 then
    let m := on_torst_scan (params.dp.drop m) m
    if m = 0 then some (on_torst_linger env w)
    else if m ≥ params.dp_count then
      if m > 1 then
        match mode_add_get env params w w.val.in6 0 with
        | none => none
        | some (_, w1) => some (on_torst_linger env w1)
      else some (on_torst_linger env w)
    else if can_reconn = true then some (reconnect env w m)
    else
      match mode_add_get env params w w.val.in6 m with
      | none => none
      | some (_, w1) => some (on_torst_linger env w1)
  else some (on_torst_linger env w)

/-- How the `for` loop of `on_fin` ends. -/
inductive FinScan where
  | stop
  | found (m : Nat)
  | exhausted (m : Nat)
deriving DecidableEq, Repr

/-- The `for` loop of `on_fin` over `dp[m], dp[m+1], ...`: `stop` when a strategy with
`detect == 0` is met, `found m` at the first `detect & DETECT_TLS_ERR`, `exhausted m`
when the loop runs out with index `m`. -/
def on_fin_scan : List desync_params → Nat → FinScan
  | [], m => FinScan.exhausted m
  | dp :: rest, m =>
    if dp.detect = 0 then FinScan.stop
    else if dp.detect &&& DETECT_TLS_ERR ≠ 0 then FinScan.found m
    else on_fin_scan rest (m + 1)

/-- The function `on_fin`; `val` is the upstream flow. -/
def on_fin (env : Env) (params : Params) (w : World) : Option (Int × World) :=
  let m := w.peer.attempt + 1
  let can_reconn := w.peer.buff.data.isSome && decide (w.val.recv_count = 0)
  if can_reconn = false ∧ params.auto_level < 1 then some (-1, w)
  else
    let ssl_err :=
      if can_reconn = true then env.is_tls_chello w.peer.buff.data w.peer.buff.size
      else if w.val.mark = true ∧ w.val.round_count ≤ 1 then true
      else false
    if ssl_err = false then some (-1, w)
    else
      match on_fin_scan (params.dp.drop m) m with
      | FinScan.stop => some (-1, w)
      | FinScan.found m =>
        if can_reconn = true then some (reconnect env w m)
        else
          match mode_add_get env params w w.val.in6 m with
          | none => none
          | some (_, w1) => some (-1, w1)
      | FinScan.exhausted m =>
        if m > 1 then
          match mode_add_get env params w w.val.in6 0 with
          | none => none
          | some (_, w1) => some (-1, w1)
        else some (-1, w)

/-- The two `break` conditions of the loop of `on_response` for one strategy. -/
def on_response_match (env : Env) (dp : desync_params) (req : Option Bytes) (qn : Int)
    (resp : Option Bytes) (sn : Int) : Bool :=
  if dp.detect &&& DETECT_HTTP_LOCAT ≠ 0 ∧ env.is_http_redirect req qn resp sn = true then true
  else if dp.detect &&& DETECT_TLS_ERR ≠ 0
      ∧ ((env.is_tls_chello req qn = true ∧ env.is_tls_shello resp sn = false)
          ∨ env.neq_tls_sid req qn resp sn = true) then true
  else false

/-- The `for` loop of `on_response` over `dp[m], dp[m+1], ...`: `none` is the
`return -1` at a strategy with `detect == 0`, `some m` the value of `m` after the loop. -/
def on_response_scan (env : Env) (req : Option Bytes) (qn : Int) (resp : Option Bytes)
    (sn : Int) : List desync_params → Nat → Option Nat
  | [], m => some m
  | dp :: rest, m =>
    if dp.detect = 0 then none
    else if on_response_match env dp req qn resp sn = true then some m
    else on_response_scan env req qn resp sn rest (m + 1)

/-- The function `on_response`; `val` is the upstream flow. -/
def on_response (env : Env) (params : Params) (w : World) (resp : Option Bytes)
    (sn : Int) : Int × World :=
  let m := w.peer.attempt + 1
  let req := w.peer.buff.data
  let qn := w.peer.buff.size
  match on_response_scan env req qn resp sn (params.dp.drop m) m with
  | none => (-1, w)
  | some m =>
    if m < params.dp_count then reconnect env w m
    else (-1, w)

/-! ## `to_tunnel`, `on_tunnel_check` -/

/-- The function `to_tunnel`; `client` is `val` of the world. -/
def to_tunnel (w : World) : Option World :=
  let w1 := { w with peer := { w.peer with type := eid.EV_TUNNEL } }
  let w2 := { w1 with val := { w1.val with type := eid.EV_TUNNEL } }
  if w2.val.buff.data.isSome = false then none
  else
    let w3 := w2.log Call.free
    some { w3 with val := { w3.val with buff := { data := none, size := 0, offset := 0 } } }

/-- The part of `on_tunnel_check` after the call of `on_response`: the commit. -/
def on_tunnel_check_commit (env : Env) (params : Params) (w : World) (buffer : Bytes)
    (n : Int) : Option (Int × World) :=
  let w1 := { w with val := { w.val with recv_count := w.val.recv_count + n,
                                         round_count := 1, last_round := 1 } }
  let sn := env.send w1.peer.fd buffer n
  let w2 := w1.log (Call.send w1.peer.fd buffer n)
  if n ≠ sn then some (-1, w2)
  else
    let w3 :=
      if params.auto_level > 0 ∧ params.dp_count > 1 then
        { w2 with val := { w2.val with
            mark := env.is_tls_chello w2.peer.buff.data w2.peer.buff.size } }
      else w2
    match to_tunnel w3.swap with
    | none => none
    | some w4s =>
      let w4 := w4s.swap
      let r := if params.timeout ≠ 0 ∧ params.auto_level < 1 then set_timeout env w4 w4.val.fd 0
               else (0, w4)
      if r.1 ≠ 0 then some (-1, r.2)
      else
        let w5 := r.2
        let m := w5.peer.attempt
        let w6 := w5.log (Call.post_desync w5.val.fd m)
        if env.post_desync w5.val.fd m ≠ 0 then some (-1, w6)
        else if w6.peer.cache = false then some (0, w6)
        else mode_add_get env params w6 w6.val.in6 m

/-- The function `on_tunnel_check`; `val` is the upstream flow. -/
def on_tunnel_check (env : Env) (params : Params) (w : World) (bfsize : Int) (out : Int) :
    Option (Int × World) :=
  if out ≠ 0 then none
  else
    let r := env.recv w.val.fd bfsize
    let w1 := w.log (Call.recv w.val.fd bfsize)
    let n := r.n
    if n < 1 then
      if n = 0 then on_fin env params w1
      else if r.errno = ECONNRESET ∨ r.errno = ECONNREFUSED ∨ r.errno = ETIMEDOUT then
        on_torst env params w1
      else some (-1, w1)
    else
      let q := on_response env params w1 (some r.data) n
      if q.1 = 0 then some (0, q.2)
      else on_tunnel_check_commit env params q.2 r.data n

/-! ## `on_desync_again`, `on_desync`, `udp_hook` -/

/-- The part of `on_desync_again` after the `FLAG_CONN` block; `val` is the client flow
that holds the buffer and `val->pair` the upstream flow. -/
def on_desync_again_send (env : Env) (params : Params) (w : World) (bfsize : Int) :
    Option (Int × World) :=
  let m := w.val.attempt
  let n := w.val.buff.size
  if ¬ (n > 0 ∧ n ≤ params.bfsize) then none
  else
    let buffer := (w.val.buff.data.getD []).take n.toNat
    let r := if params.timeout ≠ 0 then set_timeout env w w.peer.fd params.timeout
             else (0, w)
    if r.1 ≠ 0 then some (-1, r.2)
    else
      let w1 := r.2
      let sn := env.desync w1.peer.fd buffer bfsize n w1.val.buff.offset w1.peer.in6 m
      let w2 := w1.log (Call.desync w1.peer.fd n w1.val.buff.offset m)
      if sn < 0 then some (-1, w2)
      else
        let w3 := { w2 with val := { w2.val with
                      buff := { w2.val.buff with offset := w2.val.buff.offset + sn } } }
        if sn < n then
          let w4 := w3.log (Call.mod_etype w3.peer.fd POLLOUT)
          if env.mod_etype w3.peer.fd POLLOUT ≠ 0 then some (-1, w4)
          else some (0, { w4 with peer := { w4.peer with type := eid.EV_DESYNC } })
        else some (0, { w3 with peer := { w3.peer with type := eid.EV_PRE_TUNNEL } })

/-- The function `on_desync_again`. When `val` is the connecting upstream flow
(`FLAG_CONN`) both flows are switched to `POLLIN` and `val = val->pair` makes the
client the current flow; the returned world is seen from the original `val` again. -/
def on_desync_again (env : Env) (params : Params) (w : World) (bfsize : Int) :
    Option (Int × World) :=
  if w.val.flag = FLAG_CONN then
    let w1 := w.log (Call.mod_etype w.val.fd POLLIN)
    if env.mod_etype w.val.fd POLLIN ≠ 0 then some (-1, w1)
    else
      let w2 := w1.log (Call.mod_etype w1.peer.fd POLLIN)
      if env.mod_etype w1.peer.fd POLLIN ≠ 0 then some (-1, w2)
      else
        match on_desync_again_send env params w2.swap bfsize with
        | none => none
        | some (r, w3) => some (r, w3.swap)
  else on_desync_again_send env params w bfsize

/-- The condition under which the selection loop of `on_desync` stops at a strategy. -/
def on_desync_match (env : Env) (dp : desync_params) (w : World) : Bool :=
  decide (dp.detect = 0)
    && (decide (dp.pf.1 = 0) || check_port dp.pf w.peer.in6)
    && (decide (dp.proto = 0) || check_proto_tcp env dp.proto w.val)
    && (match dp.hosts with
        | none => true
        | some hosts => check_host env hosts w.val)

/-- The selection loop of `on_desync` over `dp[m], dp[m+1], ...`: the value of `m`
after the loop. -/
def on_desync_scan (env : Env) (w : World) : List desync_params → Nat → Nat
  | [], m => m
  | dp :: rest, m =>
    if on_desync_match env dp w = true then m
    else on_desync_scan env w rest (m + 1)

/-- The function `on_desync`; for a readable event `val` is the client flow. -/
def on_desync (env : Env) (params : Params) (w : World) (bfsize : Int) (out : Int) :
    Option (Int × World) :=
  if out ≠ 0 then on_desync_again env params w bfsize
  else if w.val.buff.size = bfsize then
    match to_tunnel w with
    | none => none
    | some w1 => some (0, w1)
  else
    let r := env.recv w.val.fd (bfsize - w.val.buff.size)
    let w1 := w.log (Call.recv w.val.fd (bfsize - w.val.buff.size))
    let n := r.n
    if n ≤ 0 then some (-1, w1)
    else
      let w2 := { w1 with val := { w1.val with
                    buff := { w1.val.buff with size := w1.val.buff.size + n },
                    recv_count := w1.val.recv_count + n,
                    round_count := 1 } }
      if env.realloc_ok = false then
        some (-1, { w2 with val := { w2.val with buff := { w2.val.buff with data := none } } })
      else
        let data := (w2.val.buff.data.getD []) ++ r.data.take n.toNat
        let w3 := { w2 with val := { w2.val with buff := { w2.val.buff with data := some data } } }
        let m := w3.val.attempt
        let m := if m = 0 then on_desync_scan env w3 (params.dp.drop m) m else m
        if m ≥ params.dp_count then some (-1, w3)
        else
          let w4 := { w3 with val := { w3.val with attempt := m } }
          on_desync_again env params w4 bfsize

/-- The selection loop of `udp_hook`. -/
def udp_hook_scan (dst : sockaddr_ina) : List desync_params → Nat → Nat
  | [], m => m
  | dp :: rest, m =>
    if dp.detect = 0 ∧ (dp.proto = 0 ∨ dp.proto &&& IS_UDP ≠ 0)
        ∧ (dp.pf.1 = 0 ∨ check_port dp.pf dst = true) then m
    else udp_hook_scan dst rest (m + 1)

/-- The function `udp_hook`; the datagram is the first `n` bytes of `buffer`. -/
def udp_hook (env : Env) (params : Params) (w : World) (buffer : Bytes) (bfsize : Int)
    (n : Int) (dst : sockaddr_ina) : Int × World :=
  if w.val.recv_count ≠ 0 then
    (env.send w.val.fd buffer n, w.log (Call.send w.val.fd buffer n))
  else
    let m := w.val.attempt
    let m := if m = 0 then udp_hook_scan dst (params.dp.drop m) m else m
    if m ≥ params.dp_count then (-1, w)
    else
      (env.desync_udp w.val.fd buffer bfsize n dst m,
       w.log (Call.desync_udp w.val.fd n m))

/-! ## Vocabulary of the statements -/

/-- A strategy without any condition, the value of `dp_at` outside the list. -/
def neutral_dp : desync_params :=
  { detect := 0, pf := (0, 0), proto := 0, hosts := none }

/-- The strategy `params.dp[j]` (`neutral_dp` outside the list). -/
def Params.dp_at (params : Params) (j : Nat) : desync_params :=
  params.dp.getD j neutral_dp

/-- The test `detect & DETECT_TORST` of `on_torst`. -/
def torst_hit (dp : desync_params) : Bool := decide (dp.detect &&& DETECT_TORST ≠ 0)

/-- The test `detect & DETECT_TLS_ERR` of `on_fin`. -/
def tls_err_hit (dp : desync_params) : Bool := decide (dp.detect &&& DETECT_TLS_ERR ≠ 0)

/-- The flow after `on_desync` has appended the received bytes to its buffer and
updated its counters (the statements between `recv` and the selection loop). -/
def received (v : eval) (r : RecvResult) : eval :=
  { v with buff := { v.buff with size := v.buff.size + r.n,
                                 data := some ((v.buff.data.getD []) ++ r.data.take r.n.toNat) },
           recv_count := v.recv_count + r.n,
           round_count := 1 }

/-- The preconditions of a TCP strategy in the words of the specification: `detect == 0`,
the port range is absent (`pf[0] == 0`) or contains the destination port, the protocol
mask is absent or `check_proto_tcp` accepts the payload, the host set is absent or
`check_host` accepts the payload. -/
def select_tcp_cond (env : Env) (dp : desync_params) (port : Nat) (v : eval) : Prop :=
  dp.detect = 0
    ∧ (dp.pf.1 = 0 ∨ (dp.pf.1 ≤ port ∧ port ≤ dp.pf.2))
    ∧ (dp.proto = 0 ∨ check_proto_tcp env dp.proto v = true)
    ∧ (dp.hosts.all (fun hosts => check_host env hosts v) = true)

instance (env : Env) (dp : desync_params) (port : Nat) (v : eval) :
    Decidable (select_tcp_cond env dp port v) := by
  unfold select_tcp_cond
  infer_instance

/-- The common shape of the loops of `on_torst`, `on_fin` and `on_response`: walk
`dp[m], dp[m+1], ...`, stop at a strategy with `detect == 0`, otherwise take the first
strategy that `hit` accepts. -/
def detect_scan (hit : desync_params → Bool) : List desync_params → Nat → FinScan
  | [], m => FinScan.exhausted m
  | dp :: rest, m =>
    if dp.detect = 0 then FinScan.stop
    else if hit dp = true then FinScan.found m
    else detect_scan hit rest (m + 1)

/-- In the words of the specification: `m` is the first index at or after `s` whose
strategy `hit` accepts, and no strategy with `detect == 0` is met in the scan up to `m`. -/
def FirstHit (hit : desync_params → Bool) (params : Params) (s m : Nat) : Prop :=
  s ≤ m ∧ m < params.dp_count ∧ (params.dp_at m).detect ≠ 0 ∧ hit (params.dp_at m) = true
    ∧ ∀ i, i < m → s ≤ i → ((params.dp_at i).detect ≠ 0 ∧ hit (params.dp_at i) = false)

instance (hit : desync_params → Bool) (params : Params) (s m : Nat) :
    Decidable (FirstHit hit params s m) := by
  unfold FirstHit
  infer_instance

/-- In the words of the specification: the scan from `s` meets a strategy with
`detect == 0` before any strategy that `hit` accepts. -/
def StopFirst (hit : desync_params → Bool) (params : Params) (s : Nat) : Prop :=
  ∃ j, j < params.dp_count ∧ s ≤ j ∧ (params.dp_at j).detect = 0
    ∧ ∀ i, i < j → s ≤ i → ((params.dp_at i).detect ≠ 0 ∧ hit (params.dp_at i) = false)

instance (hit : desync_params → Bool) (params : Params) (s : Nat) :
    Decidable (StopFirst hit params s) := by
  unfold StopFirst
  infer_instance

/-- In the words of the specification: the scan from `s` runs to the end of the list,
meeting neither a strategy with `detect == 0` nor one that `hit` accepts. -/
def Exhausted (hit : desync_params → Bool) (params : Params) (s : Nat) : Prop :=
  ∀ i, i < params.dp_count → s ≤ i →
    ((params.dp_at i).detect ≠ 0 ∧ hit (params.dp_at i) = false)

instance (hit : desync_params → Bool) (params : Params) (s : Nat) :
    Decidable (Exhausted hit params s) := by
  unfold Exhausted
  infer_instance

/-- The destination 10.0.0.1:80 of the example flows, fields as stored in memory
(port and address in network byte order). -/
def demo_dst : sockaddr_ina :=
  { sa_family := AF_INET, sin_port := 20480, sin_addr := 16777226, sin6_addr := 0 }

/-- Four strategies: a baseline restricted to one port, an unrestricted baseline, one
countering resets and one countering TLS errors and redirects. -/
def demo_params : Params :=
  { dp := [ { detect := 0, pf := (47873, 47873), proto := 0, hosts := none },
            { detect := 0, pf := (0, 0), proto := IS_HTTP, hosts := none },
            { detect := DETECT_TORST, pf := (0, 0), proto := 0, hosts := none },
            { detect := DETECT_TLS_ERR + DETECT_HTTP_LOCAT, pf := (0, 0), proto := 0,
              hosts := none } ],
    cache_ttl := 100, auto_level := 1, timeout := 0, bfsize := 16 }

/-- An environment in which every call succeeds, `recv` yields the three bytes `GET`,
`desync` emits everything it is given and the payload is classified as HTTP. -/
def demo_env : Env :=
  { time := 1000,
    recv := fun _ _ => { n := 3, data := [71, 69, 84], errno := 0 },
    send := fun _ _ n => n,
    create_conn := fun _ _ _ => 0,
    mod_etype := fun _ _ => 0,
    setsockopt := fun _ _ _ => 0,
    desync := fun _ _ _ n _ _ _ => n,
    desync_udp := fun _ _ _ n _ _ => n,
    post_desync := fun _ _ => 0,
    mem_add_ok := true,
    realloc_ok := true,
    is_http := fun _ _ => true,
    is_tls_chello := fun _ _ => false,
    is_tls_shello := fun _ _ => false,
    neq_tls_sid := fun _ _ _ _ => false,
    is_http_redirect := fun _ _ _ _ => false,
    parse_tls := fun _ _ => (0, []),
    parse_http := fun _ _ => (0, []) }

/-- A fresh client flow. -/
def demo_client : eval :=
  { fd := 5, type := eid.EV_DESYNC, flag := 0, pair := true,
    buff := { data := none, size := 0, offset := 0 },
    attempt := 0, cache := false, mark := false,
    recv_count := 0, round_count := 0, last_round := 0, in6 := demo_dst }

/-- The upstream flow of `demo_client`. -/
def demo_upstream : eval :=
  { fd := 6, type := eid.EV_DESYNC, flag := FLAG_CONN, pair := true,
    buff := { data := none, size := 0, offset := 0 },
    attempt := 0, cache := false, mark := false,
    recv_count := 0, round_count := 0, last_round := 0, in6 := demo_dst }

/-- A readable event on the client flow, empty cache. -/
def demo_client_world : World :=
  { val := demo_client, peer := demo_upstream, mempool := [], trace := [] }

/-- The anomaly test of `on_response` in the words of the specification: `detect` has
`HTTP_LOCAT` and the response is an HTTP redirect, or `detect` has `TLS_ERR` and either a
TLS ClientHello was sent and the response is not a ServerHello, or the session ids
differ. -/
def response_anomaly (env : Env) (detect : Nat) (req : Option Bytes) (qn : Int)
    (resp : Option Bytes) (sn : Int) : Prop :=
  (detect &&& DETECT_HTTP_LOCAT ≠ 0 ∧ env.is_http_redirect req qn resp sn = true)
    ∨ (detect &&& DETECT_TLS_ERR ≠ 0
        ∧ ((env.is_tls_chello req qn = true ∧ env.is_tls_shello resp sn = false)
            ∨ env.neq_tls_sid req qn resp sn = true))

instance (env : Env) (detect : Nat) (req : Option Bytes) (qn : Int)
    (resp : Option Bytes) (sn : Int) : Decidable (response_anomaly env detect req qn resp sn) := by
  unfold response_anomaly
  infer_instance

/-- In the words of the specification: `m` is the least index with
`pair.attempt < m < dp_count` whose `detect` matches the anomaly of the response, and no
index in `[pair.attempt + 1, m]` has `detect == 0`. -/
def ResponseTarget (env : Env) (params : Params) (w : World) (resp : Option Bytes)
    (sn : Int) (m : Nat) : Prop :=
  w.peer.attempt < m ∧ m < params.dp_count
    ∧ response_anomaly env (params.dp_at m).detect w.peer.buff.data w.peer.buff.size resp sn
    ∧ (∀ j, j < m → w.peer.attempt < j →
        ¬ response_anomaly env (params.dp_at j).detect w.peer.buff.data w.peer.buff.size resp sn)
    ∧ (∀ j, j < m + 1 → w.peer.attempt < j → (params.dp_at j).detect ≠ 0)

instance (env : Env) (params : Params) (w : World) (resp : Option Bytes) (sn : Int)
    (m : Nat) : Decidable (ResponseTarget env params w resp sn m) := by
  unfold ResponseTarget
  infer_instance

/-- The calls a handler added to the trace of `w` (none when it aborted). -/
def new_calls (w : World) (res : Option (Int × World)) : List Call :=
  match res with
  | none => []
  | some (_, w') => w'.trace.drop w.trace.length

/-- In the words of the specification: a reconnect is possible when the first-payload
buffer of the client is still held and no bytes have been received from upstream. -/
def can_reconn (w : World) : Prop :=
  w.peer.buff.data.isSome = true ∧ w.val.recv_count = 0

instance (w : World) : Decidable (can_reconn w) := by
  unfold can_reconn
  infer_instance

/-- The world after `mode_add_get(&val->in6, m)` with `m > 0`: `mem_add` has been called
for the destination and, when it succeeded, `m` is stored for it at time `env.time`;
when it failed the cache is as before. -/
def World.stored (w : World) (env : Env) (m : Nat) : World :=
  { w with mempool := if env.mem_add_ok = true
                      then mem_add w.mempool (cache_key w.val.in6) { m := m, time := env.time }
                      else w.mempool,
           trace := w.trace ++ [Call.mem_add (cache_key w.val.in6) m env.time] }

/-- The staleness test of the lookup in `mode_add_get`, `t > val->time + params.cache_ttl`,
with the sum as the program computes it. -/
def ttl_expired (env : Env) (params : Params) (e : elem) : Prop :=
  env.time > wrap_time (e.time + params.cache_ttl)

instance (env : Env) (params : Params) (e : elem) : Decidable (ttl_expired env params e) := by
  unfold ttl_expired
  infer_instance

/-- The sum `last_used + cache_ttl` of an entry is a value of `time_t`: the addition in
the staleness test of the lookup does not overflow. -/
def ttl_sum_in_range (params : Params) (e : elem) : Prop :=
  -9223372036854775808 ≤ e.time + params.cache_ttl
    ∧ e.time + params.cache_ttl < 9223372036854775808

instance (params : Params) (e : elem) : Decidable (ttl_sum_in_range params e) := by
  unfold ttl_sum_in_range
  infer_instance

/-- The environment `demo_env` out of memory: `realloc` and the allocation inside
`mem_add` fail. -/
def demo_env_nomem : Env :=
  { demo_env with mem_add_ok := false, realloc_ok := false }

/-- The strategies of `demo_params` with the largest `cache_ttl` a `long` holds. -/
def demo_params_ttl_max : Params :=
  { demo_params with cache_ttl := 9223372036854775807 }

/-- The world after `mode_add_get(&val->in6, 0)` has deleted the entry of the
destination. -/
def World.deleted (w : World) : World :=
  { w with mempool := mem_delete w.mempool (cache_key w.val.in6),
           trace := w.trace ++ [Call.mem_delete (cache_key w.val.in6)] }

/-- The client flow after its first payload `GET` was sent with strategy 1. -/
def demo_client_sent : eval :=
  { demo_client with buff := { data := some [71, 69, 84], size := 3, offset := 3 },
                     attempt := 1, recv_count := 3, round_count := 1 }

/-- An event on the upstream flow while the client still holds its first payload; the
cache holds strategy 1 for the destination, stored at time 990. -/
def demo_upstream_world : World :=
  { val := demo_upstream, peer := demo_client_sent,
    mempool := [(cache_key demo_dst, { m := 1, time := 990 })], trace := [] }

/-- The two strategies of the reset scenario of the specification: a baseline and one
countering resets. -/
def demo_params_torst : Params :=
  { dp := [ { detect := 0, pf := (0, 0), proto := 0, hosts := none },
            { detect := DETECT_TORST, pf := (0, 0), proto := 0, hosts := none } ],
    cache_ttl := 100, auto_level := 1, timeout := 0, bfsize := 16 }

/-- The environment `demo_env` with an upstream that answers by an HTTP redirect. -/
def demo_env_redirect : Env :=
  { demo_env with is_http_redirect := fun _ _ _ _ => true }

/-- In the words of the specification: the FIN counts as a TLS-handshake failure when a
reconnect is possible and the first payload is a TLS ClientHello, or when no reconnect
is possible, `auto_level >= 1`, the flow is marked and `round_count <= 1`. -/
def tls_failure (env : Env) (params : Params) (w : World) : Prop :=
  (can_reconn w ∧ env.is_tls_chello w.peer.buff.data w.peer.buff.size = true)
    ∨ (¬ can_reconn w ∧ params.auto_level ≥ 1 ∧ w.val.mark = true ∧ w.val.round_count ≤ 1)

instance (env : Env) (params : Params) (w : World) : Decidable (tls_failure env params w) := by
  unfold tls_failure
  infer_instance

/-- An upstream flow that already received bytes in a first round and is marked as TLS. -/
def demo_upstream_marked : eval :=
  { demo_upstream with mark := true, recv_count := 7, round_count := 1, last_round := 1 }

/-- An event on the marked upstream flow; the client has released its buffer. -/
def demo_marked_world : World :=
  { val := demo_upstream_marked,
    peer := { demo_client_sent with buff := { data := none, size := 0, offset := 0 } },
    mempool := [], trace := [] }

/-- A client flow that was dialed while a stale entry was in the cache: baseline
strategy, `cache` flag set, first payload sent and still held. -/
def demo_client_stale : eval :=
  { demo_client with buff := { data := some [71, 69, 84], size := 3, offset := 3 },
                     attempt := 0, cache := true, recv_count := 3, round_count := 1 }

/-- The dial of a client flow while the cache holds strategy 1 for the destination,
stored at time 0 (older than `cache_ttl`). -/
def demo_stale_dial_world : World :=
  { val := demo_client, peer := demo_upstream,
    mempool := [(cache_key demo_dst, { m := 1, time := 0 })], trace := [] }

/-- The first payload of that flow arrives: the flow has `attempt = 0` and the `cache`
flag set, as `connect_hook` left it. -/
def demo_stale_first_world : World :=
  { val := { demo_client with cache := true }, peer := demo_upstream,
    mempool := [(cache_key demo_dst, { m := 1, time := 0 })], trace := [] }

/-- The first upstream read of that flow; the cache still holds the stale entry. -/
def demo_commit_world : World :=
  { val := demo_upstream, peer := demo_client_stale,
    mempool := [(cache_key demo_dst, { m := 1, time := 0 })], trace := [] }

/-- The environment `demo_env_redirect` with a `create_conn` that fails. -/
def demo_env_redirect_noconn : Env :=
  { demo_env_redirect with create_conn := fun _ _ _ => -1 }

/-- The first upstream read of a flow that reconnected with strategy 2 after a reset:
`attempt = 2`, `cache` flag set, first payload still held, empty cache. -/
def demo_cached_world : World :=
  { val := demo_upstream, peer := { demo_client_sent with attempt := 2, cache := true },
    mempool := [], trace := [] }

/-- In the words of the specification: a destination of family `AF_INET` or `AF_INET6`
whose fields fit their C types (16-bit port, 32-bit IPv4 address, 128-bit IPv6
address). -/
def wf_dst (d : sockaddr_ina) : Prop :=
  (d.sa_family = AF_INET ∨ d.sa_family = AF_INET6)
    ∧ d.sin_port < 256 ^ 2 ∧ d.sin_addr < 256 ^ 4 ∧ d.sin6_addr < 256 ^ 16

instance (d : sockaddr_ina) : Decidable (wf_dst d) := by
  unfold wf_dst
  infer_instance

/-- The address of a destination: the IPv4 address for `AF_INET`, the IPv6 address
otherwise. -/
def addr_of (d : sockaddr_ina) : Nat :=
  if d.sa_family = AF_INET then d.sin_addr else d.sin6_addr

/-- The environment `demo_env` with a `desync` that returns the bytes it consumed from
`buf[offset..len]`: 500 bytes on the first call, the whole rest on a resumed call. -/
def demo_env_partial : Env :=
  { demo_env with desync := fun _ _ _ n offset _ _ => if offset = 0 then 500 else n - offset }

/-- The strategies of `demo_params` with a first-payload buffer of 16384 bytes. -/
def demo_params_big : Params :=
  { demo_params with bfsize := 16384 }

/-- A writable event for a client flow that holds a first payload of 1200 bytes, none
of them emitted yet. -/
def demo_payload_world : World :=
  { val := { demo_client with
      buff := { data := some (List.replicate 1200 0), size := 1200, offset := 0 },
      attempt := 1, recv_count := 1200, round_count := 1 },
    peer := demo_upstream, mempool := [], trace := [] }

/-- The same flow after the first call of `on_desync_again` emitted 500 bytes:
`offset = 500`, upstream in `DESYNC`. -/
def demo_payload_resumed : World :=
  { val := { demo_payload_world.val with
      buff := { data := some (List.replicate 1200 0), size := 1200, offset := 500 } },
    peer := { demo_upstream with type := eid.EV_DESYNC }, mempool := [], trace := [] }

/-- In the words of the specification: the IPv4-mapped IPv6 address `::ffff:a` of the
IPv4 address `a`, as the number its 16 bytes in memory spell (ten zero bytes, two bytes
`0xff`, then the four bytes of `a`). -/
def v4_mapped (a : Nat) : Nat :=
  255 * 256 ^ 10 + 255 * 256 ^ 11 + a * 256 ^ 12

/-- The destination with IPv4 address `a` and port `p`, family `AF_INET`. -/
def dst_v4 (p a : Nat) : sockaddr_ina :=
  { sa_family := AF_INET, sin_port := p, sin_addr := a, sin6_addr := 0 }

/-- The same destination in IPv6 form: family `AF_INET6`, address `::ffff:a`. -/
def dst_v4_mapped (p a : Nat) : sockaddr_ina :=
  { sa_family := AF_INET6, sin_port := p, sin_addr := 0, sin6_addr := v4_mapped a }

/-- The preconditions of a UDP strategy in the words of the specification:
`detect == 0`, the protocol mask is absent or includes UDP, the port range is absent
(`pf[0] == 0`) or contains the destination port; no host check. -/
def select_udp_cond (dp : desync_params) (port : Nat) : Prop :=
  dp.detect = 0
    ∧ (dp.proto = 0 ∨ dp.proto &&& IS_UDP ≠ 0)
    ∧ (dp.pf.1 = 0 ∨ (dp.pf.1 ≤ port ∧ port ≤ dp.pf.2))

instance (dp : desync_params) (port : Nat) : Decidable (select_udp_cond dp port) := by
  unfold select_udp_cond
  infer_instance

/-- Two strategies for datagrams: a baseline restricted to one port and a baseline for
UDP on any port. -/
def demo_params_udp : Params :=
  { dp := [ { detect := 0, pf := (47873, 47873), proto := 0, hosts := none },
            { detect := 0, pf := (0, 0), proto := IS_UDP, hosts := none } ],
    cache_ttl := 100, auto_level := 0, timeout := 0, bfsize := 16 }

/-- In the words of the specification: the suffixes of a host name that start
immediately after a `.` character, longest first. -/
def dot_suffixes : Bytes → List Bytes
  | [] => []
  | b :: t => if b = 46 then t :: dot_suffixes t else dot_suffixes t

/-- In the words of the specification: the candidates looked up for a host, the full
host and then its suffixes at each `.` boundary (drop-first-label, drop-second-label,
...), the empty ones left out. -/
def host_candidates (host : Bytes) : List Bytes :=
  (host :: dot_suffixes host).filter (fun c => decide (c ≠ []))

/-- In the words of the specification: the host `check_host` extracts from the buffer
of a flow, the TLS SNI when `parse_tls` returns a non-zero length and the HTTP Host
otherwise, as the pair of the length returned and the bytes of the host. -/
def extracted_host (env : Env) (val : eval) : Int × Bytes :=
  let r := env.parse_tls val.buff.data val.buff.size
  let r := if r.1 = 0 then env.parse_http val.buff.data val.buff.size else r
  (r.1, r.2.take r.1.toNat)

/-- The environment `demo_env` with an HTTP parser that finds the host `a.b.c`. -/
def demo_env_host : Env :=
  { demo_env with parse_http := fun _ _ => (5, [97, 46, 98, 46, 99]) }

/-- The number of completed reconnects recorded in a trace: `del_event` is called by
`reconnect` only, after `create_conn` has succeeded. -/
def reconnects (tr : List Call) : Nat :=
  tr.countP (fun c => match c with
    | Call.del_event _ => true
    | _ => false)

/-- The worlds `w'` in which both flows have the `attempt` they have in `w` and the
trace records as many completed reconnects as in `w`. -/
def Quiet (w w' : World) : Prop :=
  w'.peer.attempt = w.peer.attempt ∧ w'.val.attempt = w.val.attempt
    ∧ reconnects w'.trace = reconnects w.trace

/-- The worlds `w'` reached from `w` by one completed reconnect: one more `del_event` in
the trace, the client's `attempt` raised to an index below `dp_count`, the upstream
flow's `attempt` as before. -/
def Reconnected (params : Params) (w w' : World) : Prop :=
  reconnects w'.trace = reconnects w.trace + 1
    ∧ w.peer.attempt < w'.peer.attempt ∧ w'.peer.attempt < params.dp_count
    ∧ w'.val.attempt = w.val.attempt

/-- One event handled for a pair of flows, seen from the upstream flow (`val` is the
upstream flow, `peer` the client flow): a readable or writable event in state `DESYNC`
on the client or on the upstream flow, the first upstream read in `on_tunnel_check` or
one of its classifiers called on its own, and the pairing of the client with a fresh
upstream flow (what `create_conn` does after a reconnect). Every handler may run in
another environment. -/
inductive Event (params : Params) : World → World → Prop where
  | on_desync (env : Env) (w : World) (bfsize out r : Int) (w' : World) :
      on_desync env params w.swap bfsize out = some (r, w') → Event params w w'.swap
  | on_desync_upstream (env : Env) (w : World) (bfsize out r : Int) (w' : World) :
      on_desync env params w bfsize out = some (r, w') → Event params w w'
  | on_desync_again (env : Env) (w : World) (bfsize r : Int) (w' : World) :
      on_desync_again env params w.swap bfsize = some (r, w') → Event params w w'.swap
  | on_desync_again_upstream (env : Env) (w : World) (bfsize r : Int) (w' : World) :
      on_desync_again env params w bfsize = some (r, w') → Event params w w'
  | on_tunnel_check (env : Env) (w : World) (bfsize out r : Int) (w' : World) :
      on_tunnel_check env params w bfsize out = some (r, w') → Event params w w'
  | on_torst (env : Env) (w : World) (r : Int) (w' : World) :
      on_torst env params w = some (r, w') → Event params w w'
  | on_fin (env : Env) (w : World) (r : Int) (w' : World) :
      on_fin env params w = some (r, w') → Event params w w'
  | on_response (env : Env) (w : World) (resp : Option Bytes) (sn : Int) :
      Event params w (on_response env params w resp sn).2
  | paired (w : World) (v : eval) : Event params w { w with val := v }

/-- One step of a client flow: an event, or a call of `reconnect` with an index of at
least `attempt + 1` (as the failure classifiers issue it). -/
inductive Step (params : Params) : World → World → Prop where
  | event (w w' : World) : Event params w w' → Step params w w'
  | reconnect (env : Env) (w : World) (m : Nat) :
      w.peer.attempt + 1 ≤ m → Step params w (reconnect env w m).2

/-- The worlds `w'` in which both flows have the strategy choice (`attempt`, `cache`),
the destination and the buffered payload they have in `w`, and the cache is the same. -/
def SameChoice (w w' : World) : Prop :=
  w'.peer.attempt = w.peer.attempt ∧ w'.peer.cache = w.peer.cache
    ∧ w'.peer.in6 = w.peer.in6 ∧ w'.peer.buff.data = w.peer.buff.data
    ∧ w'.val.attempt = w.val.attempt ∧ w'.val.cache = w.val.cache
    ∧ w'.val.in6 = w.val.in6 ∧ w'.val.buff.data = w.val.buff.data
    ∧ w'.mempool = w.mempool

/-- The flows of `demo_fresh_world` after the upstream was reset, the client was
reconnected with strategy 1 and the held payload was sent again through the new
upstream flow: upstream in `PRE_TUNNEL`, client `attempt = 1` with the `cache` flag set,
and the calls made so far. -/
def demo_resent_world : World :=
  { val := { demo_upstream with type := eid.EV_PRE_TUNNEL },
    peer := { demo_client with type := eid.EV_IGNORE,
                               buff := { data := some [71, 69, 84], size := 3, offset := 3 },
                               attempt := 1, cache := true, recv_count := 3, round_count := 1 },
    mempool := [],
    trace := [Call.create_conn 5 demo_dst eid.EV_DESYNC, Call.del_event 6,
              Call.mod_etype 6 POLLIN, Call.mod_etype 5 POLLIN, Call.desync 6 3 0 1] }

/-! ## Lemmas on the scans -/

theorem dp_at_drop (params : Params) (s j : Nat) :
    (params.dp.drop s).getD j neutral_dp
      = params.dp_at (s + j) := by
  simp [Params.dp_at, List.getD, List.getElem?_drop]

theorem on_desync_match_iff (env : Env) (dp : desync_params) (w : World) :
    on_desync_match env dp w = true ↔ select_tcp_cond env dp w.peer.in6.sin_port w.val := by
  unfold on_desync_match select_tcp_cond check_port
  cases h : dp.hosts <;> simp [and_assoc]

theorem on_desync_scan_spec (env : Env) (w : World) :
    ∀ (l : List desync_params) (s : Nat),
      s ≤ on_desync_scan env w l s ∧ on_desync_scan env w l s ≤ s + l.length
      ∧ (∀ j, j < on_desync_scan env w l s - s →
          on_desync_match env (l.getD j neutral_dp) w
            = false)
      ∧ (on_desync_scan env w l s < s + l.length →
          on_desync_match env
            (l.getD (on_desync_scan env w l s - s) neutral_dp) w = true) := by
  intro l
  induction l with
  | nil => intro s; simp [on_desync_scan]
  | cons d rest ih =>
    intro s
    by_cases hd : on_desync_match env d w = true
    · simp [on_desync_scan, hd]
    · have ih1 := ih (s + 1)
      have hs : on_desync_scan env w (d :: rest) s = on_desync_scan env w rest (s + 1) := by
        simp [on_desync_scan, hd]
      rw [hs]
      obtain ⟨h1, h2, h3, h4⟩ := ih1
      refine ⟨by omega, by simp; omega, ?_, ?_⟩
      · intro j hj
        cases j with
        | zero => simpa using hd
        | succ k =>
          have := h3 k (by omega)
          simpa using this
      · intro hlt
        have hlt2 : on_desync_scan env w rest (s + 1) < s + 1 + rest.length := by
          simp at hlt; omega
        have := h4 hlt2
        have e : on_desync_scan env w rest (s + 1) - s
            = (on_desync_scan env w rest (s + 1) - (s + 1)) + 1 := by omega
        rw [e]
        simpa using this

/-! ## `on_desync_again` keeps `attempt` -/

theorem on_desync_again_send_attempt (env : Env) (params : Params) (w : World) (bfsize : Int)
    (h : 0 < w.val.buff.size ∧ w.val.buff.size ≤ params.bfsize) :
    ∃ r w', on_desync_again_send env params w bfsize = some (r, w')
      ∧ w'.val.attempt = w.val.attempt ∧ w'.peer.attempt = w.peer.attempt := by
  unfold on_desync_again_send
  simp only [h, gt_iff_lt, and_self, not_true_eq_false, if_false, set_timeout, World.log]
  split_ifs <;> exact ⟨_, _, rfl, rfl, rfl⟩

theorem on_desync_again_attempt (env : Env) (params : Params) (w : World) (bfsize : Int)
    (h : if w.val.flag = FLAG_CONN
         then 0 < w.peer.buff.size ∧ w.peer.buff.size ≤ params.bfsize
         else 0 < w.val.buff.size ∧ w.val.buff.size ≤ params.bfsize) :
    ∃ r w', on_desync_again env params w bfsize = some (r, w')
      ∧ w'.val.attempt = w.val.attempt := by
  unfold on_desync_again
  by_cases hf : w.val.flag = FLAG_CONN
  · simp only [hf, if_true] at h ⊢
    obtain ⟨r, w', e, _, hp⟩ := on_desync_again_send_attempt env params
      ((w.log (Call.mod_etype w.val.fd POLLIN)).log
        (Call.mod_etype (w.log (Call.mod_etype w.val.fd POLLIN)).peer.fd POLLIN)).swap
      bfsize h
    split_ifs
    · exact ⟨_, _, rfl, rfl⟩
    · exact ⟨_, _, rfl, rfl⟩
    · rw [e]
      exact ⟨r, w'.swap, rfl, hp⟩
  · simp only [hf, if_false] at h ⊢
    obtain ⟨r, w', e, hv, _⟩ := on_desync_again_send_attempt env params w bfsize h
    exact ⟨r, w', e, hv⟩

/-! ## C1 -/

theorem on_desync_again_send_same (env : Env) (params : Params) (w : World) (bfsize : Int)
    (r : Int) (w' : World) (h : on_desync_again_send env params w bfsize = some (r, w')) :
    SameChoice w w' := by
  unfold on_desync_again_send at h
  simp only [set_timeout, World.log] at h
  split_ifs at h <;>
    (simp only [Option.some.injEq, Prod.mk.injEq] at h
     obtain ⟨_, rfl⟩ := h
     exact ⟨rfl, rfl, rfl, rfl, rfl, rfl, rfl, rfl, rfl⟩)

theorem on_desync_again_same (env : Env) (params : Params) (w : World) (bfsize : Int)
    (r : Int) (w' : World) (h : on_desync_again env params w bfsize = some (r, w')) :
    SameChoice w w' := by
  unfold on_desync_again at h
  by_cases hf : w.val.flag = FLAG_CONN
  · simp only [hf, if_true] at h
    by_cases h1 : env.mod_etype w.val.fd POLLIN ≠ 0
    · rw [if_pos h1] at h
      simp only [Option.some.injEq, Prod.mk.injEq] at h
      obtain ⟨_, rfl⟩ := h
      exact ⟨rfl, rfl, rfl, rfl, rfl, rfl, rfl, rfl, rfl⟩
    · rw [if_neg h1] at h
      by_cases h2 : env.mod_etype (w.log (Call.mod_etype w.val.fd POLLIN)).peer.fd POLLIN ≠ 0
      · rw [if_pos h2] at h
        simp only [Option.some.injEq, Prod.mk.injEq] at h
        obtain ⟨_, rfl⟩ := h
        exact ⟨rfl, rfl, rfl, rfl, rfl, rfl, rfl, rfl, rfl⟩
      · rw [if_neg h2] at h
        cases hs : on_desync_again_send env params
            ((w.log (Call.mod_etype w.val.fd POLLIN)).log
              (Call.mod_etype (w.log (Call.mod_etype w.val.fd POLLIN)).peer.fd POLLIN)).swap
            bfsize with
        | none =>
          rw [hs] at h
          exact Option.noConfusion h
        | some p =>
          obtain ⟨r1, w3⟩ := p
          rw [hs] at h
          simp only [Option.some.injEq, Prod.mk.injEq] at h
          obtain ⟨_, rfl⟩ := h
          obtain ⟨a1, a2, a3, a4, a5, a6, a7, a8, a9⟩ :=
            on_desync_again_send_same env params _ bfsize r1 w3 hs
          exact ⟨a5, a6, a7, a8, a1, a2, a3, a4, a9⟩
  · simp only [hf, if_false] at h
    exact on_desync_again_send_same env params w bfsize r w' h

/-- C1, counterexample: a first payload arrives on a flow with `attempt = 0`, `recv`
returns 3 bytes and strategy 1 is the least one whose preconditions hold, but `realloc`
fails: `on_desync` returns -1 and `attempt` is still 0, not 1. -/
theorem on_desync_realloc_failure :
    demo_client_world.val.attempt = 0
      ∧ 0 < (demo_env_nomem.recv demo_client_world.val.fd
              (16 - demo_client_world.val.buff.size)).n
      ∧ select_tcp_cond demo_env_nomem (demo_params.dp_at 1)
          demo_client_world.peer.in6.sin_port
          (received demo_client_world.val
            (demo_env_nomem.recv demo_client_world.val.fd
              (16 - demo_client_world.val.buff.size)))
      ∧ ¬ select_tcp_cond demo_env_nomem (demo_params.dp_at 0)
          demo_client_world.peer.in6.sin_port
          (received demo_client_world.val
            (demo_env_nomem.recv demo_client_world.val.fd
              (16 - demo_client_world.val.buff.size)))
      ∧ (on_desync demo_env_nomem demo_params demo_client_world 16 0).map
          (fun p => (p.1, p.2.val.attempt)) = some (-1, 0) := by
  decide

/-- C1 (amended): TCP strategy selection in `on_desync`. For a readable event on a flow
whose `attempt` is 0, whose buffer is not full and whose `recv` returned `n > 0` bytes:
when the `realloc` of the first-payload buffer succeeds, `on_desync` sets the flow's
`attempt` to the least index `m < dp_count` whose strategy has `detect == 0` and meets
every present precondition (port range, `check_proto_tcp`, `check_host` on the
accumulated payload) and goes on as `on_desync_again` on that flow, which keeps
`attempt`: whatever `on_desync` returns, `attempt` is `m`, and it does return when the
size assertion of `on_desync_again` is met; if no index meets the preconditions it
returns -1 and `attempt` is still 0. When `realloc` fails it returns -1 and `attempt` is
still 0, whatever the strategies. -/
theorem on_desync_selects_least (env : Env) (params : Params) (w : World) (bfsize : Int)
    (hatt : w.val.attempt = 0)
    (hsize : w.val.buff.size ≠ bfsize)
    (hrecv : 0 < (env.recv w.val.fd (bfsize - w.val.buff.size)).n) :
    (env.realloc_ok = true →
      (∀ m, m < params.dp_count →
        select_tcp_cond env (params.dp_at m) w.peer.in6.sin_port
          (received w.val (env.recv w.val.fd (bfsize - w.val.buff.size))) →
        (∀ j, j < m → ¬ select_tcp_cond env (params.dp_at j) w.peer.in6.sin_port
          (received w.val (env.recv w.val.fd (bfsize - w.val.buff.size)))) →
        (∃ w4, on_desync env params w bfsize 0 = on_desync_again env params w4 bfsize
            ∧ w4.val.attempt = m)
          ∧ (∀ r w', on_desync env params w bfsize 0 = some (r, w') → w'.val.attempt = m)
          ∧ ((if w.val.flag = FLAG_CONN
              then 0 < w.peer.buff.size ∧ w.peer.buff.size ≤ params.bfsize
              else 0 < w.val.buff.size + (env.recv w.val.fd (bfsize - w.val.buff.size)).n
                ∧ w.val.buff.size + (env.recv w.val.fd (bfsize - w.val.buff.size)).n
                    ≤ params.bfsize) →
              ∃ r w', on_desync env params w bfsize 0 = some (r, w') ∧ w'.val.attempt = m))
      ∧ ((∀ j, j < params.dp_count →
            ¬ select_tcp_cond env (params.dp_at j) w.peer.in6.sin_port
              (received w.val (env.recv w.val.fd (bfsize - w.val.buff.size)))) →
          ∃ w', on_desync env params w bfsize 0 = some (-1, w')
            ∧ w'.val.attempt = w.val.attempt))
    ∧ (env.realloc_ok = false →
        ∃ w', on_desync env params w bfsize 0 = some (-1, w')
          ∧ w'.val.attempt = w.val.attempt) := by
  constructor
  swap
  · intro hre
    unfold on_desync
    simp only [ne_eq, not_true_eq_false, if_false, hsize, not_le.mpr hrecv, World.log]
    rw [if_pos hre]
    exact ⟨_, rfl, rfl⟩
  intro hrealloc
  have hon : on_desync env params w bfsize 0 =
      (if on_desync_scan env
            { w with val := received w.val (env.recv w.val.fd (bfsize - w.val.buff.size)),
                     trace := w.trace ++ [Call.recv w.val.fd (bfsize - w.val.buff.size)] }
            params.dp 0 ≥ params.dp_count
       then some (-1,
            { w with val := received w.val (env.recv w.val.fd (bfsize - w.val.buff.size)),
                     trace := w.trace ++ [Call.recv w.val.fd (bfsize - w.val.buff.size)] })
       else on_desync_again env params
            { w with val :=
                { received w.val (env.recv w.val.fd (bfsize - w.val.buff.size)) with
                  attempt := on_desync_scan env
                    { w with val := received w.val (env.recv w.val.fd (bfsize - w.val.buff.size)),
                             trace := w.trace ++ [Call.recv w.val.fd (bfsize - w.val.buff.size)] }
                    params.dp 0 },
                     trace := w.trace ++ [Call.recv w.val.fd (bfsize - w.val.buff.size)] }
            bfsize) := by
    unfold on_desync
    simp only [ne_eq, not_true_eq_false, if_false, hsize, not_le.mpr hrecv, hrealloc,
      Bool.true_eq_false, World.log, hatt, if_true, List.drop_zero, received]
  have hm : ∀ d : desync_params,
      on_desync_match env d
          { w with val := received w.val (env.recv w.val.fd (bfsize - w.val.buff.size)),
                   trace := w.trace ++ [Call.recv w.val.fd (bfsize - w.val.buff.size)] } = true
        ↔ select_tcp_cond env d w.peer.in6.sin_port
            (received w.val (env.recv w.val.fd (bfsize - w.val.buff.size))) :=
    fun d => on_desync_match_iff env d _
  obtain ⟨_, h2, h3, h4⟩ := on_desync_scan_spec env
    { w with val := received w.val (env.recv w.val.fd (bfsize - w.val.buff.size)),
             trace := w.trace ++ [Call.recv w.val.fd (bfsize - w.val.buff.size)] } params.dp 0
  have hd := dp_at_drop params 0
  simp only [List.drop_zero, Nat.zero_add, Nat.sub_zero] at hd h2 h3 h4
  simp only [hd] at h3 h4
  rw [hon]
  constructor
  · intro m hmlt hcond hleast
    have hscan : on_desync_scan env
        { w with val := received w.val (env.recv w.val.fd (bfsize - w.val.buff.size)),
                 trace := w.trace ++ [Call.recv w.val.fd (bfsize - w.val.buff.size)] }
        params.dp 0 = m := by
      rcases Nat.lt_trichotomy (on_desync_scan env
        { w with val := received w.val (env.recv w.val.fd (bfsize - w.val.buff.size)),
                 trace := w.trace ++ [Call.recv w.val.fd (bfsize - w.val.buff.size)] }
        params.dp 0) m with hlt | heq | hgt
      · exfalso
        have hl : on_desync_scan env
            { w with val := received w.val (env.recv w.val.fd (bfsize - w.val.buff.size)),
                     trace := w.trace ++ [Call.recv w.val.fd (bfsize - w.val.buff.size)] }
            params.dp 0 < params.dp.length := lt_trans hlt hmlt
        exact hleast _ hlt ((hm _).1 (h4 hl))
      · exact heq
      · exfalso
        have := h3 m hgt
        rw [(hm _).2 hcond] at this
        exact Bool.noConfusion this
    rw [hscan, if_neg (by simpa [Params.dp_count] using hmlt)]
    refine ⟨⟨_, rfl, rfl⟩, ?_, ?_⟩
    · intro r w' hcall
      exact (on_desync_again_same env params _ bfsize r w' hcall).2.2.2.2.1
    · intro hassert
      obtain ⟨r, w', e, ha⟩ := on_desync_again_attempt env params
        { w with val :=
            { received w.val (env.recv w.val.fd (bfsize - w.val.buff.size)) with attempt := m },
                 trace := w.trace ++ [Call.recv w.val.fd (bfsize - w.val.buff.size)] }
        bfsize hassert
      exact ⟨r, w', e, ha⟩
  · intro hnone
    have hge : on_desync_scan env
        { w with val := received w.val (env.recv w.val.fd (bfsize - w.val.buff.size)),
                 trace := w.trace ++ [Call.recv w.val.fd (bfsize - w.val.buff.size)] }
        params.dp 0 ≥ params.dp_count := by
      by_contra hlt
      have hl : on_desync_scan env
          { w with val := received w.val (env.recv w.val.fd (bfsize - w.val.buff.size)),
                   trace := w.trace ++ [Call.recv w.val.fd (bfsize - w.val.buff.size)] }
          params.dp 0 < params.dp.length := by
        simpa [Params.dp_count] using hlt
      exact hnone _ hl ((hm _).1 (h4 hl))
    rw [if_pos hge]
    exact ⟨_, rfl, rfl⟩

/-- Witness of C1 (amended): with the demo strategies strategy 0 is restricted to another
port and strategy 1 accepts the HTTP payload, so `on_desync` returns with `attempt = 1`. -/
theorem on_desync_selects_least_witness :
    demo_client_world.val.attempt = 0
      ∧ ∃ r w', on_desync demo_env demo_params demo_client_world 16 0 = some (r, w')
          ∧ w'.val.attempt = 1 :=
  ⟨rfl, (((on_desync_selects_least demo_env demo_params demo_client_world 16
    (by decide) (by decide) (by decide)).1 rfl).1 1
    (by decide) (by decide) (by decide)).2.2 (by decide)⟩

/-! ## The scans of the failure classifier -/

theorem detect_scan_list_spec (hit : desync_params → Bool) :
    ∀ (l : List desync_params) (s : Nat),
      match detect_scan hit l s with
      | FinScan.stop =>
        ∃ j, j < l.length ∧ (l.getD j neutral_dp).detect = 0
          ∧ ∀ i, i < j → ((l.getD i neutral_dp).detect ≠ 0 ∧ hit (l.getD i neutral_dp) = false)
      | FinScan.found m =>
        s ≤ m ∧ m - s < l.length ∧ (l.getD (m - s) neutral_dp).detect ≠ 0
          ∧ hit (l.getD (m - s) neutral_dp) = true
          ∧ ∀ i, i < m - s →
              ((l.getD i neutral_dp).detect ≠ 0 ∧ hit (l.getD i neutral_dp) = false)
      | FinScan.exhausted m =>
        m = s + l.length
          ∧ ∀ i, i < l.length →
              ((l.getD i neutral_dp).detect ≠ 0 ∧ hit (l.getD i neutral_dp) = false) := by
  intro l
  induction l with
  | nil => intro s; simp [detect_scan]
  | cons d rest ih =>
    intro s
    by_cases hd : d.detect = 0
    · simp only [detect_scan, hd, if_true]
      exact ⟨0, by simp, by simpa using hd, by intro i hi; omega⟩
    · by_cases hh : hit d = true
      · simp only [detect_scan, hd, hh, if_true, if_false]
        refine ⟨le_refl _, by simp, by simpa using hd, by simpa using hh, ?_⟩
        intro i hi
        omega
      · have hh2 : hit d = false := by simpa using hh
        have e : detect_scan hit (d :: rest) s = detect_scan hit rest (s + 1) := by
          simp [detect_scan, hd, hh2]
        rw [e]
        have ih1 := ih (s + 1)
        cases hres : detect_scan hit rest (s + 1) with
        | stop =>
          rw [hres] at ih1
          obtain ⟨j, hj, hz, hall⟩ := ih1
          refine ⟨j + 1, by simpa using hj, by simpa using hz, ?_⟩
          intro i hi
          cases i with
          | zero => exact ⟨by simpa using hd, by simpa using hh2⟩
          | succ k => simpa using hall k (by omega)
        | found m =>
          rw [hres] at ih1
          obtain ⟨h1, h2, h3, h4, hall⟩ := ih1
          have em : m - s = (m - (s + 1)) + 1 := by omega
          refine ⟨by omega, by simp; omega, ?_, ?_, ?_⟩
          · rw [em]; simpa using h3
          · rw [em]; simpa using h4
          · intro i hi
            cases i with
            | zero => exact ⟨by simpa using hd, by simpa using hh2⟩
            | succ k => simpa using hall k (by omega)
        | exhausted m =>
          rw [hres] at ih1
          obtain ⟨h1, hall⟩ := ih1
          refine ⟨by simp; omega, ?_⟩
          intro i hi
          cases i with
          | zero => exact ⟨by simpa using hd, by simpa using hh2⟩
          | succ k => simpa using hall k (by simpa using hi)

theorem detect_scan_spec (hit : desync_params → Bool) (params : Params) (s : Nat) :
    match detect_scan hit (params.dp.drop s) s with
    | FinScan.stop => StopFirst hit params s
    | FinScan.found m => FirstHit hit params s m
    | FinScan.exhausted m => m = max s params.dp_count ∧ Exhausted hit params s := by
  have h := detect_scan_list_spec hit (params.dp.drop s) s
  have hd := dp_at_drop params s
  cases hres : detect_scan hit (params.dp.drop s) s with
  | stop =>
    rw [hres] at h
    obtain ⟨j, hj, hz, hall⟩ := h
    simp only [hd, List.length_drop] at hj hz hall
    refine ⟨s + j, by unfold Params.dp_count; omega, by omega, hz, ?_⟩
    intro i hi hsi
    have := hall (i - s) (by omega)
    rwa [show s + (i - s) = i by omega] at this
  | found m =>
    rw [hres] at h
    obtain ⟨h1, h2, h3, h4, hall⟩ := h
    simp only [hd, List.length_drop] at h2 h3 h4 hall
    rw [show s + (m - s) = m by omega] at h3 h4
    refine ⟨h1, by unfold Params.dp_count; omega, h3, h4, ?_⟩
    intro i hi hsi
    have := hall (i - s) (by omega)
    rwa [show s + (i - s) = i by omega] at this
  | exhausted m =>
    rw [hres] at h
    obtain ⟨h1, hall⟩ := h
    simp only [hd, List.length_drop] at h1 hall
    refine ⟨by unfold Params.dp_count; omega, ?_⟩
    intro i hi hsi
    have := hall (i - s) (by unfold Params.dp_count at hi; omega)
    rwa [show s + (i - s) = i by omega] at this

theorem detect_scan_found (hit : desync_params → Bool) (params : Params) (s m : Nat)
    (h : FirstHit hit params s m) :
    detect_scan hit (params.dp.drop s) s = FinScan.found m := by
  have hs := detect_scan_spec hit params s
  obtain ⟨h1, h2, h3, h4, hall⟩ := h
  cases hres : detect_scan hit (params.dp.drop s) s with
  | stop =>
    rw [hres] at hs
    obtain ⟨j, hj, hsj, hz, hjall⟩ := hs
    exfalso
    rcases Nat.lt_trichotomy j m with hlt | heq | hgt
    · exact (hall j hlt hsj).1 hz
    · exact h3 (heq ▸ hz)
    · have := (hjall m hgt h1).2
      rw [h4] at this
      exact Bool.noConfusion this
  | found r =>
    rw [hres] at hs
    obtain ⟨r1, r2, r3, r4, rall⟩ := hs
    rcases Nat.lt_trichotomy r m with hlt | heq | hgt
    · exfalso
      have := (hall r hlt r1).2
      rw [r4] at this
      exact Bool.noConfusion this
    · rw [heq]
    · exfalso
      have := (rall m hgt h1).2
      rw [h4] at this
      exact Bool.noConfusion this
  | exhausted r =>
    rw [hres] at hs
    exfalso
    have := (hs.2 m h2 h1).2
    rw [h4] at this
    exact Bool.noConfusion this

theorem detect_scan_stop (hit : desync_params → Bool) (params : Params) (s : Nat)
    (h : StopFirst hit params s) :
    detect_scan hit (params.dp.drop s) s = FinScan.stop := by
  have hs := detect_scan_spec hit params s
  obtain ⟨j, hj, hsj, hz, hjall⟩ := h
  cases hres : detect_scan hit (params.dp.drop s) s with
  | stop => rfl
  | found r =>
    rw [hres] at hs
    obtain ⟨r1, r2, r3, r4, rall⟩ := hs
    exfalso
    rcases Nat.lt_trichotomy j r with hlt | heq | hgt
    · exact (rall j hlt hsj).1 hz
    · exact r3 (heq ▸ hz)
    · have := (hjall r hgt r1).2
      rw [r4] at this
      exact Bool.noConfusion this
  | exhausted r =>
    rw [hres] at hs
    exact absurd hz (hs.2 j hj hsj).1

theorem detect_scan_exhausted (hit : desync_params → Bool) (params : Params) (s : Nat)
    (h : Exhausted hit params s) :
    detect_scan hit (params.dp.drop s) s = FinScan.exhausted (max s params.dp_count) := by
  have hs := detect_scan_spec hit params s
  cases hres : detect_scan hit (params.dp.drop s) s with
  | stop =>
    rw [hres] at hs
    obtain ⟨j, hj, hsj, hz, _⟩ := hs
    exact absurd hz (h j hj hsj).1
  | found r =>
    rw [hres] at hs
    obtain ⟨r1, r2, r3, r4, _⟩ := hs
    exfalso
    have := (h r r2 r1).2
    rw [r4] at this
    exact Bool.noConfusion this
  | exhausted r =>
    rw [hres] at hs
    rw [hs.1]

theorem on_torst_scan_eq (l : List desync_params) (s : Nat) :
    on_torst_scan l s =
      (match detect_scan torst_hit l s with
       | FinScan.stop => 0
       | FinScan.found m => m
       | FinScan.exhausted m => m) := by
  induction l generalizing s with
  | nil => simp [on_torst_scan, detect_scan]
  | cons d rest ih =>
    by_cases hd : d.detect = 0
    · simp [on_torst_scan, detect_scan, hd]
    · by_cases hh : d.detect &&& DETECT_TORST = 0
      · simp [on_torst_scan, detect_scan, hd, torst_hit, hh, ih]
      · simp [on_torst_scan, detect_scan, hd, torst_hit, hh]

theorem on_fin_scan_eq (l : List desync_params) (s : Nat) :
    on_fin_scan l s = detect_scan tls_err_hit l s := by
  induction l generalizing s with
  | nil => simp [on_fin_scan, detect_scan]
  | cons d rest ih =>
    by_cases hd : d.detect = 0
    · simp [on_fin_scan, detect_scan, hd]
    · by_cases hh : d.detect &&& DETECT_TLS_ERR = 0
      · simp [on_fin_scan, detect_scan, hd, tls_err_hit, hh, ih]
      · simp [on_fin_scan, detect_scan, hd, tls_err_hit, hh]

theorem on_response_scan_eq (env : Env) (req : Option Bytes) (qn : Int)
    (resp : Option Bytes) (sn : Int) (l : List desync_params) (s : Nat) :
    on_response_scan env req qn resp sn l s =
      (match detect_scan (fun dp => on_response_match env dp req qn resp sn) l s with
       | FinScan.stop => none
       | FinScan.found m => some m
       | FinScan.exhausted m => some m) := by
  induction l generalizing s with
  | nil => simp [on_response_scan, detect_scan]
  | cons d rest ih =>
    by_cases hd : d.detect = 0
    · simp [on_response_scan, detect_scan, hd]
    · by_cases hh : on_response_match env d req qn resp sn = true
      · simp [on_response_scan, detect_scan, hd, hh]
      · simp [on_response_scan, detect_scan, hd, hh, ih]

/-! ## C2 -/

theorem on_response_match_iff (env : Env) (dp : desync_params) (req : Option Bytes)
    (qn : Int) (resp : Option Bytes) (sn : Int) :
    on_response_match env dp req qn resp sn = true
      ↔ response_anomaly env dp.detect req qn resp sn := by
  unfold on_response_match response_anomaly
  constructor
  · intro h
    split_ifs at h with h1 h2
    · exact Or.inl h1
    · exact Or.inr h2
  · intro h
    rcases h with h | h
    · rw [if_pos h]
    · split_ifs <;> rfl

theorem responseTarget_iff (env : Env) (params : Params) (w : World) (resp : Option Bytes)
    (sn : Int) (m : Nat) :
    ResponseTarget env params w resp sn m
      ↔ FirstHit (fun dp => on_response_match env dp w.peer.buff.data w.peer.buff.size resp sn)
          params (w.peer.attempt + 1) m := by
  unfold ResponseTarget FirstHit
  constructor
  · rintro ⟨h1, h2, h3, h4, h5⟩
    refine ⟨h1, h2, h5 m (by omega) h1, (on_response_match_iff _ _ _ _ _ _).2 h3, ?_⟩
    intro i hi hsi
    refine ⟨h5 i (by omega) hsi, ?_⟩
    have := h4 i hi hsi
    rw [← on_response_match_iff] at this
    simpa using this
  · rintro ⟨h1, h2, h3, h4, h5⟩
    refine ⟨h1, h2, (on_response_match_iff _ _ _ _ _ _).1 h4, ?_, ?_⟩
    · intro j hj hsj hc
      have := (h5 j hj hsj).2
      have h6 := (on_response_match_iff env (params.dp_at j) w.peer.buff.data
        w.peer.buff.size resp sn).2 hc
      simp only [h6] at this
      exact Bool.noConfusion this
    · intro j hj hsj
      rcases Nat.lt_or_ge j m with hlt | hge
      · exact (h5 j hlt hsj).1
      · have : j = m := by omega
        rw [this]
        exact h3

theorem reconnect_ne (env : Env) (w : World) (m : Nat) : (reconnect env w m).2 ≠ w := by
  intro h
  have ht := congrArg (fun x => x.trace.length) h
  unfold reconnect at ht
  simp only [World.log] at ht
  split_ifs at ht <;> simp at ht

theorem on_response_target (env : Env) (params : Params) (w : World)
    (resp : Option Bytes) (sn : Int) (m : Nat)
    (hm : ResponseTarget env params w resp sn m) :
    on_response env params w resp sn = reconnect env w m := by
  have hf := detect_scan_found _ params _ m ((responseTarget_iff env params w resp sn m).1 hm)
  unfold on_response
  simp only [on_response_scan_eq, hf]
  rw [if_pos hm.2.1]

theorem on_response_no_target (env : Env) (params : Params) (w : World)
    (resp : Option Bytes) (sn : Int)
    (hno : ¬ ∃ m, ResponseTarget env params w resp sn m) :
    on_response env params w resp sn = (-1, w) := by
  have hs := detect_scan_spec
    (fun dp => on_response_match env dp w.peer.buff.data w.peer.buff.size resp sn)
    params (w.peer.attempt + 1)
  unfold on_response
  simp only [on_response_scan_eq]
  cases hres : detect_scan
      (fun dp => on_response_match env dp w.peer.buff.data w.peer.buff.size resp sn)
      (params.dp.drop (w.peer.attempt + 1)) (w.peer.attempt + 1) with
  | stop => rfl
  | found r =>
    rw [hres] at hs
    exact absurd ⟨r, (responseTarget_iff env params w resp sn r).2 hs⟩ hno
  | exhausted r =>
    rw [hres] at hs
    have : ¬ r < params.dp_count := by
      rw [hs.1]
      omega
    simp only [this, if_false]

theorem on_tunnel_check_no_target (env : Env) (params : Params) (w : World) (bfsize : Int)
    (hn : 1 ≤ (env.recv w.val.fd bfsize).n)
    (hno : ¬ ∃ m, ResponseTarget env params w (some (env.recv w.val.fd bfsize).data)
              (env.recv w.val.fd bfsize).n m) :
    on_tunnel_check env params w bfsize 0
      = on_tunnel_check_commit env params (w.log (Call.recv w.val.fd bfsize))
          (env.recv w.val.fd bfsize).data (env.recv w.val.fd bfsize).n := by
  have hq : on_response env params (w.log (Call.recv w.val.fd bfsize))
      (some (env.recv w.val.fd bfsize).data) (env.recv w.val.fd bfsize).n
        = (-1, w.log (Call.recv w.val.fd bfsize)) :=
    on_response_no_target env params _ _ _ hno
  unfold on_tunnel_check
  simp only [ne_eq, not_true_eq_false, if_false, not_lt.mpr hn, hq]
  rfl

/-- C2: the scan of `on_response`. If `m` is the least index above the client's `attempt`
whose `detect` matches the anomaly of the response, with no `detect == 0` strategy in
`[attempt + 1, m]`, then `on_response` is the call `reconnect(pool, val, m)`. It returns
-1 and leaves flows, cache and trace untouched exactly when there is no such index; and
then `on_tunnel_check` goes on to its commit part. -/
theorem on_response_decision (env : Env) (params : Params) (w : World)
    (resp : Option Bytes) (sn : Int) :
    (∀ m, ResponseTarget env params w resp sn m →
        on_response env params w resp sn = reconnect env w m)
    ∧ (on_response env params w resp sn = (-1, w)
        ↔ ¬ ∃ m, ResponseTarget env params w resp sn m)
    ∧ (∀ bfsize : Int, 1 ≤ (env.recv w.val.fd bfsize).n →
        (¬ ∃ m, ResponseTarget env params w (some (env.recv w.val.fd bfsize).data)
                  (env.recv w.val.fd bfsize).n m) →
        on_tunnel_check env params w bfsize 0
          = on_tunnel_check_commit env params (w.log (Call.recv w.val.fd bfsize))
              (env.recv w.val.fd bfsize).data (env.recv w.val.fd bfsize).n) := by
  refine ⟨on_response_target env params w resp sn,
    ⟨?_, on_response_no_target env params w resp sn⟩,
    fun bfsize hn hno => on_tunnel_check_no_target env params w bfsize hn hno⟩
  rintro h ⟨m, hm⟩
  have h2 := on_response_target env params w resp sn m hm
  rw [h] at h2
  exact reconnect_ne env w m (congrArg Prod.snd h2).symm

/-- Witness of C2: the client used strategy 1, strategy 2 counters resets only and
strategy 3 counters redirects, so a redirect makes `on_response` reconnect with 3. -/
theorem on_response_decision_witness :
    on_response demo_env_redirect demo_params demo_upstream_world none 0
      = reconnect demo_env_redirect demo_upstream_world 3 :=
  (on_response_decision demo_env_redirect demo_params demo_upstream_world none 0).1 3
    (by decide)

/-! ## `serialize_addr` and `mode_add_get` computed -/

theorem length_field_bytes (size v : Nat) : (field_bytes size v).length = size := by
  induction size generalizing v with
  | zero => rfl
  | succ n ih => simp [field_bytes, ih]

theorem take_memcpy (raw : Bytes) (c : Nat) (src : Bytes) (hc : c ≤ raw.length) :
    (memcpy raw c src).take (c + src.length) = raw.take c ++ src := by
  unfold memcpy
  have hl : (raw.take c ++ src).length = c + src.length := by
    simp [List.length_take, Nat.min_eq_left hc]
  rw [← hl]
  exact List.take_left' rfl

theorem length_memcpy (raw : Bytes) (c : Nat) (src : Bytes) (hc : c + src.length ≤ raw.length) :
    (memcpy raw c src).length = raw.length := by
  unfold memcpy
  simp [List.length_take, List.length_drop]
  omega

theorem take_memcpy_le (raw : Bytes) (c k : Nat) (src : Bytes) (hk : k ≤ c)
    (hc : c ≤ raw.length) : (memcpy raw c src).take k = raw.take k := by
  unfold memcpy
  rw [List.append_assoc, List.take_append_of_le_length (by simp [List.length_take]; omega)]
  rw [List.take_take, Nat.min_eq_left hk]

theorem serialize_addr_key (dst : sockaddr_ina) (out : Bytes) (hlen : out.length = KEY_SIZE) :
    (serialize_addr dst out KEY_SIZE).1 = (if dst.sa_family = AF_INET then 8 else 20)
      ∧ (serialize_addr dst out KEY_SIZE).2.take (serialize_addr dst out KEY_SIZE).1.toNat
          = field_bytes 2 dst.sin_port ++ field_bytes 2 dst.sa_family
              ++ (if dst.sa_family = AF_INET then field_bytes 4 dst.sin_addr
                  else field_bytes 16 dst.sin6_addr) := by
  have h32 : out.length = 32 := hlen
  have l1 : (memcpy out 0 (field_bytes 2 dst.sin_port)).length = 32 := by
    rw [length_memcpy _ _ _ (by simp [length_field_bytes, h32]), h32]
  have t1 : (memcpy out 0 (field_bytes 2 dst.sin_port)).take 2 = field_bytes 2 dst.sin_port := by
    have := take_memcpy out 0 (field_bytes 2 dst.sin_port) (by omega)
    simpa [length_field_bytes] using this
  have l2 : (memcpy (memcpy out 0 (field_bytes 2 dst.sin_port)) 2
      (field_bytes 2 dst.sa_family)).length = 32 := by
    rw [length_memcpy _ _ _ (by simp [length_field_bytes, l1]), l1]
  have t2 : (memcpy (memcpy out 0 (field_bytes 2 dst.sin_port)) 2
      (field_bytes 2 dst.sa_family)).take 4
        = field_bytes 2 dst.sin_port ++ field_bytes 2 dst.sa_family := by
    have := take_memcpy (memcpy out 0 (field_bytes 2 dst.sin_port)) 2
      (field_bytes 2 dst.sa_family) (by omega)
    simpa [length_field_bytes, t1] using this
  unfold serialize_addr serialize
  simp only [KEY_SIZE, SIZEOF_UINT16, SIZEOF_SA_FAMILY, SIZEOF_SOCKADDR_IN6, SIZEOF_IN_ADDR,
    SIZEOF_IN6_ADDR]
  by_cases hf : dst.sa_family = AF_INET
  · simp only [hf, if_true]
    norm_num
    have := take_memcpy (memcpy (memcpy out 0 (field_bytes 2 dst.sin_port)) 2
      (field_bytes 2 AF_INET)) 4 (field_bytes 4 dst.sin_addr) (by rw [hf] at l2; omega)
    rw [hf] at t2
    simpa [length_field_bytes, t2] using this
  · simp only [hf, if_false]
    norm_num
    have := take_memcpy (memcpy (memcpy out 0 (field_bytes 2 dst.sin_port)) 2
      (field_bytes 2 dst.sa_family)) 4 (field_bytes 16 dst.sin6_addr) (by omega)
    simpa [length_field_bytes, t2] using this

theorem cache_key_eq (dst : sockaddr_ina) :
    cache_key dst = field_bytes 2 dst.sin_port ++ field_bytes 2 dst.sa_family
      ++ (if dst.sa_family = AF_INET then field_bytes 4 dst.sin_addr
          else field_bytes 16 dst.sin6_addr) :=
  (serialize_addr_key dst (List.replicate KEY_SIZE 0) (by simp)).2

theorem serialize_addr_pos (dst : sockaddr_ina) :
    (serialize_addr dst (List.replicate KEY_SIZE 0) KEY_SIZE).1 > 0 := by
  rw [(serialize_addr_key dst (List.replicate KEY_SIZE 0) (by simp)).1]
  split_ifs <;> decide

theorem mode_add_get_get (env : Env) (params : Params) (w : World) (dst : sockaddr_ina) :
    mode_add_get env params w dst (-1) =
      some (match mem_get w.mempool (cache_key dst) with
            | none => -1
            | some val =>
              if env.time > wrap_time (val.time + params.cache_ttl) then 0 else val.m, w) := by
  unfold mode_add_get
  have hp := serialize_addr_pos dst
  have h1 : ((-1 : Int) ≥ -1 ∧ (-1 : Int) < (params.dp_count : Int)) :=
    ⟨le_refl _, by have : (0 : Int) ≤ (params.dp_count : Int) := Int.natCast_nonneg _; omega⟩
  simp only [h1, and_self, not_true_eq_false, if_false, hp, gt_iff_lt]
  simp only [show ((-1 : Int) < 0) = True from eq_true (by decide), if_true]
  unfold cache_key
  cases mem_get w.mempool
      (List.take (serialize_addr dst (List.replicate KEY_SIZE 0) KEY_SIZE).1.toNat
        (serialize_addr dst (List.replicate KEY_SIZE 0) KEY_SIZE).2) with
  | none => rfl
  | some val =>
    by_cases ht : env.time > wrap_time (val.time + params.cache_ttl)
    · simp only [ht, if_true]
    · simp only [ht, if_false]

theorem mode_add_get_delete (env : Env) (params : Params) (w : World) (dst : sockaddr_ina)
    (h : 0 < params.dp_count) :
    mode_add_get env params w dst 0 =
      some (0, { w with mempool := mem_delete w.mempool (cache_key dst),
                        trace := w.trace ++ [Call.mem_delete (cache_key dst)] }) := by
  unfold mode_add_get
  have hp := serialize_addr_pos dst
  have h1 : ((0 : Int) ≥ -1 ∧ (0 : Int) < (params.dp_count : Int)) :=
    ⟨by decide, by exact_mod_cast h⟩
  simp only [h1, and_self, not_true_eq_false, if_false, hp, gt_iff_lt, lt_self_iff_false,
    if_true]
  rfl

theorem mode_add_get_set (env : Env) (params : Params) (w : World) (dst : sockaddr_ina)
    (m : Nat) (h0 : 0 < m) (h : m < params.dp_count) :
    mode_add_get env params w dst m =
      some (if env.mem_add_ok = true then 0 else -1,
            { w with mempool := if env.mem_add_ok = true
                                then mem_add w.mempool (cache_key dst)
                                       { m := m, time := env.time }
                                else w.mempool,
                     trace := w.trace ++ [Call.mem_add (cache_key dst) m env.time] }) := by
  unfold mode_add_get
  have hp := serialize_addr_pos dst
  have h1 : (((m : Int)) ≥ -1 ∧ (m : Int) < (params.dp_count : Int)) :=
    ⟨by omega, by exact_mod_cast h⟩
  have h2 : ¬ ((m : Int) < 0) := by omega
  have h3 : ¬ ((m : Int) = 0) := by omega
  simp only [h1, and_self, not_true_eq_false, if_false, hp, gt_iff_lt, h2, h3]
  by_cases hm : env.mem_add_ok = true
  · simp only [hm, not_true_eq_false, if_false, if_true]
    rfl
  · rw [if_pos hm, if_neg hm, if_neg hm]
    rfl

/-! ## C3 -/

theorem can_reconn_iff (w : World) :
    (w.peer.buff.data.isSome && decide (w.val.recv_count = 0)) = true ↔ can_reconn w := by
  unfold can_reconn
  simp

theorem on_torst_linger_eq (env : Env) (w : World) :
    on_torst_linger env w = (-1, w.log (Call.setsockopt w.peer.fd SO_LINGER 1)) := by
  unfold on_torst_linger
  split_ifs <;> rfl

theorem on_torst_eq (env : Env) (params : Params) (w : World) :
    on_torst env params w =
      if can_reconn w ∨ params.auto_level ≥ 1 then
        match detect_scan torst_hit (params.dp.drop (w.peer.attempt + 1)) (w.peer.attempt + 1) with
        | FinScan.stop => some (-1, w.log (Call.setsockopt w.peer.fd SO_LINGER 1))
        | FinScan.found m =>
          if can_reconn w then some (reconnect env w m)
          else some (-1, (w.stored env m).log (Call.setsockopt w.peer.fd SO_LINGER 1))
        | FinScan.exhausted m =>
          if m > 1 then
            if 0 < params.dp_count then
              some (-1, w.deleted.log (Call.setsockopt w.peer.fd SO_LINGER 1))
            else none
          else some (-1, w.log (Call.setsockopt w.peer.fd SO_LINGER 1))
      else some (-1, w.log (Call.setsockopt w.peer.fd SO_LINGER 1)) := by
  unfold on_torst
  simp only [can_reconn_iff, on_torst_linger_eq, on_torst_scan_eq]
  by_cases hen : can_reconn w ∨ params.auto_level ≥ 1
  · simp only [hen, if_true]
    have hs := detect_scan_spec torst_hit params (w.peer.attempt + 1)
    cases hres : detect_scan torst_hit (params.dp.drop (w.peer.attempt + 1))
        (w.peer.attempt + 1) with
    | stop => simp
    | found m =>
      rw [hres] at hs
      obtain ⟨h1, h2, _, _, _⟩ := hs
      have hm0 : m ≠ 0 := by omega
      have hm1 : ¬ m ≥ params.dp_count := by omega
      simp only [hm0, hm1, if_false]
      by_cases hc : can_reconn w
      · simp only [hc, if_true]
      · simp only [hc, if_false]
        rw [mode_add_get_set env params w w.val.in6 m (by omega) h2]
        rfl
    | exhausted m =>
      rw [hres] at hs
      obtain ⟨h1, _⟩ := hs
      have hm0 : m ≠ 0 := by omega
      have hm1 : m ≥ params.dp_count := by omega
      simp only [hm0, hm1, if_false, if_true]
      by_cases hgt : m > 1
      · simp only [hgt, if_true]
        by_cases hdp : 0 < params.dp_count
        · simp only [hdp, if_true]
          rw [mode_add_get_delete env params w w.val.in6 hdp]
          rfl
        · simp only [hdp, if_false]
          unfold mode_add_get
          have : ¬ ((0 : Int) ≥ -1 ∧ (0 : Int) < (params.dp_count : Int)) := by
            intro h
            exact hdp (by exact_mod_cast h.2)
          simp only [this, not_false_eq_true, if_true]
      · simp only [hgt, if_false]
  · simp only [hen, if_false]

theorem new_calls_self (w : World) (r : Int) : new_calls w (some (r, w)) = [] := by
  simp [new_calls]

theorem new_calls_log (w : World) (r : Int) (c : Call) :
    new_calls w (some (r, w.log c)) = [c] := by
  simp [new_calls, World.log]

theorem new_calls_stored_log (w : World) (env : Env) (m : Nat) (r : Int) (c : Call) :
    new_calls w (some (r, (w.stored env m).log c))
      = [Call.mem_add (cache_key w.val.in6) m env.time, c] := by
  simp [new_calls, World.log, World.stored]

theorem new_calls_stored (w : World) (env : Env) (m : Nat) (r : Int) :
    new_calls w (some (r, w.stored env m))
      = [Call.mem_add (cache_key w.val.in6) m env.time] := by
  simp [new_calls, World.stored]

theorem new_calls_deleted_log (w : World) (r : Int) (c : Call) :
    new_calls w (some (r, w.deleted.log c)) = [Call.mem_delete (cache_key w.val.in6), c] := by
  simp [new_calls, World.log, World.deleted]

theorem new_calls_deleted (w : World) (r : Int) :
    new_calls w (some (r, w.deleted)) = [Call.mem_delete (cache_key w.val.in6)] := by
  simp [new_calls, World.deleted]

theorem new_calls_reconnect (env : Env) (w : World) (m : Nat) :
    new_calls w (some (reconnect env w m)) =
      if env.create_conn w.peer.fd w.val.in6 eid.EV_DESYNC ≠ 0 then
        [Call.create_conn w.peer.fd w.val.in6 eid.EV_DESYNC]
      else [Call.create_conn w.peer.fd w.val.in6 eid.EV_DESYNC, Call.del_event w.val.fd] := by
  unfold reconnect
  split_ifs <;> simp [new_calls, World.log]

/-- C3, counterexample: no reconnect is possible (the client has released its buffer),
`auto_level = 1` and strategy 2 is the first one countering resets, but the allocation
inside `mem_add` fails: `on_torst` returns -1 and nothing is stored for the
destination. -/
theorem on_torst_mem_add_failure :
    ¬ can_reconn demo_marked_world ∧ demo_params.auto_level ≥ 1
      ∧ FirstHit torst_hit demo_params (demo_marked_world.peer.attempt + 1) 2
      ∧ (on_torst demo_env_nomem demo_params demo_marked_world).map
          (fun p => (p.1, p.2.mempool,
                     mem_get p.2.mempool (cache_key demo_marked_world.val.in6), p.2.trace))
        = some (-1, [], none,
            [Call.mem_add (cache_key demo_dst) 2 1000, Call.setsockopt 5 SO_LINGER 1]) :=
  ⟨by decide, by decide, by decide, by decide⟩

/-- C3 (amended): the decision of `on_torst`. With `m` the first index at or after
`pair.attempt + 1` whose `detect` has `TORST`, no `detect == 0` strategy met earlier:
`on_torst` is the call `reconnect(pool, val, m)` when a reconnect is possible, and
`create_conn` is called exactly when a reconnect is possible and such an `m` exists;
when no reconnect is possible and `auto_level >= 1` it calls `mem_add` for the
destination and `m` (then sets the linger option and returns -1), and `mem_add` is
called exactly then; the call stores `m` for the destination when the allocation inside
`mem_add` succeeds and leaves the cache as it is when it fails; when the scan first
meets a `detect == 0` strategy, or neither a reconnect is possible nor
`auto_level >= 1`, it only sets the linger option and returns -1. -/
theorem on_torst_decision (env : Env) (params : Params) (w : World) :
    (∀ m, can_reconn w → FirstHit torst_hit params (w.peer.attempt + 1) m →
        on_torst env params w = some (reconnect env w m))
    ∧ (Call.create_conn w.peer.fd w.val.in6 eid.EV_DESYNC ∈ new_calls w (on_torst env params w)
        ↔ can_reconn w ∧ ∃ m, FirstHit torst_hit params (w.peer.attempt + 1) m)
    ∧ (∀ m, ¬ can_reconn w → params.auto_level ≥ 1 →
        FirstHit torst_hit params (w.peer.attempt + 1) m →
        on_torst env params w
          = some (-1, (w.stored env m).log (Call.setsockopt w.peer.fd SO_LINGER 1)))
    ∧ (∀ m : Nat,
        (env.mem_add_ok = true →
          (w.stored env m).mempool
              = mem_add w.mempool (cache_key w.val.in6) { m := m, time := env.time }
            ∧ mem_get (w.stored env m).mempool (cache_key w.val.in6)
                = some { m := m, time := env.time })
        ∧ (env.mem_add_ok = false → (w.stored env m).mempool = w.mempool))
    ∧ ((∃ k m t, Call.mem_add k m t ∈ new_calls w (on_torst env params w))
        ↔ ¬ can_reconn w ∧ params.auto_level ≥ 1
            ∧ ∃ m, FirstHit torst_hit params (w.peer.attempt + 1) m)
    ∧ (StopFirst torst_hit params (w.peer.attempt + 1)
          ∨ (¬ can_reconn w ∧ ¬ params.auto_level ≥ 1) →
        on_torst env params w = some (-1, w.log (Call.setsockopt w.peer.fd SO_LINGER 1))) := by
  have heq := on_torst_eq env params w
  have hs := detect_scan_spec torst_hit params (w.peer.attempt + 1)
  have hfound := detect_scan_found torst_hit params (w.peer.attempt + 1)
  have hstop := detect_scan_stop torst_hit params (w.peer.attempt + 1)
  refine ⟨?_, ?_, ?_, ?_, ?_, ?_⟩
  · intro m hc hm
    rw [heq, hfound m hm]
    simp only [hc, true_or, if_true]
  · by_cases hen : can_reconn w ∨ params.auto_level ≥ 1
    · rw [if_pos hen] at heq
      cases hres : detect_scan torst_hit (params.dp.drop (w.peer.attempt + 1))
          (w.peer.attempt + 1) with
      | stop =>
        rw [hres] at heq
        simp only at heq
        rw [heq, new_calls_log]
        have hno : ¬ ∃ m, FirstHit torst_hit params (w.peer.attempt + 1) m := by
          rintro ⟨m, hm⟩
          have := hfound m hm
          rw [hres] at this
          exact FinScan.noConfusion this
        simp [hno]
      | found m =>
        rw [hres] at heq hs
        simp only at heq
        by_cases hc : can_reconn w
        · rw [if_pos hc] at heq
          rw [heq, new_calls_reconnect]
          have hex : ∃ m, FirstHit torst_hit params (w.peer.attempt + 1) m := ⟨m, hs⟩
          split_ifs <;> simp [hc, hex]
        · rw [if_neg hc] at heq
          rw [heq, new_calls_stored_log]
          simp [hc]
      | exhausted m =>
        rw [hres] at heq
        simp only at heq
        have hno : ¬ ∃ m, FirstHit torst_hit params (w.peer.attempt + 1) m := by
          rintro ⟨m, hm⟩
          have := hfound m hm
          rw [hres] at this
          exact FinScan.noConfusion this
        rw [heq]
        split_ifs
        · rw [new_calls_deleted_log]
          simp [hno]
        · simp [new_calls, hno]
        · rw [new_calls_log]
          simp [hno]
    · rw [if_neg hen] at heq
      rw [heq, new_calls_log]
      have hc : ¬ can_reconn w := fun h => hen (Or.inl h)
      simp [hc]
  · intro m hc hauto hm
    rw [heq, hfound m hm]
    simp only [hauto, or_true, if_true, hc, if_false]
  · intro m
    refine ⟨fun hok => ?_, fun hok => ?_⟩
    · simp [World.stored, hok, mem_add, mem_get]
    · simp [World.stored, hok]
  · by_cases hen : can_reconn w ∨ params.auto_level ≥ 1
    · rw [if_pos hen] at heq
      cases hres : detect_scan torst_hit (params.dp.drop (w.peer.attempt + 1))
          (w.peer.attempt + 1) with
      | stop =>
        rw [hres] at heq
        simp only at heq
        rw [heq, new_calls_log]
        have hno : ¬ ∃ m, FirstHit torst_hit params (w.peer.attempt + 1) m := by
          rintro ⟨m, hm⟩
          have := hfound m hm
          rw [hres] at this
          exact FinScan.noConfusion this
        simp [hno]
      | found m =>
        rw [hres] at heq hs
        simp only at heq
        have hex : ∃ m, FirstHit torst_hit params (w.peer.attempt + 1) m := ⟨m, hs⟩
        by_cases hc : can_reconn w
        · rw [if_pos hc] at heq
          rw [heq, new_calls_reconnect]
          split_ifs <;> simp [hc]
        · rw [if_neg hc] at heq
          have hauto : params.auto_level ≥ 1 := hen.resolve_left hc
          rw [heq, new_calls_stored_log]
          simp [hc, hauto, hex]
      | exhausted m =>
        rw [hres] at heq
        simp only at heq
        have hno : ¬ ∃ m, FirstHit torst_hit params (w.peer.attempt + 1) m := by
          rintro ⟨m, hm⟩
          have := hfound m hm
          rw [hres] at this
          exact FinScan.noConfusion this
        rw [heq]
        split_ifs
        · rw [new_calls_deleted_log]
          simp [hno]
        · simp [new_calls, hno]
        · rw [new_calls_log]
          simp [hno]
    · rw [if_neg hen] at heq
      rw [heq, new_calls_log]
      have hc : ¬ params.auto_level ≥ 1 := fun h => hen (Or.inr h)
      simp [hc]
  · intro h
    rcases h with h | ⟨hc, hauto⟩
    · rw [heq, hstop h]
      split_ifs <;> rfl
    · rw [heq, if_neg (by tauto)]

/-- Witness of C3 (amended): the flow of the counterexample when memory is available;
`on_torst` calls `mem_add` with strategy 2 and the cache holds it afterwards. -/
theorem on_torst_decision_witness :
    ¬ can_reconn demo_marked_world
      ∧ on_torst demo_env demo_params demo_marked_world
          = some (-1, (demo_marked_world.stored demo_env 2).log
              (Call.setsockopt demo_marked_world.peer.fd SO_LINGER 1))
      ∧ mem_get (demo_marked_world.stored demo_env 2).mempool
            (cache_key demo_marked_world.val.in6) = some { m := 2, time := demo_env.time } :=
  ⟨by decide,
   (on_torst_decision demo_env demo_params demo_marked_world).2.2.1 2
    (by decide) (by decide) (by decide),
   (((on_torst_decision demo_env demo_params demo_marked_world).2.2.2.1 2).1 rfl).2⟩

/-! ## C4 -/

/-- C4, counterexample: with the strategies `[baseline, TORST]` and a flow whose previous
attempt is 1, the scan of `on_torst` starts at index 2 and is exhausted at once; the
entry cached for the destination is deleted although the previous attempt is not > 1. -/
theorem on_torst_deletes_after_attempt_one :
    demo_upstream_world.peer.attempt = 1
      ∧ mem_get demo_upstream_world.mempool (cache_key demo_dst) = some { m := 1, time := 990 }
      ∧ on_torst demo_env demo_params_torst demo_upstream_world
          = some (-1, { demo_upstream_world with
              mempool := [],
              trace := [Call.mem_delete (cache_key demo_dst),
                        Call.setsockopt 5 SO_LINGER 1] }) := by
  decide

/-- C4 (amended): with at least one strategy configured, `on_torst` deletes a cache entry
exactly when the scan is enabled (a reconnect is possible or `auto_level >= 1`), the scan
from `pair.attempt + 1` runs to the end of the list without meeting a `TORST` or a
`detect == 0` strategy, and the index the scan ends at, `max(pair.attempt + 1, dp_count)`,
is greater than 1, that is `pair.attempt >= 1` or `dp_count >= 2`. The entry deleted is
the one of the destination. With `pair.attempt = 0` and a single strategy the cache is
left as it is. -/
theorem on_torst_delete_iff (env : Env) (params : Params) (w : World)
    (hdp : 0 < params.dp_count) :
    ((∃ k, Call.mem_delete k ∈ new_calls w (on_torst env params w))
        ↔ (can_reconn w ∨ params.auto_level ≥ 1)
            ∧ Exhausted torst_hit params (w.peer.attempt + 1)
            ∧ (1 ≤ w.peer.attempt ∨ 2 ≤ params.dp_count))
    ∧ ((can_reconn w ∨ params.auto_level ≥ 1) →
        Exhausted torst_hit params (w.peer.attempt + 1) →
        (1 ≤ w.peer.attempt ∨ 2 ≤ params.dp_count) →
        on_torst env params w
          = some (-1, w.deleted.log (Call.setsockopt w.peer.fd SO_LINGER 1)))
    ∧ ((can_reconn w ∨ params.auto_level ≥ 1) →
        Exhausted torst_hit params (w.peer.attempt + 1) →
        w.peer.attempt = 0 → params.dp_count = 1 →
        on_torst env params w = some (-1, w.log (Call.setsockopt w.peer.fd SO_LINGER 1))) := by
  have heq := on_torst_eq env params w
  have hexh := detect_scan_exhausted torst_hit params (w.peer.attempt + 1)
  have hs := detect_scan_spec torst_hit params (w.peer.attempt + 1)
  refine ⟨?_, ?_, ?_⟩
  · by_cases hen : can_reconn w ∨ params.auto_level ≥ 1
    · rw [if_pos hen] at heq
      cases hres : detect_scan torst_hit (params.dp.drop (w.peer.attempt + 1))
          (w.peer.attempt + 1) with
      | stop =>
        rw [hres] at heq
        simp only at heq
        rw [heq, new_calls_log]
        have hno : ¬ Exhausted torst_hit params (w.peer.attempt + 1) := by
          intro h
          have := hexh h
          rw [hres] at this
          exact FinScan.noConfusion this
        simp [hno]
      | found m =>
        rw [hres] at heq
        simp only at heq
        have hno : ¬ Exhausted torst_hit params (w.peer.attempt + 1) := by
          intro h
          have := hexh h
          rw [hres] at this
          exact FinScan.noConfusion this
        rw [heq]
        split_ifs
        · rw [new_calls_reconnect]
          split_ifs <;> simp [hno]
        · rw [new_calls_stored_log]
          simp [hno]
      | exhausted m =>
        rw [hres] at heq hs
        simp only at heq
        obtain ⟨hm, hex⟩ := hs
        rw [heq]
        by_cases hgt : m > 1
        · rw [if_pos hgt, if_pos hdp, new_calls_deleted_log]
          have : 1 ≤ w.peer.attempt ∨ 2 ≤ params.dp_count := by omega
          simp [hen, hex, this]
        · rw [if_neg hgt, new_calls_log]
          have : ¬ (1 ≤ w.peer.attempt ∨ 2 ≤ params.dp_count) := by omega
          simp [this]
    · rw [if_neg hen] at heq
      rw [heq, new_calls_log]
      simp [hen]
  · intro hen hex hgt
    rw [heq, if_pos hen, hexh hex]
    have : max (w.peer.attempt + 1) params.dp_count > 1 := by omega
    simp only [this, if_true, hdp]
  · intro hen hex h0 h1
    rw [heq, if_pos hen, hexh hex]
    have : ¬ max (w.peer.attempt + 1) params.dp_count > 1 := by omega
    simp only [this, if_false]

/-- Witness of C4 (amended): the flow of the counterexample, previous attempt 1, two
strategies. -/
theorem on_torst_delete_iff_witness :
    0 < demo_params_torst.dp_count
      ∧ on_torst demo_env demo_params_torst demo_upstream_world
          = some (-1, demo_upstream_world.deleted.log
              (Call.setsockopt demo_upstream_world.peer.fd SO_LINGER 1)) :=
  ⟨by decide, (on_torst_delete_iff demo_env demo_params_torst demo_upstream_world
    (by decide)).2.1 (by decide) (by decide) (by decide)⟩

/-! ## C5 -/

theorem on_fin_eq (env : Env) (params : Params) (w : World) :
    on_fin env params w =
      if tls_failure env params w then
        match detect_scan tls_err_hit (params.dp.drop (w.peer.attempt + 1))
            (w.peer.attempt + 1) with
        | FinScan.stop => some (-1, w)
        | FinScan.found m =>
          if can_reconn w then some (reconnect env w m)
          else some (-1, w.stored env m)
        | FinScan.exhausted m =>
          if m > 1 then
            if 0 < params.dp_count then some (-1, w.deleted) else none
          else some (-1, w)
      else some (-1, w) := by
  unfold on_fin
  simp only [on_fin_scan_eq]
  by_cases hc : can_reconn w
  · have hcb : (w.peer.buff.data.isSome && decide (w.val.recv_count = 0)) = true :=
      (can_reconn_iff w).2 hc
    simp only [hcb, Bool.true_eq_false, false_and, if_false, if_true]
    by_cases ht : env.is_tls_chello w.peer.buff.data w.peer.buff.size = true
    · have hf : tls_failure env params w := Or.inl ⟨hc, ht⟩
      simp only [ht, Bool.true_eq_false, if_false, hf, if_true, hc]
      cases hres : detect_scan tls_err_hit (params.dp.drop (w.peer.attempt + 1))
          (w.peer.attempt + 1) with
      | stop => rfl
      | found m => rfl
      | exhausted m =>
        simp only
        by_cases hgt : m > 1
        · simp only [hgt, if_true]
          by_cases hdp : 0 < params.dp_count
          · simp only [hdp, if_true]
            rw [mode_add_get_delete env params w w.val.in6 hdp]
            rfl
          · simp only [hdp, if_false]
            unfold mode_add_get
            have : ¬ ((0 : Int) ≥ -1 ∧ (0 : Int) < (params.dp_count : Int)) := by
              intro h
              exact hdp (by exact_mod_cast h.2)
            simp only [this, not_false_eq_true, if_true]
        · simp only [hgt, if_false]
    · have hf : ¬ tls_failure env params w := by
        rintro (⟨_, h⟩ | ⟨h, _⟩)
        · exact ht h
        · exact h hc
      have ht2 : env.is_tls_chello w.peer.buff.data w.peer.buff.size = false := by
        simpa using ht
      simp only [ht2, if_true, hf, if_false]
  · have hcb : (w.peer.buff.data.isSome && decide (w.val.recv_count = 0)) = false := by
      have := (can_reconn_iff w).not.2 hc
      simpa using this
    simp only [hcb, true_and, Bool.false_eq_true, if_false]
    by_cases hauto : params.auto_level < 1
    · have hf : ¬ tls_failure env params w := by
        rintro (⟨h, _⟩ | ⟨_, h, _⟩)
        · exact hc h
        · omega
      simp only [hauto, if_true, hf, if_false]
    · simp only [hauto, if_false]
      by_cases hmk : w.val.mark = true ∧ w.val.round_count ≤ 1
      · have hf : tls_failure env params w := Or.inr ⟨hc, by omega, hmk.1, hmk.2⟩
        simp only [hmk, and_self, if_true, Bool.true_eq_false, if_false, hf]
        have hs := detect_scan_spec tls_err_hit params (w.peer.attempt + 1)
        cases hres : detect_scan tls_err_hit (params.dp.drop (w.peer.attempt + 1))
            (w.peer.attempt + 1) with
        | stop => rfl
        | found m =>
          rw [hres] at hs
          obtain ⟨h1, h2, _, _, _⟩ := hs
          simp only [hc, if_false]
          rw [mode_add_get_set env params w w.val.in6 m (by omega) h2]
          rfl
        | exhausted m =>
          simp only
          by_cases hgt : m > 1
          · simp only [hgt, if_true]
            by_cases hdp : 0 < params.dp_count
            · simp only [hdp, if_true]
              rw [mode_add_get_delete env params w w.val.in6 hdp]
              rfl
            · simp only [hdp, if_false]
              unfold mode_add_get
              have : ¬ ((0 : Int) ≥ -1 ∧ (0 : Int) < (params.dp_count : Int)) := by
                intro h
                exact hdp (by exact_mod_cast h.2)
              simp only [this, not_false_eq_true, if_true]
          · simp only [hgt, if_false]
      · have hf : ¬ tls_failure env params w := by
          rintro (⟨h, _⟩ | ⟨_, _, h1, h2⟩)
          · exact hc h
          · exact hmk ⟨h1, h2⟩
        simp only [hmk, if_false, if_true, hf]

/-- C5, counterexample: a TLS failure of a marked flow whose client has released its
buffer (no reconnect possible, `auto_level = 1`), strategy 3 is the first one countering
TLS errors, but the allocation inside `mem_add` fails: `on_fin` returns -1 and nothing is
stored for the destination. -/
theorem on_fin_mem_add_failure :
    tls_failure demo_env_nomem demo_params demo_marked_world
      ∧ ¬ can_reconn demo_marked_world
      ∧ FirstHit tls_err_hit demo_params (demo_marked_world.peer.attempt + 1) 3
      ∧ (on_fin demo_env_nomem demo_params demo_marked_world).map
          (fun p => (p.1, p.2.mempool,
                     mem_get p.2.mempool (cache_key demo_marked_world.val.in6), p.2.trace))
        = some (-1, [], none, [Call.mem_add (cache_key demo_dst) 3 1000]) :=
  ⟨by decide, by decide, by decide, by decide⟩

/-- C5 (amended): the decision of `on_fin`. The FIN is handled as a TLS-handshake failure
exactly under `tls_failure` (reconnect possible and first payload a ClientHello, or no
reconnect possible, `auto_level >= 1`, flow marked and `round_count <= 1`): without it
`on_fin` returns -1 and changes nothing. On a TLS failure, with `m` the first index at or
after `pair.attempt + 1` whose `detect` has `TLS_ERR` and no `detect == 0` strategy
before it, `on_fin` is the call `reconnect(pool, val, m)` when a reconnect is possible,
and otherwise calls `mem_add` for the destination and `m` and returns -1; the call
stores `m` for the destination when the allocation inside `mem_add` succeeds and leaves
the cache as it is when it fails. A `detect == 0` strategy met first gives -1 with
nothing changed. `create_conn` and `mem_add` are called in these two cases only; and
without a reconnect the result is -1, unless the strategy list is empty and the
assertion of `mode_add_get` stops the program. -/
theorem on_fin_decision (env : Env) (params : Params) (w : World) :
    (¬ tls_failure env params w → on_fin env params w = some (-1, w))
    ∧ (∀ m, tls_failure env params w → FirstHit tls_err_hit params (w.peer.attempt + 1) m →
        can_reconn w → on_fin env params w = some (reconnect env w m))
    ∧ (∀ m, tls_failure env params w → FirstHit tls_err_hit params (w.peer.attempt + 1) m →
        ¬ can_reconn w →
        on_fin env params w = some (-1, w.stored env m))
    ∧ (∀ m : Nat,
        (env.mem_add_ok = true →
          (w.stored env m).mempool
              = mem_add w.mempool (cache_key w.val.in6) { m := m, time := env.time }
            ∧ mem_get (w.stored env m).mempool (cache_key w.val.in6)
                = some { m := m, time := env.time })
        ∧ (env.mem_add_ok = false → (w.stored env m).mempool = w.mempool))
    ∧ (tls_failure env params w → StopFirst tls_err_hit params (w.peer.attempt + 1) →
        on_fin env params w = some (-1, w))
    ∧ (Call.create_conn w.peer.fd w.val.in6 eid.EV_DESYNC ∈ new_calls w (on_fin env params w)
        ↔ tls_failure env params w ∧ can_reconn w
            ∧ ∃ m, FirstHit tls_err_hit params (w.peer.attempt + 1) m)
    ∧ ((∃ k m t, Call.mem_add k m t ∈ new_calls w (on_fin env params w))
        ↔ tls_failure env params w ∧ ¬ can_reconn w
            ∧ ∃ m, FirstHit tls_err_hit params (w.peer.attempt + 1) m)
    ∧ (¬ (tls_failure env params w ∧ can_reconn w
            ∧ ∃ m, FirstHit tls_err_hit params (w.peer.attempt + 1) m) →
        (∃ w', on_fin env params w = some (-1, w'))
          ∨ (params.dp_count = 0 ∧ on_fin env params w = none)) := by
  have heq := on_fin_eq env params w
  have hs := detect_scan_spec tls_err_hit params (w.peer.attempt + 1)
  have hfound := detect_scan_found tls_err_hit params (w.peer.attempt + 1)
  have hstop := detect_scan_stop tls_err_hit params (w.peer.attempt + 1)
  have hnofound : ∀ r, detect_scan tls_err_hit (params.dp.drop (w.peer.attempt + 1))
        (w.peer.attempt + 1) = r → (∀ m, r ≠ FinScan.found m) →
      ¬ ∃ m, FirstHit tls_err_hit params (w.peer.attempt + 1) m := by
    rintro r hr hne ⟨m, hm⟩
    exact hne m (hr ▸ hfound m hm)
  refine ⟨?_, ?_, ?_, ?_, ?_, ?_, ?_, ?_⟩
  · intro hf
    rw [heq, if_neg hf]
  · intro m hf hm hc
    rw [heq, if_pos hf, hfound m hm]
    simp only [hc, if_true]
  · intro m hf hm hc
    rw [heq, if_pos hf, hfound m hm]
    simp only [hc, if_false]
  · intro m
    refine ⟨fun hok => ?_, fun hok => ?_⟩
    · simp [World.stored, hok, mem_add, mem_get]
    · simp [World.stored, hok]
  · intro hf hst
    rw [heq, if_pos hf, hstop hst]
  · by_cases hf : tls_failure env params w
    · rw [if_pos hf] at heq
      cases hres : detect_scan tls_err_hit (params.dp.drop (w.peer.attempt + 1))
          (w.peer.attempt + 1) with
      | stop =>
        have hno := hnofound _ hres (fun m h => FinScan.noConfusion h)
        rw [hres] at heq
        simp only at heq
        rw [heq, new_calls_self]
        simp [hno]
      | found m =>
        rw [hres] at heq hs
        simp only at heq
        have hex : ∃ m, FirstHit tls_err_hit params (w.peer.attempt + 1) m := ⟨m, hs⟩
        rw [heq]
        split_ifs with hc
        · rw [new_calls_reconnect]
          split_ifs <;> simp [hc, hf, hex]
        · rw [new_calls_stored]
          simp [hc]
      | exhausted m =>
        have hno := hnofound _ hres (fun m h => FinScan.noConfusion h)
        rw [hres] at heq
        simp only at heq
        rw [heq]
        split_ifs
        · rw [new_calls_deleted]
          simp [hno]
        · simp [new_calls, hno]
        · rw [new_calls_self]
          simp [hno]
    · rw [if_neg hf] at heq
      rw [heq, new_calls_self]
      simp [hf]
  · by_cases hf : tls_failure env params w
    · rw [if_pos hf] at heq
      cases hres : detect_scan tls_err_hit (params.dp.drop (w.peer.attempt + 1))
          (w.peer.attempt + 1) with
      | stop =>
        have hno := hnofound _ hres (fun m h => FinScan.noConfusion h)
        rw [hres] at heq
        simp only at heq
        rw [heq, new_calls_self]
        simp [hno]
      | found m =>
        rw [hres] at heq hs
        simp only at heq
        have hex : ∃ m, FirstHit tls_err_hit params (w.peer.attempt + 1) m := ⟨m, hs⟩
        rw [heq]
        by_cases hc : can_reconn w
        · rw [if_pos hc, new_calls_reconnect]
          split_ifs <;> simp [hc]
        · rw [if_neg hc, new_calls_stored]
          simp [hc, hf, hex]
      | exhausted m =>
        have hno := hnofound _ hres (fun m h => FinScan.noConfusion h)
        rw [hres] at heq
        simp only at heq
        rw [heq]
        split_ifs
        · rw [new_calls_deleted]
          simp [hno]
        · simp [new_calls, hno]
        · rw [new_calls_self]
          simp [hno]
    · rw [if_neg hf] at heq
      rw [heq, new_calls_self]
      simp [hf]
  · intro hnot
    by_cases hf : tls_failure env params w
    · rw [if_pos hf] at heq
      cases hres : detect_scan tls_err_hit (params.dp.drop (w.peer.attempt + 1))
          (w.peer.attempt + 1) with
      | stop =>
        rw [hres] at heq
        exact Or.inl ⟨w, heq⟩
      | found m =>
        rw [hres] at heq hs
        simp only at heq
        have hc : ¬ can_reconn w := fun hc => hnot ⟨hf, hc, m, hs⟩
        rw [if_neg hc] at heq
        exact Or.inl ⟨_, heq⟩
      | exhausted m =>
        rw [hres] at heq
        simp only at heq
        rw [heq]
        by_cases hdp : 0 < params.dp_count
        · simp only [hdp, if_true]
          left
          split_ifs
          · exact ⟨_, rfl⟩
          · exact ⟨_, rfl⟩
        · simp only [hdp, if_false]
          split_ifs
          · exact Or.inr ⟨by omega, rfl⟩
          · exact Or.inl ⟨_, rfl⟩
    · rw [if_neg hf] at heq
      exact Or.inl ⟨w, heq⟩

/-- Witness of C5 (amended): a marked flow whose client has released its buffer; the
client used strategy 1, strategy 2 counters resets only and strategy 3 counters TLS
errors; `mem_add` is called with it and the cache holds it afterwards. -/
theorem on_fin_decision_witness :
    tls_failure demo_env demo_params demo_marked_world
      ∧ ¬ can_reconn demo_marked_world
      ∧ on_fin demo_env demo_params demo_marked_world
          = some (-1, demo_marked_world.stored demo_env 3)
      ∧ mem_get (demo_marked_world.stored demo_env 3).mempool
            (cache_key demo_marked_world.val.in6) = some { m := 3, time := demo_env.time } :=
  ⟨by decide, by decide, (on_fin_decision demo_env demo_params demo_marked_world).2.2.1 3
    (by decide) (by decide) (by decide),
   (((on_fin_decision demo_env demo_params demo_marked_world).2.2.2.1 3).1 rfl).2⟩

/-! ## C6 -/

theorem wrap_time_eq (x : Int) (h1 : -9223372036854775808 ≤ x)
    (h2 : x < 9223372036854775808) : wrap_time x = x := by
  unfold wrap_time
  omega

theorem ttl_expired_iff (env : Env) (params : Params) (e : elem)
    (h : ttl_sum_in_range params e) :
    ttl_expired env params e ↔ env.time - e.time > params.cache_ttl := by
  unfold ttl_expired
  rw [wrap_time_eq _ h.1 h.2]
  constructor <;> intro h <;> omega

/-- C6, counterexample: with an empty cache the lookup of `connect_hook` misses and the
flow gets `attempt = 0` and `cache = 0` (not 1). And with `cache_ttl = LONG_MAX` the sum
`last_used + cache_ttl` overflows: an entry with index 1 that is 10 seconds old is taken
for stale and the flow gets `attempt = 0` and `cache = 1`. -/
theorem connect_hook_miss_clears_cache :
    mem_get demo_client_world.mempool (cache_key demo_dst) = none
      ∧ connect_hook demo_env demo_params demo_client_world demo_dst eid.EV_CONNECT
          = some (0, { demo_client_world with
              val := { demo_client with attempt := 0, cache := false },
              trace := [Call.create_conn 5 demo_dst eid.EV_CONNECT] })
      ∧ (connect_hook demo_env demo_params_ttl_max
            { demo_client_world with
                mempool := [(cache_key demo_dst, { m := 1, time := 990 })] }
            demo_dst eid.EV_CONNECT).map (fun p => (p.2.val.attempt, p.2.val.cache))
          = some (0, true) :=
  ⟨by decide, by decide, by decide⟩

/-- C6 (amended): `connect_hook` always returns, and afterwards, for a cache entry whose
sum `last_used + cache_ttl` is a value of `time_t`: if the lookup hits a fresh entry
(`now - last_used <= cache_ttl`) with index `m > 0` then `attempt = m` and `cache = 0`;
if the entry is older than `cache_ttl` then `attempt = 0` and `cache = 1`. If there is
no entry then `attempt = 0` and `cache = 0`. -/
theorem connect_hook_init (env : Env) (params : Params) (w : World) (dst : sockaddr_ina)
    (next : eid) :
    ∃ rc w', connect_hook env params w dst next = some (rc, w')
      ∧ (∀ e, mem_get w.mempool (cache_key dst) = some e → ttl_sum_in_range params e →
          env.time - e.time ≤ params.cache_ttl → 0 < e.m →
          (w'.val.attempt : Int) = e.m ∧ w'.val.cache = false)
      ∧ (mem_get w.mempool (cache_key dst) = none →
          w'.val.attempt = 0 ∧ w'.val.cache = false)
      ∧ (∀ e, mem_get w.mempool (cache_key dst) = some e → ttl_sum_in_range params e →
          env.time - e.time > params.cache_ttl →
          w'.val.attempt = 0 ∧ w'.val.cache = true) := by
  unfold connect_hook
  rw [mode_add_get_get]
  refine ⟨_, _, rfl, ?_, ?_, ?_⟩
  · intro e he hr hfresh hpos
    have hf : ¬ env.time > wrap_time (e.time + params.cache_ttl) := by
      rw [wrap_time_eq _ hr.1 hr.2]
      omega
    simp only [he, World.log, hf, if_false]
    refine ⟨?_, ?_⟩
    · rw [if_neg (by omega)]
      omega
    · simp
      omega
  · intro he
    simp [he, World.log]
  · intro e he hr hstale
    have hs : env.time > wrap_time (e.time + params.cache_ttl) := by
      rw [wrap_time_eq _ hr.1 hr.2]
      omega
    simp [he, World.log, hs]

/-- Witness of C6 (amended): the dial of `demo_stale_dial_world` finds an entry stored at
time 0, older than `cache_ttl = 100` at time 1000; the flow gets `attempt = 0` and
`cache = 1`. -/
theorem connect_hook_init_witness :
    ∃ rc w', connect_hook demo_env demo_params_torst demo_stale_dial_world demo_dst
          eid.EV_CONNECT = some (rc, w')
      ∧ w'.val.attempt = 0 ∧ w'.val.cache = true := by
  obtain ⟨rc, w', h, _, _, hstale⟩ :=
    connect_hook_init demo_env demo_params_torst demo_stale_dial_world demo_dst
      eid.EV_CONNECT
  exact ⟨rc, w', h, hstale { m := 1, time := 0 } (by decide) (by decide) (by decide)⟩

/-! ## C7 -/

theorem mem_get_mem_delete (hdr : mphdr) (key : Bytes) :
    mem_get (mem_delete hdr key) key = none := by
  induction hdr with
  | nil => rfl
  | cons p rest ih =>
    obtain ⟨k, e⟩ := p
    by_cases hk : k = key
    · simp [mem_delete, hk, ih]
    · simp [mem_delete, mem_get, hk, ih]

theorem mem_get_mem_add (hdr : mphdr) (key : Bytes) (e : elem) :
    mem_get (mem_add hdr key e) key = some e := by
  simp [mem_add, mem_get]

theorem on_response_failed (env : Env) (params : Params) (w : World) (resp : Option Bytes)
    (sn : Int) (h : (on_response env params w resp sn).1 ≠ 0) :
    on_response env params w resp sn = (-1, w)
      ∨ on_response env params w resp sn
          = (-1, w.log (Call.create_conn w.peer.fd w.val.in6 eid.EV_DESYNC)) := by
  by_cases ht : ∃ m, ResponseTarget env params w resp sn m
  · obtain ⟨m, hm⟩ := ht
    rw [on_response_target env params w resp sn m hm] at h ⊢
    right
    unfold reconnect at h ⊢
    by_cases hc : env.create_conn w.peer.fd w.val.in6 eid.EV_DESYNC ≠ 0
    · dsimp only
      rw [if_pos hc]
    · dsimp only at h
      rw [if_neg hc] at h
      exact absurd rfl h
  · exact Or.inl (on_response_no_target env params w resp sn ht)

theorem on_tunnel_check_commit_eq (env : Env) (params : Params) (w : World)
    (buffer : Bytes) (n : Int)
    (hsend : env.send w.peer.fd buffer n = n)
    (hbuf : w.peer.buff.data.isSome = true)
    (htimeout : params.timeout ≠ 0 ∧ params.auto_level < 1 →
      env.setsockopt w.val.fd TCP_USER_TIMEOUT 0 = 0)
    (hpost : env.post_desync w.val.fd w.peer.attempt = 0) :
    ∃ w6 calls, on_tunnel_check_commit env params w buffer n
        = (if w.peer.cache = false then some (0, w6)
           else mode_add_get env params w6 w6.val.in6 w.peer.attempt)
      ∧ w6.mempool = w.mempool ∧ w6.val.in6 = w.val.in6
      ∧ w6.val.type = eid.EV_TUNNEL ∧ w6.peer.type = eid.EV_TUNNEL
      ∧ w6.peer.buff = { data := none, size := 0, offset := 0 }
      ∧ w6.peer.attempt = w.peer.attempt
      ∧ w6.trace = w.trace ++ calls
      ∧ (∀ k, Call.mem_delete k ∉ calls)
      ∧ (∀ k m t, Call.mem_add k m t ∉ calls) := by
  unfold on_tunnel_check_commit
  simp only [World.log, hsend, ne_eq, not_true_eq_false, if_false, to_tunnel, World.swap,
    set_timeout]
  by_cases ha : params.auto_level > 0 ∧ params.dp_count > 1
  · simp only [ha, and_self, if_true, hbuf, Bool.true_eq_false, if_false]
    by_cases ht : params.timeout = 0
    · simp only [ht, not_true_eq_false, false_and, if_false, hpost, if_true]
      exact ⟨_, [Call.send w.peer.fd buffer n, Call.free, Call.post_desync w.val.fd w.peer.attempt],
        rfl, rfl, rfl, rfl, rfl, rfl, rfl, by simp, by simp, by simp⟩
    · have hauto : ¬ params.auto_level < 1 := by omega
      simp only [ht, not_false_eq_true, hauto, and_false, if_false, hpost, if_true]
      exact ⟨_, [Call.send w.peer.fd buffer n, Call.free, Call.post_desync w.val.fd w.peer.attempt],
        rfl, rfl, rfl, rfl, rfl, rfl, rfl, by simp, by simp, by simp⟩
  · simp only [ha, if_false, hbuf, Bool.true_eq_false]
    by_cases ht : params.timeout ≠ 0 ∧ params.auto_level < 1
    · have h0 := htimeout ht
      simp only [ht, ne_eq, not_false_eq_true, and_self, if_true, h0, not_true_eq_false,
        if_false, hpost]
      exact ⟨_, [Call.send w.peer.fd buffer n, Call.free,
        Call.setsockopt w.val.fd TCP_USER_TIMEOUT 0, Call.post_desync w.val.fd w.peer.attempt],
        rfl, rfl, rfl, rfl, rfl, rfl, rfl, by simp, by simp, by simp⟩
    · have ht2 : ¬ (¬ params.timeout = 0 ∧ params.auto_level < 1) := ht
      simp only [ht2, if_false, hpost, not_true_eq_false]
      exact ⟨_, [Call.send w.peer.fd buffer n, Call.free, Call.post_desync w.val.fd w.peer.attempt],
        rfl, rfl, rfl, rfl, rfl, rfl, rfl, by simp, by simp, by simp⟩

/-- C7, counterexample: with the strategies `[baseline, TORST]` a flow is dialed while a
stale entry is cached (`connect_hook` leaves `attempt = 0` and the `cache` flag set), its
first payload selects strategy 0, and the first upstream read commits: `on_tunnel_check`
returns 0 with both flows in `TUNNEL`, and the cache does not hold an entry for the
destination afterwards, the entry was deleted. And when a flow with `attempt = 1` and
the flag set commits while the allocation inside `mem_add` fails, `on_tunnel_check`
returns -1 and nothing is stored. -/
theorem on_tunnel_check_commit_deletes :
    (connect_hook demo_env demo_params_torst demo_stale_dial_world demo_dst
        eid.EV_CONNECT).map (fun p => (p.2.val.attempt, p.2.val.cache)) = some (0, true)
      ∧ (on_desync demo_env demo_params_torst demo_stale_first_world 16 0).map
          (fun p => (p.1, p.2.val)) = some (0, demo_commit_world.peer)
      ∧ demo_commit_world.peer.attempt = 0 ∧ demo_commit_world.peer.cache = true
      ∧ (on_tunnel_check demo_env demo_params_torst demo_commit_world 16 0).map
          (fun p => (p.1, p.2.val.type, p.2.peer.type,
                     mem_get p.2.mempool (cache_key demo_dst), p.2.trace))
        = some (0, eid.EV_TUNNEL, eid.EV_TUNNEL, none,
            [Call.recv 6 16, Call.send 5 [71, 69, 84] 3, Call.free, Call.post_desync 6 0,
             Call.mem_delete (cache_key demo_dst)])
      ∧ demo_resent_world.peer.attempt = 1 ∧ demo_resent_world.peer.cache = true
      ∧ (on_tunnel_check demo_env_nomem demo_params_torst demo_resent_world 16 0).map
          (fun p => (p.1, p.2.val.type, p.2.peer.type,
                     mem_get p.2.mempool (cache_key demo_dst)))
        = some (-1, eid.EV_TUNNEL, eid.EV_TUNNEL, none) :=
  ⟨by decide, by decide, by decide, by decide, by decide, by decide, by decide, by decide⟩

/-- C7 (amended): a commit in `on_tunnel_check` (readable event, bytes received,
`on_response` did not start a reconnect, that is returned non-zero, `send`,
`set_timeout` and `post_desync` succeed, the client holds its buffer) of a client flow
with `attempt = m < dp_count` puts both flows in `TUNNEL` and: if the client's `cache`
flag is clear it returns 0 and the cache is unchanged; if the flag is set and `m >= 1`,
`mem_add` is called for the destination and `m`, and when its allocation succeeds
`on_tunnel_check` returns 0 and the cache holds the entry of the destination with index
`m` and time `now`, when it fails `on_tunnel_check` returns -1 and the cache is
unchanged, and nothing is deleted either way; if the flag is set and `m = 0` it returns
0 and the entry of the destination is deleted. -/
theorem on_tunnel_check_cache (env : Env) (params : Params) (w : World) (bfsize : Int)
    (hn : 1 ≤ (env.recv w.val.fd bfsize).n)
    (hresp : (on_response env params (w.log (Call.recv w.val.fd bfsize))
                (some (env.recv w.val.fd bfsize).data) (env.recv w.val.fd bfsize).n).1 ≠ 0)
    (hsend : env.send w.peer.fd (env.recv w.val.fd bfsize).data (env.recv w.val.fd bfsize).n
              = (env.recv w.val.fd bfsize).n)
    (hbuf : w.peer.buff.data.isSome = true)
    (htimeout : params.timeout ≠ 0 ∧ params.auto_level < 1 →
      env.setsockopt w.val.fd TCP_USER_TIMEOUT 0 = 0)
    (hpost : env.post_desync w.val.fd w.peer.attempt = 0)
    (hm : w.peer.attempt < params.dp_count) :
    (w.peer.cache = false →
        ∃ w', on_tunnel_check env params w bfsize 0 = some (0, w')
          ∧ w'.val.type = eid.EV_TUNNEL ∧ w'.peer.type = eid.EV_TUNNEL
          ∧ w'.mempool = w.mempool)
    ∧ (w.peer.cache = true → 1 ≤ w.peer.attempt →
        ∃ w', on_tunnel_check env params w bfsize 0
            = some (if env.mem_add_ok = true then 0 else -1, w')
          ∧ w'.val.type = eid.EV_TUNNEL ∧ w'.peer.type = eid.EV_TUNNEL
          ∧ Call.mem_add (cache_key w.val.in6) w.peer.attempt env.time
              ∈ w'.trace.drop w.trace.length
          ∧ (env.mem_add_ok = true →
              w'.mempool = mem_add w.mempool (cache_key w.val.in6)
                  { m := w.peer.attempt, time := env.time }
                ∧ mem_get w'.mempool (cache_key w.val.in6)
                    = some { m := w.peer.attempt, time := env.time })
          ∧ (env.mem_add_ok = false → w'.mempool = w.mempool)
          ∧ ∀ k, Call.mem_delete k ∉ w'.trace.drop w.trace.length)
    ∧ (w.peer.cache = true → w.peer.attempt = 0 →
        ∃ w', on_tunnel_check env params w bfsize 0 = some (0, w')
          ∧ w'.val.type = eid.EV_TUNNEL ∧ w'.peer.type = eid.EV_TUNNEL
          ∧ w'.mempool = mem_delete w.mempool (cache_key w.val.in6)
          ∧ mem_get w'.mempool (cache_key w.val.in6) = none) := by
  have hotc : on_tunnel_check env params w bfsize 0
      = on_tunnel_check_commit env params
          (on_response env params (w.log (Call.recv w.val.fd bfsize))
            (some (env.recv w.val.fd bfsize).data) (env.recv w.val.fd bfsize).n).2
          (env.recv w.val.fd bfsize).data (env.recv w.val.fd bfsize).n := by
    unfold on_tunnel_check
    simp only [ne_eq, not_true_eq_false, if_false, not_lt.mpr hn]
    rw [if_neg hresp]
  obtain ⟨pre, hq, hpre⟩ : ∃ pre,
      (on_response env params (w.log (Call.recv w.val.fd bfsize))
        (some (env.recv w.val.fd bfsize).data) (env.recv w.val.fd bfsize).n).2
          = { w with trace := w.trace ++ pre }
        ∧ ∀ k, Call.mem_delete k ∉ pre := by
    rcases on_response_failed env params _ _ _ hresp with h | h
    · rw [h]
      refine ⟨[Call.recv w.val.fd bfsize], ?_, ?_⟩
      · rfl
      · simp
    · rw [h]
      refine ⟨[Call.recv w.val.fd bfsize,
        Call.create_conn w.peer.fd w.val.in6 eid.EV_DESYNC], ?_, ?_⟩
      · simp [World.log]
      · simp
  rw [hotc, hq]
  obtain ⟨w6, calls, heq, hmp, hin, hvt, hpt, _, hatt, htr, hnodel, _⟩ :=
    on_tunnel_check_commit_eq env params { w with trace := w.trace ++ pre }
      (env.recv w.val.fd bfsize).data (env.recv w.val.fd bfsize).n hsend hbuf htimeout hpost
  have hmp2 : w6.mempool = w.mempool := hmp
  have hin2 : w6.val.in6 = w.val.in6 := hin
  have htr2 : w6.trace = w.trace ++ (pre ++ calls) := by
    rw [htr]
    simp
  have hc : ({ w with trace := w.trace ++ pre } : World).peer.cache = w.peer.cache := rfl
  have ha : ({ w with trace := w.trace ++ pre } : World).peer.attempt = w.peer.attempt := rfl
  rw [heq, hc, ha]
  refine ⟨?_, ?_, ?_⟩
  · intro hcache
    rw [if_pos hcache]
    exact ⟨w6, rfl, hvt, hpt, hmp2⟩
  · intro hcache hpos
    rw [if_neg (by simp [hcache]), mode_add_get_set env params w6 w6.val.in6 w.peer.attempt
      hpos hm]
    refine ⟨_, rfl, hvt, hpt, ?_, ?_, ?_, ?_⟩
    · simp only [htr2, hin2, List.append_assoc, List.drop_left]
      simp
    · intro hok
      simp only [hok, if_true, hmp2, hin2]
      exact ⟨trivial, mem_get_mem_add _ _ _⟩
    · intro hok
      simp [hok, hmp2]
    · intro k hk
      simp only [htr2, List.append_assoc, List.drop_left] at hk
      simp at hk
      rcases hk with hk | hk
      · exact hpre k hk
      · exact hnodel k hk
  · intro hcache h0
    rw [if_neg (by simp [hcache]), h0]
    have hdp : 0 < params.dp_count := by omega
    have := mode_add_get_delete env params w6 w6.val.in6 hdp
    simp only [Nat.cast_zero]
    rw [this]
    refine ⟨_, rfl, hvt, hpt, ?_, ?_⟩
    · simp only [hmp2, hin2]
    · simp only [hmp2, hin2, mem_get_mem_delete]

/-- Witness of C7 (amended): the flow reconnected with strategy 2 after a reset; the
upstream answers by a redirect, `on_response` tries to reconnect with strategy 3 and
`create_conn` fails, so the commit goes on and the cache afterwards holds strategy 2 for
the destination. -/
theorem on_tunnel_check_cache_witness :
    demo_cached_world.peer.cache = true ∧ demo_cached_world.peer.attempt = 2
      ∧ (∃ m, ResponseTarget demo_env_redirect_noconn demo_params
                (demo_cached_world.log (Call.recv demo_cached_world.val.fd 16))
                (some (demo_env_redirect_noconn.recv demo_cached_world.val.fd 16).data)
                (demo_env_redirect_noconn.recv demo_cached_world.val.fd 16).n m)
      ∧ ∃ w', on_tunnel_check demo_env_redirect_noconn demo_params demo_cached_world 16 0
            = some (0, w')
          ∧ w'.val.type = eid.EV_TUNNEL ∧ w'.peer.type = eid.EV_TUNNEL
          ∧ mem_get w'.mempool (cache_key demo_cached_world.val.in6)
              = some { m := 2, time := demo_env_redirect_noconn.time } := by
  obtain ⟨w', h1, h2, h3, _, h5, _, _⟩ :=
    (on_tunnel_check_cache demo_env_redirect_noconn demo_params demo_cached_world 16
      (by decide) (by decide) (by decide) (by decide) (by decide) (by decide)
      (by decide)).2.1 (by decide) (by decide)
  exact ⟨rfl, rfl, ⟨3, by decide⟩, w', h1, h2, h3, (h5 rfl).2⟩

theorem mem_get_mem_delete_other (hdr : mphdr) (key k : Bytes) :
    mem_get (mem_delete hdr key) k = if key = k then none else mem_get hdr k := by
  by_cases hk2 : key = k
  · subst hk2
    simp [mem_get_mem_delete]
  · simp only [hk2, if_false]
    induction hdr with
    | nil => simp [mem_delete, mem_get]
    | cons p rest ih =>
      obtain ⟨k0, e⟩ := p
      by_cases hk : k0 = key
      · have hk3 : ¬ k0 = k := by rw [hk]; exact hk2
        simp [mem_delete, mem_get, hk, ih, hk2]
      · simp [mem_delete, mem_get, hk, ih]

/-- Every index `mode_add_get` leaves in the cache is at least 1, provided that held
before: the only write stores an `m > 0`. -/
theorem mode_add_get_keeps_positive (env : Env) (params : Params) (w : World)
    (dst : sockaddr_ina) (m : Int)
    (hinv : ∀ k e, mem_get w.mempool k = some e → 1 ≤ e.m) :
    ∀ r w', mode_add_get env params w dst m = some (r, w') →
      ∀ k e, mem_get w'.mempool k = some e → 1 ≤ e.m := by
  intro r w' h k e he
  by_cases hrange : m ≥ -1 ∧ m < params.dp_count
  · rcases lt_trichotomy m 0 with hneg | hzero | hpos
    · have hm : m = -1 := by omega
      subst hm
      rw [mode_add_get_get] at h
      simp only [Option.some.injEq, Prod.mk.injEq] at h
      rw [← h.2] at he
      exact hinv k e he
    · subst hzero
      have hdp : 0 < params.dp_count := by exact_mod_cast hrange.2
      rw [mode_add_get_delete env params w dst hdp] at h
      simp only [Option.some.injEq, Prod.mk.injEq] at h
      rw [← h.2] at he
      simp only [mem_get_mem_delete_other] at he
      split_ifs at he
      exact hinv k e he
    · obtain ⟨n, rfl⟩ := Int.eq_ofNat_of_zero_le (le_of_lt hpos)
      have hn : 0 < n := by exact_mod_cast hpos
      rw [mode_add_get_set env params w dst n hn (by exact_mod_cast hrange.2)] at h
      simp only [Option.some.injEq, Prod.mk.injEq] at h
      rw [← h.2] at he
      by_cases hok : env.mem_add_ok = true
      · simp only [hok, if_true, mem_add, mem_get] at he
        split_ifs at he with hk
        · simp only [Option.some.injEq] at he
          rw [← he]
          show (1 : Int) ≤ (n : Int)
          omega
        · simp only [mem_get_mem_delete_other] at he
          split_ifs at he
          exact hinv k e he
      · rw [if_neg hok] at he
        exact hinv k e he
  · unfold mode_add_get at h
    simp only [hrange, not_false_eq_true, if_true] at h
    exact Option.noConfusion h

/-! ## C8 -/

/-- The lookup `mode_add_get(dst, -1)` always returns and leaves the world as it is.
Without an entry for `dst` it returns -1; with an entry that its test
`now > last_used + cache_ttl` (sum in `time_t`) finds stale it returns 0; otherwise it
returns the stored index. When the sum `last_used + cache_ttl` is a value of `time_t`,
stale is `now - last_used > cache_ttl` and fresh is `now - last_used <= cache_ttl`, the
boundary included. When the stored index is at least 1, as every index stored by
`mode_add_get` is, each of the three results occurs in its case only. -/
theorem mode_add_get_lookup (env : Env) (params : Params) (w : World) (dst : sockaddr_ina) :
    ∃ r, mode_add_get env params w dst (-1) = some (r, w)
      ∧ (mem_get w.mempool (cache_key dst) = none → r = -1)
      ∧ (∀ e, mem_get w.mempool (cache_key dst) = some e →
          ttl_expired env params e → r = 0)
      ∧ (∀ e, mem_get w.mempool (cache_key dst) = some e →
          ¬ ttl_expired env params e → r = e.m)
      ∧ (∀ e, mem_get w.mempool (cache_key dst) = some e → ttl_sum_in_range params e →
          (env.time - e.time > params.cache_ttl → r = 0)
            ∧ (env.time - e.time ≤ params.cache_ttl → r = e.m))
      ∧ ((∀ e, mem_get w.mempool (cache_key dst) = some e → 1 ≤ e.m) →
          ((∃ e, mem_get w.mempool (cache_key dst) = some e ∧ r = e.m)
              ↔ ∃ e, mem_get w.mempool (cache_key dst) = some e
                  ∧ ¬ ttl_expired env params e)
          ∧ (r = 0 ↔ ∃ e, mem_get w.mempool (cache_key dst) = some e
                  ∧ ttl_expired env params e)
          ∧ (r = -1 ↔ mem_get w.mempool (cache_key dst) = none)) := by
  rw [mode_add_get_get]
  have hstale : ∀ e, mem_get w.mempool (cache_key dst) = some e →
      ttl_expired env params e →
      (match mem_get w.mempool (cache_key dst) with
        | none => (-1 : Int)
        | some val =>
          if env.time > wrap_time (val.time + params.cache_ttl) then 0 else val.m) = 0 := by
    intro e he hs
    have hs2 : env.time > wrap_time (e.time + params.cache_ttl) := hs
    simp only [he, hs2, if_true]
  have hfresh : ∀ e, mem_get w.mempool (cache_key dst) = some e →
      ¬ ttl_expired env params e →
      (match mem_get w.mempool (cache_key dst) with
        | none => (-1 : Int)
        | some val =>
          if env.time > wrap_time (val.time + params.cache_ttl) then 0 else val.m) = e.m := by
    intro e he hs
    have hs2 : ¬ env.time > wrap_time (e.time + params.cache_ttl) := hs
    simp only [he, hs2, if_false]
  refine ⟨_, rfl, ?_, hstale, hfresh, ?_, ?_⟩
  · intro h
    simp [h]
  · intro e he hr
    have hiff := ttl_expired_iff env params e hr
    refine ⟨fun h => hstale e he (hiff.2 h), fun h => hfresh e he ?_⟩
    intro hs
    have := hiff.1 hs
    omega
  · intro hinv
    cases hget : mem_get w.mempool (cache_key dst) with
    | none => simp
    | some e =>
      have hpos := hinv e hget
      simp only []
      by_cases hs : ttl_expired env params e
      · have hs2 : env.time > wrap_time (e.time + params.cache_ttl) := hs
        rw [if_pos hs2]
        refine ⟨⟨?_, ?_⟩, ⟨?_, ?_⟩, ⟨?_, ?_⟩⟩
        · rintro ⟨e', he', h0⟩
          cases he'
          omega
        · rintro ⟨e', he', hne⟩
          cases he'
          exact absurd hs hne
        · intro _
          exact ⟨e, rfl, hs⟩
        · intro _
          rfl
        · intro h
          exact absurd h (by decide)
        · intro h
          exact Option.noConfusion h
      · have hs2 : ¬ env.time > wrap_time (e.time + params.cache_ttl) := hs
        rw [if_neg hs2]
        refine ⟨⟨?_, ?_⟩, ⟨?_, ?_⟩, ⟨?_, ?_⟩⟩
        · intro _
          exact ⟨e, rfl, hs⟩
        · intro _
          exact ⟨e, rfl, rfl⟩
        · intro h
          omega
        · rintro ⟨e', he', hst⟩
          cases he'
          exact absurd hst hs
        · intro h
          omega
        · intro h
          exact Option.noConfusion h

/-- Witness of the lookup: the entry of `demo_upstream_world` was stored at time 990 with
`cache_ttl = 100`; the lookup at time 1000 returns its index 1, and with `cache_ttl = 10`
(the boundary `now = last_used + cache_ttl`) it still does. -/
theorem mode_add_get_lookup_witness :
    mode_add_get demo_env demo_params demo_upstream_world demo_dst (-1)
        = some (1, demo_upstream_world)
      ∧ mode_add_get demo_env { demo_params with cache_ttl := 10 } demo_upstream_world
          demo_dst (-1) = some (1, demo_upstream_world) := by
  obtain ⟨r, hr, _, _, _, hfresh, _⟩ :=
    mode_add_get_lookup demo_env demo_params demo_upstream_world demo_dst
  obtain ⟨r2, hr2, _, _, _, hfresh2, _⟩ :=
    mode_add_get_lookup demo_env { demo_params with cache_ttl := 10 } demo_upstream_world
      demo_dst
  have e1 := (hfresh { m := 1, time := 990 } (by decide) (by decide)).2 (by decide)
  have e2 := (hfresh2 { m := 1, time := 990 } (by decide) (by decide)).2 (by decide)
  rw [hr, hr2, e1, e2]
  exact ⟨rfl, rfl⟩

/-- C8: the lookup at an overflowing sum. The entry of `demo_upstream_world` was stored
at time 990 with index 1, the time is 1000 and `cache_ttl` is `LONG_MAX`, so the entry is
10 seconds old and `now - last_used <= cache_ttl`; the sum `last_used + cache_ttl` wraps
around in `time_t` and the lookup returns the stale marker 0, not the stored index. -/
theorem mode_add_get_lookup_overflow :
    mem_get demo_upstream_world.mempool (cache_key demo_dst) = some { m := 1, time := 990 }
      ∧ demo_env.time - 990 ≤ demo_params_ttl_max.cache_ttl
      ∧ wrap_time (990 + demo_params_ttl_max.cache_ttl) = -9223372036854774819
      ∧ mode_add_get demo_env demo_params_ttl_max demo_upstream_world demo_dst (-1)
          = some (0, demo_upstream_world) := by
  decide

/-! ## C9 -/

theorem field_bytes_inj (size : Nat) :
    ∀ v u : Nat, v < 256 ^ size → u < 256 ^ size →
      field_bytes size v = field_bytes size u → v = u := by
  induction size with
  | zero =>
    intro v u hv hu _
    simp at hv hu
    omega
  | succ n ih =>
    intro v u hv hu h
    simp only [field_bytes, List.cons.injEq] at h
    have hv2 : v / 256 < 256 ^ n := by
      rw [Nat.div_lt_iff_lt_mul (by decide)]
      rw [pow_succ] at hv
      exact hv
    have hu2 : u / 256 < 256 ^ n := by
      rw [Nat.div_lt_iff_lt_mul (by decide)]
      rw [pow_succ] at hu
      exact hu
    have hdiv := ih (v / 256) (u / 256) hv2 hu2 h.2
    have hmod := h.1
    omega

/-- C9: address keys. For destinations of family `AF_INET` or `AF_INET6` whose fields fit
their C types, `serialize_addr` into a `KEY_SIZE` buffer returns the length
`2 + sizeof(sa_family) + (4 or 16)` and writes port, family and address in this order;
the keys of two destinations are equal if and only if port, family and address are
equal; and the key does not depend on what the buffer held before. -/
theorem serialize_addr_injective (d1 d2 : sockaddr_ina) (h1 : wf_dst d1) (h2 : wf_dst d2) :
    (serialize_addr d1 (List.replicate KEY_SIZE 0) KEY_SIZE).1
        = SIZEOF_UINT16 + SIZEOF_SA_FAMILY
            + (if d1.sa_family = AF_INET then SIZEOF_IN_ADDR else SIZEOF_IN6_ADDR)
    ∧ cache_key d1
        = field_bytes SIZEOF_UINT16 d1.sin_port ++ field_bytes SIZEOF_SA_FAMILY d1.sa_family
            ++ (if d1.sa_family = AF_INET then field_bytes SIZEOF_IN_ADDR d1.sin_addr
                else field_bytes SIZEOF_IN6_ADDR d1.sin6_addr)
    ∧ (cache_key d1 = cache_key d2
        ↔ d1.sin_port = d2.sin_port ∧ d1.sa_family = d2.sa_family ∧ addr_of d1 = addr_of d2)
    ∧ (∀ out1 out2 : Bytes, out1.length = KEY_SIZE → out2.length = KEY_SIZE →
        (serialize_addr d1 out1 KEY_SIZE).1 = (serialize_addr d1 out2 KEY_SIZE).1
        ∧ (serialize_addr d1 out1 KEY_SIZE).2.take (serialize_addr d1 out1 KEY_SIZE).1.toNat
            = (serialize_addr d1 out2 KEY_SIZE).2.take
                (serialize_addr d1 out2 KEY_SIZE).1.toNat) := by
  refine ⟨?_, ?_, ?_, ?_⟩
  · rw [(serialize_addr_key d1 (List.replicate KEY_SIZE 0) (by simp)).1]
    split_ifs <;> rfl
  · exact cache_key_eq d1
  · rw [cache_key_eq, cache_key_eq]
    obtain ⟨hf1, hp1, ha1, hb1⟩ := h1
    obtain ⟨hf2, hp2, ha2, hb2⟩ := h2
    have hfam1 : d1.sa_family < 256 ^ 2 := by
      rcases hf1 with h | h <;> rw [h] <;> decide
    have hfam2 : d2.sa_family < 256 ^ 2 := by
      rcases hf2 with h | h <;> rw [h] <;> decide
    constructor
    · intro h
      rw [List.append_assoc, List.append_assoc] at h
      have hA := List.append_inj h (by simp [length_field_bytes])
      have hport := field_bytes_inj 2 _ _ hp1 hp2 hA.1
      have hB := List.append_inj hA.2 (by simp [length_field_bytes])
      have hfam := field_bytes_inj 2 _ _ hfam1 hfam2 hB.1
      refine ⟨hport, hfam, ?_⟩
      have hrest := hB.2
      unfold addr_of
      rw [← hfam] at hrest ⊢
      by_cases hf : d1.sa_family = AF_INET
      · simp only [hf, if_true] at hrest ⊢
        exact field_bytes_inj 4 _ _ ha1 ha2 hrest
      · simp only [hf, if_false] at hrest ⊢
        exact field_bytes_inj 16 _ _ hb1 hb2 hrest
    · rintro ⟨hport, hfam, haddr⟩
      unfold addr_of at haddr
      rw [← hfam] at haddr ⊢
      rw [hport]
      by_cases hf : d1.sa_family = AF_INET
      · simp only [hf, if_true] at haddr ⊢
        rw [haddr]
      · simp only [hf, if_false] at haddr ⊢
        rw [haddr]
  · intro out1 out2 hl1 hl2
    obtain ⟨a1, b1⟩ := serialize_addr_key d1 out1 hl1
    obtain ⟨a2, b2⟩ := serialize_addr_key d1 out2 hl2
    exact ⟨by rw [a1, a2], by rw [b1, b2]⟩

/-- Witness of C9: 10.0.0.1:80 and 10.0.0.1:443 are well-formed `AF_INET` destinations
that differ in the port, so their keys differ. -/
theorem serialize_addr_injective_witness :
    wf_dst demo_dst ∧ wf_dst { demo_dst with sin_port := 47873 }
      ∧ cache_key demo_dst ≠ cache_key { demo_dst with sin_port := 47873 } :=
  ⟨by decide, by decide, fun h =>
    absurd ((serialize_addr_injective demo_dst { demo_dst with sin_port := 47873 }
      (by decide) (by decide)).2.2.1.1 h).1 (by decide)⟩

/-! ## C10 -/

theorem on_desync_again_send_outcome (env : Env) (params : Params) (w : World) (bfsize : Int)
    (hassert : 0 < w.val.buff.size ∧ w.val.buff.size ≤ params.bfsize)
    (htimeout : params.timeout ≠ 0 →
      env.setsockopt w.peer.fd TCP_USER_TIMEOUT params.timeout = 0)
    (hsn : 0 ≤ env.desync w.peer.fd ((w.val.buff.data.getD []).take w.val.buff.size.toNat)
      bfsize w.val.buff.size w.val.buff.offset w.peer.in6 w.val.attempt)
    (hmod : env.mod_etype w.peer.fd POLLOUT = 0) :
    ∃ w', on_desync_again_send env params w bfsize = some (0, w')
      ∧ w'.val.buff.offset = w.val.buff.offset
          + env.desync w.peer.fd ((w.val.buff.data.getD []).take w.val.buff.size.toNat)
              bfsize w.val.buff.size w.val.buff.offset w.peer.in6 w.val.attempt
      ∧ w'.val.buff.size = w.val.buff.size
      ∧ w'.peer.type =
          (if env.desync w.peer.fd ((w.val.buff.data.getD []).take w.val.buff.size.toNat)
              bfsize w.val.buff.size w.val.buff.offset w.peer.in6 w.val.attempt
                < w.val.buff.size
           then eid.EV_DESYNC else eid.EV_PRE_TUNNEL) := by
  unfold on_desync_again_send
  simp only [hassert, gt_iff_lt, and_self, not_true_eq_false, if_false, set_timeout, World.log]
  by_cases ht : params.timeout = 0
  · simp only [ht, ne_eq, not_true_eq_false, if_false, not_lt.mpr hsn, hmod]
    split_ifs <;> exact ⟨_, rfl, rfl, rfl, rfl⟩
  · have h0 := htimeout ht
    simp only [ht, ne_eq, not_false_eq_true, if_true, h0, not_true_eq_false, if_false,
      not_lt.mpr hsn, hmod]
    split_ifs <;> exact ⟨_, rfl, rfl, rfl, rfl⟩

/-- C10: partial desync emission of a 1200-byte payload, evaluated. The first call of
`on_desync_again`, in which `desync` emits 500 bytes, leaves `offset = 500` and the
upstream flow in `DESYNC` with `POLLOUT` armed. In the resumed call `desync` emits the
remaining 700 bytes: `offset` becomes 1200, the size of the buffer, but since `sn = 700`
is compared with the whole size the upstream flow stays in `DESYNC` with `POLLOUT` armed
again; it is not moved to `PRE_TUNNEL`. -/
theorem on_desync_again_resumed_stays_in_desync :
    (on_desync_again demo_env_partial demo_params_big demo_payload_world 16384).map
        (fun p => ({ p.2 with trace := [] } : World)) = some demo_payload_resumed
    ∧ (on_desync_again demo_env_partial demo_params_big demo_payload_world 16384).map
        (fun p => (p.1, p.2.val.buff.offset, p.2.val.buff.size, p.2.peer.type, p.2.trace))
      = some ((0 : Int), (500 : Int), (1200 : Int), eid.EV_DESYNC,
          [Call.desync 6 1200 0 1, Call.mod_etype 6 POLLOUT])
    ∧ (on_desync_again demo_env_partial demo_params_big demo_payload_resumed 16384).map
        (fun p => (p.1, p.2.val.buff.offset, p.2.val.buff.size, p.2.peer.type, p.2.trace))
      = some ((0 : Int), (1200 : Int), (1200 : Int), eid.EV_DESYNC,
          [Call.desync 6 1200 500 1, Call.mod_etype 6 POLLOUT]) :=
  ⟨rfl, by decide, by decide⟩

/-! ## C11 -/

/-- C11: effects of `reconnect` on the upstream flow `val` and its client `val->pair`.
If `create_conn` succeeds, `reconnect` returns 0 and afterwards the client has
`attempt = m`, `cache = 1`, `buff.offset = 0` and type `IGNORE`, `val->pair` is cleared,
and the client's `buff.data` and `buff.size` are as before (so is the cache). If
`create_conn` fails, `reconnect` returns -1 and both flow records and the cache are
unchanged. -/
theorem reconnect_effects (env : Env) (w : World) (m : Nat) :
    (env.create_conn w.peer.fd w.val.in6 eid.EV_DESYNC = 0 →
        (reconnect env w m).1 = 0
        ∧ (reconnect env w m).2.peer.attempt = m
        ∧ (reconnect env w m).2.peer.cache = true
        ∧ (reconnect env w m).2.peer.buff.offset = 0
        ∧ (reconnect env w m).2.peer.type = eid.EV_IGNORE
        ∧ (reconnect env w m).2.val.pair = false
        ∧ (reconnect env w m).2.peer.buff.data = w.peer.buff.data
        ∧ (reconnect env w m).2.peer.buff.size = w.peer.buff.size
        ∧ (reconnect env w m).2.mempool = w.mempool)
    ∧ (env.create_conn w.peer.fd w.val.in6 eid.EV_DESYNC ≠ 0 →
        (reconnect env w m).1 = -1
        ∧ (reconnect env w m).2.peer = w.peer
        ∧ (reconnect env w m).2.val = w.val
        ∧ (reconnect env w m).2.mempool = w.mempool) := by
  constructor
  · intro h
    simp [reconnect, h, World.log]
  · intro h
    simp [reconnect, h, World.log]

/-- Witness of C11: in `demo_env` the call of `create_conn` succeeds; the client of
`demo_upstream_world` is reconnected with strategy 2 and keeps its three payload bytes. -/
theorem reconnect_effects_witness :
    demo_env.create_conn demo_upstream_world.peer.fd demo_upstream_world.val.in6
        eid.EV_DESYNC = 0
      ∧ (reconnect demo_env demo_upstream_world 2).1 = 0
      ∧ (reconnect demo_env demo_upstream_world 2).2.peer.attempt = 2
      ∧ (reconnect demo_env demo_upstream_world 2).2.peer.buff.data = some [71, 69, 84] :=
  ⟨rfl,
   ((reconnect_effects demo_env demo_upstream_world 2).1 rfl).1,
   ((reconnect_effects demo_env demo_upstream_world 2).1 rfl).2.1,
   ((reconnect_effects demo_env demo_upstream_world 2).1 rfl).2.2.2.2.2.2.1⟩

/-! ## C17 -/

/-- C17: a full buffer goes straight to `TUNNEL`. For a readable event (`out = 0`) on a
flow that holds its buffer and whose `buff.size` equals `bfsize`, `on_desync` returns 0;
the flow and its pair are in state `TUNNEL`, the buffer is released (`data` null,
`size = 0`, `offset = 0`), the only call made is the `free` of the buffer (no `recv`, no
`desync`), and `attempt` and the cache are unchanged. -/
theorem on_desync_full_buffer (env : Env) (params : Params) (w : World) (bfsize : Int)
    (hbuf : w.val.buff.data.isSome = true) (hsize : w.val.buff.size = bfsize) :
    ∃ w', on_desync env params w bfsize 0 = some (0, w')
      ∧ w'.val.type = eid.EV_TUNNEL ∧ w'.peer.type = eid.EV_TUNNEL
      ∧ w'.val.buff = { data := none, size := 0, offset := 0 }
      ∧ new_calls w (on_desync env params w bfsize 0) = [Call.free]
      ∧ w'.val.attempt = w.val.attempt ∧ w'.peer.attempt = w.peer.attempt
      ∧ w'.mempool = w.mempool := by
  unfold on_desync
  simp only [ne_eq, not_true_eq_false, if_false, hsize, if_true, to_tunnel, hbuf,
    Bool.true_eq_false, World.log]
  refine ⟨_, rfl, rfl, rfl, rfl, ?_, rfl, rfl, rfl⟩
  simp [new_calls]

/-- Witness of C17: the client of `demo_upstream_world` holds a 3-byte payload; with
`bfsize = 3` the buffer is full and the pair goes to `TUNNEL`. -/
theorem on_desync_full_buffer_witness :
    ∃ w', on_desync demo_env demo_params demo_upstream_world.swap 3 0 = some (0, w')
      ∧ w'.val.type = eid.EV_TUNNEL ∧ w'.peer.type = eid.EV_TUNNEL
      ∧ w'.val.buff = { data := none, size := 0, offset := 0 }
      ∧ new_calls demo_upstream_world.swap
          (on_desync demo_env demo_params demo_upstream_world.swap 3 0) = [Call.free]
      ∧ w'.val.attempt = demo_upstream_world.swap.val.attempt
      ∧ w'.peer.attempt = demo_upstream_world.swap.peer.attempt
      ∧ w'.mempool = demo_upstream_world.swap.mempool :=
  on_desync_full_buffer demo_env demo_params demo_upstream_world.swap 3 (by decide) (by decide)

/-! ## C16 -/

/-- C16, counterexample: the key of the IPv4 destination 10.0.0.1:80 has 8 bytes and the
key of the same destination in IPv4-mapped IPv6 form has 20 bytes; they differ. -/
theorem cache_key_v4_mapped_differs :
    cache_key (dst_v4 20480 16777226) = [0, 80, 2, 0, 10, 0, 0, 1]
      ∧ cache_key (dst_v4_mapped 20480 16777226)
          = [0, 80, 10, 0, 0, 0, 0, 0, 0, 0, 0, 0, 0, 0, 255, 255, 10, 0, 0, 1]
      ∧ cache_key (dst_v4 20480 16777226) ≠ cache_key (dst_v4_mapped 20480 16777226) := by
  decide

/-- C16 (amended): for every IPv4 address `a` and port `p` the cache key of the IPv4
destination (family `AF_INET`) is port, family and the 4 address bytes (8 bytes), the
key of its IPv4-mapped IPv6 form (family `AF_INET6`, address `::ffff:a`) is port, family
and the 16 address bytes (20 bytes), and the two keys are different: `serialize_addr`
does not canonicalise. The key written at commit or failure is the key read by
`connect_hook` when both serialise the same family, port and address. -/
theorem cache_key_v4_mapped_ne (p a : Nat) :
    cache_key (dst_v4 p a)
        = field_bytes 2 p ++ field_bytes 2 AF_INET ++ field_bytes 4 a
    ∧ cache_key (dst_v4_mapped p a)
        = field_bytes 2 p ++ field_bytes 2 AF_INET6 ++ field_bytes 16 (v4_mapped a)
    ∧ (cache_key (dst_v4 p a)).length = 8
    ∧ (cache_key (dst_v4_mapped p a)).length = 20
    ∧ cache_key (dst_v4 p a) ≠ cache_key (dst_v4_mapped p a)
    ∧ (∀ d1 d2 : sockaddr_ina, d1.sa_family = d2.sa_family → d1.sin_port = d2.sin_port →
        addr_of d1 = addr_of d2 → cache_key d1 = cache_key d2) := by
  have h1 : cache_key (dst_v4 p a)
      = field_bytes 2 p ++ field_bytes 2 AF_INET ++ field_bytes 4 a := by
    rw [cache_key_eq]
    simp [dst_v4]
  have h2 : cache_key (dst_v4_mapped p a)
      = field_bytes 2 p ++ field_bytes 2 AF_INET6 ++ field_bytes 16 (v4_mapped a) := by
    rw [cache_key_eq]
    simp [dst_v4_mapped, AF_INET, AF_INET6]
  have l1 : (cache_key (dst_v4 p a)).length = 8 := by
    rw [h1]
    simp [length_field_bytes]
  have l2 : (cache_key (dst_v4_mapped p a)).length = 20 := by
    rw [h2]
    simp [length_field_bytes]
  refine ⟨h1, h2, l1, l2, ?_, ?_⟩
  · intro h
    rw [h, l2] at l1
    exact absurd l1 (by decide)
  · intro d1 d2 hf hp ha
    rw [cache_key_eq, cache_key_eq]
    unfold addr_of at ha
    rw [← hf] at ha ⊢
    rw [hp]
    by_cases hfam : d1.sa_family = AF_INET
    · simp only [hfam, if_true] at ha ⊢
      rw [ha]
    · simp only [hfam, if_false] at ha ⊢
      rw [ha]

/-! ## C13 -/

theorem udp_hook_scan_spec (dst : sockaddr_ina) :
    ∀ (l : List desync_params) (s : Nat),
      s ≤ udp_hook_scan dst l s ∧ udp_hook_scan dst l s ≤ s + l.length
      ∧ (∀ j, j < udp_hook_scan dst l s - s →
          ¬ select_udp_cond (l.getD j neutral_dp) dst.sin_port)
      ∧ (udp_hook_scan dst l s < s + l.length →
          select_udp_cond (l.getD (udp_hook_scan dst l s - s) neutral_dp) dst.sin_port) := by
  intro l
  induction l with
  | nil => intro s; simp [udp_hook_scan]
  | cons d rest ih =>
    intro s
    have hiff : (d.detect = 0 ∧ (d.proto = 0 ∨ d.proto &&& IS_UDP ≠ 0)
        ∧ (d.pf.1 = 0 ∨ check_port d.pf dst = true)) ↔ select_udp_cond d dst.sin_port := by
      unfold select_udp_cond check_port
      simp
    by_cases hd : select_udp_cond d dst.sin_port
    · have hs : udp_hook_scan dst (d :: rest) s = s := by
        simp only [udp_hook_scan, hiff.2 hd, and_self, if_true]
      rw [hs]
      simp [hd]
    · have hs : udp_hook_scan dst (d :: rest) s = udp_hook_scan dst rest (s + 1) := by
        have hn : ¬ (d.detect = 0 ∧ (d.proto = 0 ∨ d.proto &&& IS_UDP ≠ 0)
            ∧ (d.pf.1 = 0 ∨ check_port d.pf dst = true)) := fun h => hd (hiff.1 h)
        simp only [udp_hook_scan, hn, if_false]
      rw [hs]
      obtain ⟨h1, h2, h3, h4⟩ := ih (s + 1)
      refine ⟨by omega, by simp; omega, ?_, ?_⟩
      · intro j hj
        cases j with
        | zero => simpa using hd
        | succ k =>
          have := h3 k (by omega)
          simpa using this
      · intro hlt
        have hlt2 : udp_hook_scan dst rest (s + 1) < s + 1 + rest.length := by
          simp at hlt; omega
        have := h4 hlt2
        have e : udp_hook_scan dst rest (s + 1) - s
            = (udp_hook_scan dst rest (s + 1) - (s + 1)) + 1 := by omega
        rw [e]
        simpa using this

/-- C13: `udp_hook` does not record its choice. A first datagram to port 80 with the
strategies of `demo_params_udp`: strategy 0 is restricted to another port, so `udp_hook`
calls `desync_udp` with index 1; the flow record is returned as it was, `attempt` is
still 0 and not 1. The TCP path `on_desync`, which guards its selection loop by the same
test of `attempt`, does write the index it selects: on the same flow with the strategies
of `demo_params` it leaves `attempt = 1`. -/
theorem udp_hook_keeps_attempt :
    demo_client_world.val.recv_count = 0 ∧ demo_client_world.val.attempt = 0
      ∧ udp_hook demo_env demo_params_udp demo_client_world [1, 2, 3] 16 3 demo_dst
          = (3, { demo_client_world with trace := [Call.desync_udp 5 3 1] })
      ∧ (udp_hook demo_env demo_params_udp demo_client_world [1, 2, 3] 16 3
          demo_dst).2.val.attempt = 0
      ∧ (on_desync demo_env demo_params demo_client_world 16 0).map
          (fun p => p.2.val.attempt) = some 1 :=
  ⟨by decide, by decide, by decide, by decide, by decide⟩

/-- The selection of `udp_hook`: for a first datagram of a flow (`recv_count == 0`,
`attempt == 0`)
`udp_hook` calls `desync_udp` with the lowest index `m < dp_count` whose strategy has
`detect == 0`, a protocol mask that is absent or includes UDP and a port range that is
absent or contains the destination port, and returns its result; if no strategy
matches it returns -1 without calling `desync_udp`; when `recv_count != 0` the datagram
is sent unchanged. In every case the flow record is left as it was: `udp_hook` does not
write `attempt`. -/
theorem udp_hook_selects (env : Env) (params : Params) (w : World) (buffer : Bytes)
    (bfsize n : Int) (dst : sockaddr_ina) :
    (w.val.recv_count = 0 → w.val.attempt = 0 →
        ∀ m, m < params.dp_count → select_udp_cond (params.dp_at m) dst.sin_port →
          (∀ j, j < m → ¬ select_udp_cond (params.dp_at j) dst.sin_port) →
          udp_hook env params w buffer bfsize n dst
            = (env.desync_udp w.val.fd buffer bfsize n dst m,
               w.log (Call.desync_udp w.val.fd n m)))
    ∧ (w.val.recv_count = 0 → w.val.attempt = 0 →
        (∀ j, j < params.dp_count → ¬ select_udp_cond (params.dp_at j) dst.sin_port) →
        udp_hook env params w buffer bfsize n dst = (-1, w))
    ∧ (w.val.recv_count ≠ 0 →
        udp_hook env params w buffer bfsize n dst
          = (env.send w.val.fd buffer n, w.log (Call.send w.val.fd buffer n)))
    ∧ (udp_hook env params w buffer bfsize n dst).2.val = w.val
    ∧ (udp_hook env params w buffer bfsize n dst).2.peer = w.peer
    ∧ (udp_hook env params w buffer bfsize n dst).2.mempool = w.mempool := by
  obtain ⟨_, h2, h3, h4⟩ := udp_hook_scan_spec dst params.dp 0
  have hd := dp_at_drop params 0
  simp only [List.drop_zero, Nat.zero_add, Nat.sub_zero] at hd h2 h3 h4
  simp only [hd] at h3 h4
  refine ⟨?_, ?_, ?_, ?_, ?_, ?_⟩
  · intro hr ha m hmlt hcond hleast
    have hscan : udp_hook_scan dst params.dp 0 = m := by
      rcases Nat.lt_trichotomy (udp_hook_scan dst params.dp 0) m with hlt | heq | hgt
      · exact absurd (h4 (lt_trans hlt hmlt)) (hleast _ hlt)
      · exact heq
      · exact absurd hcond (h3 m hgt)
    unfold udp_hook
    simp only [hr, ne_eq, not_true_eq_false, if_false, ha, if_true, List.drop_zero, hscan]
    rw [if_neg (by unfold Params.dp_count at hmlt ⊢; omega)]
  · intro hr ha hnone
    have hge : udp_hook_scan dst params.dp 0 ≥ params.dp_count := by
      by_contra hlt
      have hl : udp_hook_scan dst params.dp 0 < params.dp.length := by
        simpa [Params.dp_count] using hlt
      exact hnone _ hl (h4 hl)
    unfold udp_hook
    simp only [hr, ne_eq, not_true_eq_false, if_false, ha, if_true, List.drop_zero]
    rw [if_pos hge]
  · intro hr
    unfold udp_hook
    simp only [ne_eq, hr, not_false_eq_true, if_true]
  · unfold udp_hook
    dsimp only
    split_ifs <;> rfl
  · unfold udp_hook
    dsimp only
    split_ifs <;> rfl
  · unfold udp_hook
    dsimp only
    split_ifs <;> rfl

/-- Witness of the selection of `udp_hook`: the first datagram of `demo_client_world` to
port 80 is
passed to `desync_udp` with strategy 1. -/
theorem udp_hook_selects_witness :
    udp_hook demo_env demo_params_udp demo_client_world [1, 2, 3] 16 3 demo_dst
      = (demo_env.desync_udp demo_client_world.val.fd [1, 2, 3] 16 3 demo_dst 1,
         demo_client_world.log (Call.desync_udp demo_client_world.val.fd 3 1)) :=
  (udp_hook_selects demo_env demo_params_udp demo_client_world [1, 2, 3] 16 3 demo_dst).1
    (by decide) (by decide) 1 (by decide) (by decide) (by decide)

/-! ## C12 -/

theorem memchr_none_dot_suffixes (h : Bytes) (hm : memchr h 46 = none) :
    dot_suffixes h = [] := by
  induction h with
  | nil => rfl
  | cons b t ih =>
    by_cases hb : b = 46
    · simp [memchr, hb] at hm
    · simp only [memchr, hb, if_false, Option.map_eq_none'] at hm
      simp [dot_suffixes, hb, ih hm]

theorem memchr_some_dot_suffixes (h : Bytes) (i : Nat) (hm : memchr h 46 = some i) :
    i < h.length
      ∧ dot_suffixes h = h.drop (i + 1) :: dot_suffixes (h.drop (i + 1)) := by
  induction h generalizing i with
  | nil => simp [memchr] at hm
  | cons b t ih =>
    by_cases hb : b = 46
    · simp only [memchr, hb, if_true, Option.some.injEq] at hm
      subst hm
      simp [dot_suffixes, hb]
    · simp only [memchr, hb, if_false, Option.map_eq_some'] at hm
      obtain ⟨k, hk, rfl⟩ := hm
      obtain ⟨h1, h2⟩ := ih k hk
      refine ⟨by simp; omega, ?_⟩
      simp [dot_suffixes, hb, h2]

theorem check_host_loop_eq (hosts : mphdr) :
    ∀ (fuel : Nat) (h : Bytes), h.length ≤ fuel →
      check_host_loop hosts fuel h
        = (host_candidates h).any (fun c => (mem_get hosts c).isSome) := by
  intro fuel
  induction fuel with
  | zero =>
    intro h hl
    have : h = [] := List.length_eq_zero.mp (by omega)
    subst this
    simp [check_host_loop, host_candidates, dot_suffixes]
  | succ f ih =>
    intro h hl
    by_cases hnil : h = []
    · subst hnil
      simp [check_host_loop, host_candidates, dot_suffixes]
    · have hlen : ¬ h.length = 0 := fun e => hnil (List.length_eq_zero.mp e)
      by_cases hhit : (mem_get hosts h).isSome = true
      · simp [check_host_loop, hlen, hhit, host_candidates, hnil]
      · cases hm : memchr h 46 with
        | none =>
          have hd := memchr_none_dot_suffixes h hm
          simp [check_host_loop, hlen, hhit, hm, host_candidates, hnil, hd]
        | some i =>
          obtain ⟨hi, hd⟩ := memchr_some_dot_suffixes h i hm
          have hl2 : (h.drop (i + 1)).length ≤ f := by
            simp only [List.length_drop]
            omega
          have := ih (h.drop (i + 1)) hl2
          simp only [check_host_loop, hlen, hhit, hm, if_false]
          rw [this]
          simp only [host_candidates, hd]
          simp [List.filter_cons, hnil, hhit]

theorem mem_dot_suffixes (h c : Bytes) :
    c ∈ dot_suffixes h ↔ ∃ pre, h = pre ++ 46 :: c := by
  induction h with
  | nil => simp [dot_suffixes]
  | cons b t ih =>
    by_cases hb : b = 46
    · simp only [dot_suffixes, hb, if_true, List.mem_cons, ih]
      constructor
      · rintro (rfl | ⟨pre, hp⟩)
        · exact ⟨[], rfl⟩
        · exact ⟨46 :: pre, by rw [hp]; rfl⟩
      · rintro ⟨pre, hp⟩
        cases pre with
        | nil =>
          left
          simp only [List.nil_append, List.cons.injEq, true_and] at hp
          exact hp.symm
        | cons x pre2 =>
          right
          simp only [List.cons_append, List.cons.injEq] at hp
          exact ⟨pre2, hp.2⟩
    · simp only [dot_suffixes, hb, if_false, ih]
      constructor
      · rintro ⟨pre, hp⟩
        exact ⟨b :: pre, by rw [hp]; rfl⟩
      · rintro ⟨pre, hp⟩
        cases pre with
        | nil =>
          simp only [List.nil_append, List.cons.injEq] at hp
          exact absurd hp.1 hb
        | cons x pre2 =>
          simp only [List.cons_append, List.cons.injEq] at hp
          exact ⟨pre2, hp.2⟩

theorem dot_suffixes_shorter (h : Bytes) :
    ∀ c ∈ dot_suffixes h, c.length < h.length := by
  intro c hc
  obtain ⟨pre, hp⟩ := (mem_dot_suffixes h c).1 hc
  rw [hp]
  simp
  omega

theorem dot_suffixes_pairwise (h : Bytes) :
    (dot_suffixes h).Pairwise (fun a b => b.length < a.length) := by
  induction h with
  | nil => simp [dot_suffixes]
  | cons b t ih =>
    by_cases hb : b = 46
    · simp only [dot_suffixes, hb, if_true, List.pairwise_cons]
      exact ⟨dot_suffixes_shorter t, ih⟩
    · simpa [dot_suffixes, hb] using ih

/-- C12: host suffix matching. `check_host` returns true if and only if the length of
the extracted host (TLS SNI when `parse_tls` returns a non-zero length, otherwise HTTP
Host) is positive and the set contains one of the candidates; the candidates are the
non-empty byte strings that are the full host or a suffix of it starting immediately
after a `.`; they are tried from longest to shortest; the loop is over after at most
`|host|` rounds (more rounds change nothing); and with an empty host set `check_host`
returns false for every buffer. -/
theorem check_host_iff (env : Env) (hosts : mphdr) (val : eval) :
    (check_host env hosts val = true
        ↔ 0 < (extracted_host env val).1
            ∧ ∃ c, c ∈ host_candidates (extracted_host env val).2
                ∧ (mem_get hosts c).isSome = true)
    ∧ (∀ h c : Bytes, c ∈ host_candidates h
        ↔ c ≠ [] ∧ (c = h ∨ ∃ pre, h = pre ++ 46 :: c))
    ∧ (∀ h : Bytes, (host_candidates h).Pairwise (fun a b => b.length < a.length))
    ∧ (∀ (h : Bytes) (extra : Nat),
        check_host_loop hosts (h.length + extra) h = check_host_loop hosts h.length h)
    ∧ check_host env [] val = false := by
  have hcheck : ∀ hs : mphdr, check_host env hs val =
      (decide (0 < (extracted_host env val).1)
        && (host_candidates (extracted_host env val).2).any
              (fun c => (mem_get hs c).isSome)) := by
    intro hs
    unfold check_host extracted_host
    dsimp only
    split_ifs with h0 hle
    · have : ¬ (0 < (env.parse_http val.buff.data val.buff.size).1) := by omega
      simp [this]
    · have hpos : 0 < (env.parse_http val.buff.data val.buff.size).1 := by omega
      rw [check_host_loop_eq hs _ _ (by simp)]
      simp [hpos]
    · have : ¬ (0 < (env.parse_tls val.buff.data val.buff.size).1) := by omega
      simp [this]
    · have hpos : 0 < (env.parse_tls val.buff.data val.buff.size).1 := by omega
      rw [check_host_loop_eq hs _ _ (by simp)]
      simp [hpos]
  refine ⟨?_, ?_, ?_, ?_, ?_⟩
  · rw [hcheck hosts]
    simp [List.any_eq_true]
  · intro h c
    unfold host_candidates
    simp only [List.mem_filter, List.mem_cons, mem_dot_suffixes, decide_eq_true_eq]
    tauto
  · intro h
    unfold host_candidates
    apply List.Pairwise.filter
    rw [List.pairwise_cons]
    exact ⟨dot_suffixes_shorter h, dot_suffixes_pairwise h⟩
  · intro h extra
    rw [check_host_loop_eq hosts _ h (by omega), check_host_loop_eq hosts _ h (le_refl _)]
  · rw [hcheck []]
    simp [mem_get]

/-- Witness of C12: the host `a.b.c` and a host set that holds `b.c`; the candidates
are `a.b.c`, `b.c`, `c`, and `check_host` accepts the flow. -/
theorem check_host_iff_witness :
    host_candidates [97, 46, 98, 46, 99] = [[97, 46, 98, 46, 99], [98, 46, 99], [99]]
      ∧ check_host demo_env_host [([98, 46, 99], { m := 0, time := 0 })] demo_client
          = true :=
  ⟨by decide,
   (check_host_iff demo_env_host [([98, 46, 99], { m := 0, time := 0 })] demo_client).1.2
    ⟨by decide, [98, 46, 99], by decide, by decide⟩⟩

/-! ## C18 -/

theorem mode_add_get_frame (env : Env) (params : Params) (w : World) (dst : sockaddr_ina)
    (m r : Int) (w' : World) (h : mode_add_get env params w dst m = some (r, w')) :
    w'.val = w.val ∧ w'.peer = w.peer ∧ reconnects w'.trace = reconnects w.trace
      ∧ (-1 ≤ m ∧ m < params.dp_count)
      ∧ ((m = -1 ∧ w' = w)
          ∨ (m = 0 ∧ r = 0 ∧ w'.mempool = mem_delete w.mempool (cache_key dst))
          ∨ (0 < m ∧ r = -1 ∧ w'.mempool = w.mempool)
          ∨ (0 < m ∧ r = 0
              ∧ w'.mempool = mem_add w.mempool (cache_key dst) { m := m, time := env.time })) := by
  by_cases hrange : m ≥ -1 ∧ m < params.dp_count
  · rcases lt_trichotomy m 0 with hneg | hzero | hpos
    · have hm : m = -1 := by omega
      subst hm
      rw [mode_add_get_get] at h
      simp only [Option.some.injEq, Prod.mk.injEq] at h
      obtain ⟨_, rfl⟩ := h
      exact ⟨rfl, rfl, rfl, ⟨le_refl _, hrange.2⟩, Or.inl ⟨rfl, rfl⟩⟩
    · subst hzero
      have hdp : 0 < params.dp_count := by exact_mod_cast hrange.2
      rw [mode_add_get_delete env params w dst hdp] at h
      simp only [Option.some.injEq, Prod.mk.injEq] at h
      obtain ⟨rfl, rfl⟩ := h
      refine ⟨rfl, rfl, ?_, ⟨by omega, hrange.2⟩, Or.inr (Or.inl ⟨rfl, rfl, rfl⟩)⟩
      simp [reconnects, List.countP_append]
    · obtain ⟨n, rfl⟩ := Int.eq_ofNat_of_zero_le (le_of_lt hpos)
      have hn : 0 < n := by exact_mod_cast hpos
      rw [mode_add_get_set env params w dst n hn (by exact_mod_cast hrange.2)] at h
      simp only [Option.some.injEq, Prod.mk.injEq] at h
      obtain ⟨rfl, rfl⟩ := h
      refine ⟨rfl, rfl, ?_, ⟨by omega, hrange.2⟩, ?_⟩
      · simp [reconnects, List.countP_append]
      · by_cases hok : env.mem_add_ok = true
        · exact Or.inr (Or.inr (Or.inr ⟨hpos, by simp [hok], by simp [hok]⟩))
        · exact Or.inr (Or.inr (Or.inl ⟨hpos, by simp [hok], by simp [hok]⟩))
  · unfold mode_add_get at h
    simp only [hrange, not_false_eq_true, if_true] at h
    exact Option.noConfusion h

theorem mem_get_mem (hdr : mphdr) (key : Bytes) (e : elem) (h : mem_get hdr key = some e) :
    (key, e) ∈ hdr := by
  induction hdr with
  | nil => simp [mem_get] at h
  | cons p rest ih =>
    obtain ⟨k, e0⟩ := p
    by_cases hk : k = key
    · simp only [mem_get, hk, if_true, Option.some.injEq] at h
      simp [hk, h]
    · simp only [mem_get, hk, if_false] at h
      exact List.mem_cons_of_mem _ (ih h)

theorem mode_add_get_ne_none (env : Env) (params : Params) (w : World) (dst : sockaddr_ina)
    (m : Int) :
    mode_add_get env params w dst m ≠ none ↔ (-1 ≤ m ∧ m < params.dp_count) := by
  constructor
  · intro h
    by_contra hr
    apply h
    unfold mode_add_get
    have hr2 : ¬ (m ≥ -1 ∧ m < (params.dp_count : Int)) := hr
    simp only [hr2, not_false_eq_true, if_true]
  · intro hrange h
    rcases lt_trichotomy m 0 with hneg | hzero | hpos
    · have hm : m = -1 := by omega
      subst hm
      rw [mode_add_get_get] at h
      exact Option.noConfusion h
    · subst hzero
      have hdp : 0 < params.dp_count := by exact_mod_cast hrange.2
      rw [mode_add_get_delete env params w dst hdp] at h
      exact Option.noConfusion h
    · obtain ⟨n, rfl⟩ := Int.eq_ofNat_of_zero_le (le_of_lt hpos)
      have hn : 0 < n := by exact_mod_cast hpos
      rw [mode_add_get_set env params w dst n hn (by exact_mod_cast hrange.2)] at h
      split_ifs at h

theorem reconnects_append_one (tr : List Call) (c : Call) :
    reconnects (tr ++ [c])
      = reconnects tr + (match c with
          | Call.del_event _ => 1
          | _ => 0) := by
  unfold reconnects
  rw [List.countP_append]
  cases c <;> simp

theorem reconnect_cases (env : Env) (w : World) (m : Nat) :
    (env.create_conn w.peer.fd w.val.in6 eid.EV_DESYNC ≠ 0
        ∧ reconnect env w m
            = (-1, w.log (Call.create_conn w.peer.fd w.val.in6 eid.EV_DESYNC)))
    ∨ (env.create_conn w.peer.fd w.val.in6 eid.EV_DESYNC = 0
        ∧ (reconnect env w m).1 = 0
        ∧ (reconnect env w m).2.peer.attempt = m
        ∧ (reconnect env w m).2.val.attempt = w.val.attempt
        ∧ (reconnect env w m).2.mempool = w.mempool
        ∧ reconnects (reconnect env w m).2.trace = reconnects w.trace + 1) := by
  by_cases hc : env.create_conn w.peer.fd w.val.in6 eid.EV_DESYNC ≠ 0
  · left
    refine ⟨hc, ?_⟩
    unfold reconnect
    dsimp only
    rw [if_pos hc]
  · right
    have h0 : env.create_conn w.peer.fd w.val.in6 eid.EV_DESYNC = 0 := by
      simpa using hc
    refine ⟨h0, ?_⟩
    simp [reconnect, h0, World.log, reconnects, List.countP_append]

theorem on_response_peer (env : Env) (params : Params) (w : World) (resp : Option Bytes)
    (sn : Int) (h : (on_response env params w resp sn).1 ≠ 0) :
    (on_response env params w resp sn).2.peer = w.peer
      ∧ (on_response env params w resp sn).2.val = w.val
      ∧ (on_response env params w resp sn).2.mempool = w.mempool
      ∧ reconnects (on_response env params w resp sn).2.trace = reconnects w.trace := by
  by_cases ht : ∃ m, ResponseTarget env params w resp sn m
  · obtain ⟨m, hm⟩ := ht
    rw [on_response_target env params w resp sn m hm] at h ⊢
    rcases reconnect_cases env w m with ⟨_, he⟩ | ⟨_, h0, _⟩
    · rw [he]
      refine ⟨rfl, rfl, rfl, ?_⟩
      simp [World.log, reconnects, List.countP_append]
    · exact absurd h0 h
  · rw [on_response_no_target env params w resp sn ht]
    exact ⟨rfl, rfl, rfl, rfl⟩

theorem on_tunnel_check_commit_ne_none (env : Env) (params : Params) (w : World)
    (buffer : Bytes) (n : Int)
    (hbuf : w.peer.buff.data.isSome = true) (hatt : w.peer.attempt < params.dp_count) :
    on_tunnel_check_commit env params w buffer n ≠ none := by
  have hm : ∀ wx : World, mode_add_get env params wx wx.val.in6 w.peer.attempt ≠ none :=
    fun wx => (mode_add_get_ne_none env params wx wx.val.in6 w.peer.attempt).2
      ⟨by omega, by exact_mod_cast hatt⟩
  intro h
  unfold on_tunnel_check_commit at h
  simp only [World.log, to_tunnel, World.swap, set_timeout] at h
  by_cases ha : params.auto_level > 0 ∧ params.dp_count > 1
  · simp only [ha, and_self, if_true, hbuf, Bool.true_eq_false, if_false] at h
    split_ifs at h <;> exact hm _ h
  · simp only [ha, if_false, hbuf, Bool.true_eq_false] at h
    split_ifs at h <;> exact hm _ h

theorem on_torst_ne_none (env : Env) (params : Params) (w : World)
    (hdp : 1 ≤ params.dp_count) : on_torst env params w ≠ none := by
  rw [on_torst_eq]
  have hdp0 : 0 < params.dp_count := hdp
  simp only [hdp0, if_true]
  cases detect_scan torst_hit (params.dp.drop (w.peer.attempt + 1)) (w.peer.attempt + 1) <;>
    (simp only []; split_ifs <;> simp)

theorem on_fin_ne_none (env : Env) (params : Params) (w : World)
    (hdp : 1 ≤ params.dp_count) : on_fin env params w ≠ none := by
  rw [on_fin_eq]
  have hdp0 : 0 < params.dp_count := hdp
  simp only [hdp0, if_true]
  cases detect_scan tls_err_hit (params.dp.drop (w.peer.attempt + 1)) (w.peer.attempt + 1) <;>
    (simp only []; split_ifs <;> simp)

theorem on_tunnel_check_ne_none (env : Env) (params : Params) (w : World) (bfsize : Int)
    (hdp : 1 ≤ params.dp_count) (hatt : w.peer.attempt < params.dp_count)
    (hbuf : w.peer.buff.data.isSome = true) :
    on_tunnel_check env params w bfsize 0 ≠ none := by
  unfold on_tunnel_check
  simp only [ne_eq, not_true_eq_false, if_false]
  split_ifs with h1 h2 h3 h4
  · exact on_fin_ne_none env params _ hdp
  · exact on_torst_ne_none env params _ hdp
  · simp
  · simp
  · have hp := (on_response_peer env params (w.log (Call.recv w.val.fd bfsize))
      (some (env.recv w.val.fd bfsize).data) (env.recv w.val.fd bfsize).n h4).1
    exact on_tunnel_check_commit_ne_none env params _ _ _ (by rw [hp]; exact hbuf)
      (by rw [hp]; exact hatt)

/-- C20: the assertions of `mode_add_get` never fire. `mode_add_get` aborts exactly when
its argument `m` is outside `-1 <= m < dp_count`: the length returned by
`serialize_addr` for the `KEY_SIZE`-byte buffer is `2 + sizeof(sa_family) + 4` for
`AF_INET` and `2 + sizeof(sa_family) + 16` otherwise, never 0. With `dp_count >= 1` and
`pair.attempt < dp_count`, `connect_hook`, `on_torst` and `on_fin` do not abort, and
`on_tunnel_check` (readable event, client buffer held, as its own assertions demand)
does not abort; and when the cached indices are below `dp_count`, `connect_hook` leaves
an `attempt` below `dp_count`. -/
theorem mode_add_get_asserts_hold (env : Env) (params : Params) (w : World)
    (hdp : 1 ≤ params.dp_count) (hatt : w.peer.attempt < params.dp_count) :
    (∀ (wx : World) (dst : sockaddr_ina) (m : Int),
        mode_add_get env params wx dst m ≠ none ↔ (-1 ≤ m ∧ m < params.dp_count))
    ∧ (∀ dst : sockaddr_ina,
        (serialize_addr dst (List.replicate KEY_SIZE 0) KEY_SIZE).1
            = SIZEOF_UINT16 + SIZEOF_SA_FAMILY
                + (if dst.sa_family = AF_INET then SIZEOF_IN_ADDR else SIZEOF_IN6_ADDR)
          ∧ (serialize_addr dst (List.replicate KEY_SIZE 0) KEY_SIZE).1 > 0)
    ∧ (∀ (dst : sockaddr_ina) (next : eid), connect_hook env params w dst next ≠ none)
    ∧ on_torst env params w ≠ none
    ∧ on_fin env params w ≠ none
    ∧ (∀ bfsize : Int, w.peer.buff.data.isSome = true →
        on_tunnel_check env params w bfsize 0 ≠ none)
    ∧ (∀ (dst : sockaddr_ina) (next : eid) (r : Int) (w' : World),
        (∀ p ∈ w.mempool, p.2.m < params.dp_count) →
        connect_hook env params w dst next = some (r, w') →
        w'.val.attempt < params.dp_count) := by
  refine ⟨fun wx dst m => mode_add_get_ne_none env params wx dst m, ?_, ?_,
    on_torst_ne_none env params w hdp, on_fin_ne_none env params w hdp,
    fun bfsize hbuf => on_tunnel_check_ne_none env params w bfsize hdp hatt hbuf, ?_⟩
  · intro dst
    refine ⟨?_, serialize_addr_pos dst⟩
    rw [(serialize_addr_key dst (List.replicate KEY_SIZE 0) (by simp)).1]
    split_ifs <;> rfl
  · intro dst next
    unfold connect_hook
    rw [mode_add_get_get]
    simp
  · intro dst next r w' hstored hcall
    unfold connect_hook at hcall
    rw [mode_add_get_get] at hcall
    simp only [Option.some.injEq, Prod.mk.injEq, World.log] at hcall
    obtain ⟨_, rfl⟩ := hcall
    simp only
    cases hget : mem_get w.mempool (cache_key dst) with
    | none =>
      simp only
      rw [if_pos (by decide)]
      omega
    | some e =>
      have hlt := hstored _ (mem_get_mem _ _ e hget)
      simp only at hlt ⊢
      split_ifs <;> omega

/-- Witness of C20: in `demo_upstream_world` the client's `attempt` is 1 and
`demo_params` has four strategies; a reset there makes `on_torst` return. -/
theorem mode_add_get_asserts_hold_witness :
    1 ≤ demo_params.dp_count ∧ demo_upstream_world.peer.attempt < demo_params.dp_count
      ∧ on_torst demo_env demo_params demo_upstream_world ≠ none :=
  ⟨by decide, by decide,
   (mode_add_get_asserts_hold demo_env demo_params demo_upstream_world (by decide)
      (by decide)).2.2.2.1⟩

/-! ## Effects of the handlers on `attempt` and on the number of reconnects -/

theorem quiet_refl (w : World) : Quiet w w := ⟨rfl, rfl, rfl⟩

theorem quiet_trans (w w1 w2 : World) (h1 : Quiet w w1) (h2 : Quiet w1 w2) : Quiet w w2 :=
  ⟨h2.1.trans h1.1, h2.2.1.trans h1.2.1, h2.2.2.trans h1.2.2⟩

theorem quiet_swap (w w' : World) (h : Quiet w.swap w') : Quiet w w'.swap :=
  ⟨h.2.1, h.1, h.2.2⟩

theorem quiet_log (w : World) (c : Call) (hc : ∀ fd, c ≠ Call.del_event fd) :
    Quiet w (w.log c) := by
  refine ⟨rfl, rfl, ?_⟩
  simp only [World.log]
  rw [reconnects_append_one]
  cases c <;> first | rfl | exact absurd rfl (hc _)

theorem quiet_reconnected (params : Params) (w w1 w2 : World) (h1 : Quiet w w1)
    (h2 : Reconnected params w1 w2) : Reconnected params w w2 := by
  obtain ⟨a1, a2, a3⟩ := h1
  obtain ⟨b1, b2, b3, b4⟩ := h2
  exact ⟨by omega, by omega, b3, by omega⟩

theorem reconnected_quiet (params : Params) (w w1 w2 : World) (h1 : Reconnected params w w1)
    (h2 : Quiet w1 w2) : Reconnected params w w2 := by
  obtain ⟨a1, a2, a3⟩ := h2
  obtain ⟨b1, b2, b3, b4⟩ := h1
  exact ⟨by omega, by omega, by omega, by omega⟩

theorem reconnect_step (env : Env) (params : Params) (w : World) (m : Nat)
    (h1 : w.peer.attempt < m) (h2 : m < params.dp_count) :
    Quiet w (reconnect env w m).2 ∨ Reconnected params w (reconnect env w m).2 := by
  rcases reconnect_cases env w m with ⟨_, he⟩ | ⟨_, _, ha, hv, _, hr⟩
  · left
    rw [he]
    exact quiet_log w _ (fun fd h => Call.noConfusion h)
  · right
    exact ⟨hr, by omega, by omega, hv⟩

theorem mode_add_get_quiet (env : Env) (params : Params) (w : World) (dst : sockaddr_ina)
    (m r : Int) (w' : World) (h : mode_add_get env params w dst m = some (r, w')) :
    Quiet w w' := by
  obtain ⟨hv, hp, hr, _⟩ := mode_add_get_frame env params w dst m r w' h
  exact ⟨by rw [hp], by rw [hv], hr⟩

theorem on_torst_step (env : Env) (params : Params) (w : World) (r : Int) (w' : World)
    (h : on_torst env params w = some (r, w')) :
    Quiet w w' ∨ Reconnected params w w' := by
  rw [on_torst_eq] at h
  have hs := detect_scan_spec torst_hit params (w.peer.attempt + 1)
  have hq : ∀ w1 : World, Quiet w w1 →
      Quiet w (w1.log (Call.setsockopt w.peer.fd SO_LINGER 1)) := fun w1 h1 =>
    quiet_trans _ _ _ h1 (quiet_log w1 _ (fun fd h => Call.noConfusion h))
  have hst : ∀ m, Quiet w (w.stored env m) := fun m =>
    ⟨rfl, rfl, by simp [World.stored, reconnects, List.countP_append]⟩
  have hdel : Quiet w w.deleted :=
    ⟨rfl, rfl, by simp [World.deleted, reconnects, List.countP_append]⟩
  by_cases hen : can_reconn w ∨ params.auto_level ≥ 1
  · rw [if_pos hen] at h
    cases hres : detect_scan torst_hit (params.dp.drop (w.peer.attempt + 1))
        (w.peer.attempt + 1) with
    | stop =>
      rw [hres] at h
      simp only [Option.some.injEq, Prod.mk.injEq] at h
      obtain ⟨_, rfl⟩ := h
      exact Or.inl (hq w (quiet_refl w))
    | found m =>
      rw [hres] at h hs
      simp only at h
      split_ifs at h
      · simp only [Option.some.injEq] at h
        have hw : w' = (reconnect env w m).2 := by rw [h]
        rw [hw]
        exact reconnect_step env params w m (by have := hs.1; omega) hs.2.1
      · simp only [Option.some.injEq, Prod.mk.injEq] at h
        obtain ⟨_, rfl⟩ := h
        exact Or.inl (hq _ (hst m))
    | exhausted m =>
      rw [hres] at h
      simp only at h
      split_ifs at h
      · simp only [Option.some.injEq, Prod.mk.injEq] at h
        obtain ⟨_, rfl⟩ := h
        exact Or.inl (hq _ hdel)
      · simp only [Option.some.injEq, Prod.mk.injEq] at h
        obtain ⟨_, rfl⟩ := h
        exact Or.inl (hq w (quiet_refl w))
  · rw [if_neg hen] at h
    simp only [Option.some.injEq, Prod.mk.injEq] at h
    obtain ⟨_, rfl⟩ := h
    exact Or.inl (hq w (quiet_refl w))

theorem on_fin_step (env : Env) (params : Params) (w : World) (r : Int) (w' : World)
    (h : on_fin env params w = some (r, w')) :
    Quiet w w' ∨ Reconnected params w w' := by
  rw [on_fin_eq] at h
  have hs := detect_scan_spec tls_err_hit params (w.peer.attempt + 1)
  have hst : ∀ m, Quiet w (w.stored env m) := fun m =>
    ⟨rfl, rfl, by simp [World.stored, reconnects, List.countP_append]⟩
  have hdel : Quiet w w.deleted :=
    ⟨rfl, rfl, by simp [World.deleted, reconnects, List.countP_append]⟩
  by_cases hen : tls_failure env params w
  · rw [if_pos hen] at h
    cases hres : detect_scan tls_err_hit (params.dp.drop (w.peer.attempt + 1))
        (w.peer.attempt + 1) with
    | stop =>
      rw [hres] at h
      simp only [Option.some.injEq, Prod.mk.injEq] at h
      obtain ⟨_, rfl⟩ := h
      exact Or.inl (quiet_refl _)
    | found m =>
      rw [hres] at h hs
      simp only at h
      split_ifs at h
      · simp only [Option.some.injEq] at h
        have hw : w' = (reconnect env w m).2 := by rw [h]
        rw [hw]
        exact reconnect_step env params w m (by have := hs.1; omega) hs.2.1
      · simp only [Option.some.injEq, Prod.mk.injEq] at h
        obtain ⟨_, rfl⟩ := h
        exact Or.inl (hst m)
    | exhausted m =>
      rw [hres] at h
      simp only at h
      split_ifs at h
      · simp only [Option.some.injEq, Prod.mk.injEq] at h
        obtain ⟨_, rfl⟩ := h
        exact Or.inl hdel
      · simp only [Option.some.injEq, Prod.mk.injEq] at h
        obtain ⟨_, rfl⟩ := h
        exact Or.inl (quiet_refl _)
  · rw [if_neg hen] at h
    simp only [Option.some.injEq, Prod.mk.injEq] at h
    obtain ⟨_, rfl⟩ := h
    exact Or.inl (quiet_refl _)

theorem on_response_step (env : Env) (params : Params) (w : World) (resp : Option Bytes)
    (sn : Int) :
    Quiet w (on_response env params w resp sn).2
      ∨ Reconnected params w (on_response env params w resp sn).2 := by
  by_cases ht : ∃ m, ResponseTarget env params w resp sn m
  · obtain ⟨m, hm⟩ := ht
    rw [on_response_target env params w resp sn m hm]
    exact reconnect_step env params w m hm.1 hm.2.1
  · rw [on_response_no_target env params w resp sn ht]
    exact Or.inl (quiet_refl w)

theorem on_desync_again_send_quiet (env : Env) (params : Params) (w : World) (bfsize : Int)
    (r : Int) (w' : World) (h : on_desync_again_send env params w bfsize = some (r, w')) :
    Quiet w w' := by
  unfold on_desync_again_send at h
  simp only [set_timeout, World.log] at h
  split_ifs at h <;>
    (simp only [Option.some.injEq, Prod.mk.injEq] at h
     obtain ⟨_, rfl⟩ := h
     exact ⟨rfl, rfl, by simp [reconnects, List.countP_append]⟩)

theorem on_desync_again_quiet (env : Env) (params : Params) (w : World) (bfsize : Int)
    (r : Int) (w' : World) (h : on_desync_again env params w bfsize = some (r, w')) :
    Quiet w w' := by
  unfold on_desync_again at h
  by_cases hf : w.val.flag = FLAG_CONN
  · simp only [hf, if_true] at h
    by_cases h1 : env.mod_etype w.val.fd POLLIN ≠ 0
    · rw [if_pos h1] at h
      simp only [Option.some.injEq, Prod.mk.injEq] at h
      obtain ⟨_, rfl⟩ := h
      exact quiet_log w _ (fun fd h => Call.noConfusion h)
    · rw [if_neg h1] at h
      by_cases h2 : env.mod_etype (w.log (Call.mod_etype w.val.fd POLLIN)).peer.fd POLLIN ≠ 0
      · rw [if_pos h2] at h
        simp only [Option.some.injEq, Prod.mk.injEq] at h
        obtain ⟨_, rfl⟩ := h
        exact quiet_trans _ _ _ (quiet_log w _ (fun fd h => Call.noConfusion h))
          (quiet_log _ _ (fun fd h => Call.noConfusion h))
      · rw [if_neg h2] at h
        cases hs : on_desync_again_send env params
            ((w.log (Call.mod_etype w.val.fd POLLIN)).log
              (Call.mod_etype (w.log (Call.mod_etype w.val.fd POLLIN)).peer.fd POLLIN)).swap
            bfsize with
        | none =>
          rw [hs] at h
          exact Option.noConfusion h
        | some p =>
          obtain ⟨r1, w3⟩ := p
          rw [hs] at h
          simp only [Option.some.injEq, Prod.mk.injEq] at h
          obtain ⟨_, rfl⟩ := h
          have hq := on_desync_again_send_quiet env params _ bfsize r1 w3 hs
          have hq2 := quiet_swap _ _ hq
          exact quiet_trans _ _ _
            (quiet_trans _ _ _ (quiet_log w _ (fun fd h => Call.noConfusion h))
              (quiet_log _ _ (fun fd h => Call.noConfusion h))) hq2
  · simp only [hf, if_false] at h
    exact on_desync_again_send_quiet env params w bfsize r w' h

theorem to_tunnel_quiet (w w' : World) (h : to_tunnel w = some w') : Quiet w w' := by
  unfold to_tunnel at h
  simp only [World.log] at h
  split_ifs at h
  simp only [Option.some.injEq] at h
  rw [← h]
  exact ⟨rfl, rfl, by simp [reconnects, List.countP_append]⟩

theorem on_desync_step (env : Env) (params : Params) (w : World) (bfsize out : Int)
    (r : Int) (w' : World) (h : on_desync env params w bfsize out = some (r, w')) :
    w'.peer.attempt = w.peer.attempt ∧ w.val.attempt ≤ w'.val.attempt
      ∧ (1 ≤ w.val.attempt → w'.val.attempt = w.val.attempt)
      ∧ reconnects w'.trace = reconnects w.trace := by
  have hq : ∀ w1, Quiet w w1 → w1.peer.attempt = w.peer.attempt
      ∧ w.val.attempt ≤ w1.val.attempt
      ∧ (1 ≤ w.val.attempt → w1.val.attempt = w.val.attempt)
      ∧ reconnects w1.trace = reconnects w.trace :=
    fun w1 h1 => ⟨h1.1, by rw [h1.2.1], fun _ => h1.2.1, h1.2.2⟩
  unfold on_desync at h
  by_cases ho : out ≠ 0
  · rw [if_pos ho] at h
    exact hq _ (on_desync_again_quiet env params w bfsize r w' h)
  · rw [if_neg ho] at h
    by_cases hsz : w.val.buff.size = bfsize
    · rw [if_pos hsz] at h
      cases ht : to_tunnel w with
      | none =>
        rw [ht] at h
        exact Option.noConfusion h
      | some w1 =>
        rw [ht] at h
        simp only [Option.some.injEq, Prod.mk.injEq] at h
        obtain ⟨_, rfl⟩ := h
        exact hq _ (to_tunnel_quiet w _ ht)
    · rw [if_neg hsz] at h
      simp only [World.log] at h
      by_cases hn : (env.recv w.val.fd (bfsize - w.val.buff.size)).n ≤ 0
      · rw [if_pos hn] at h
        simp only [Option.some.injEq, Prod.mk.injEq] at h
        obtain ⟨_, rfl⟩ := h
        exact ⟨rfl, le_refl _, fun _ => rfl, by simp [reconnects, List.countP_append]⟩
      · rw [if_neg hn] at h
        by_cases hre : env.realloc_ok = false
        · rw [if_pos hre] at h
          simp only [Option.some.injEq, Prod.mk.injEq] at h
          obtain ⟨_, rfl⟩ := h
          exact ⟨rfl, le_refl _, fun _ => rfl, by simp [reconnects, List.countP_append]⟩
        · rw [if_neg hre] at h
          split_ifs at h with h0 hge hge2
          · simp only [Option.some.injEq, Prod.mk.injEq] at h
            obtain ⟨_, rfl⟩ := h
            exact ⟨rfl, le_refl _, fun _ => rfl, by simp [reconnects, List.countP_append]⟩
          · obtain ⟨q1, q2, q3⟩ := on_desync_again_quiet env params _ bfsize r w' h
            simp only at q1 q2 q3 h0
            refine ⟨q1, by rw [q2, h0]; exact Nat.zero_le _, fun h1 => by omega, ?_⟩
            rw [q3]
            simp [reconnects, List.countP_append]
          · simp only [Option.some.injEq, Prod.mk.injEq] at h
            obtain ⟨_, rfl⟩ := h
            exact ⟨rfl, le_refl _, fun _ => rfl, by simp [reconnects, List.countP_append]⟩
          · obtain ⟨q1, q2, q3⟩ := on_desync_again_quiet env params _ bfsize r w' h
            simp only at q1 q2 q3
            refine ⟨q1, by rw [q2], fun _ => q2, ?_⟩
            rw [q3]
            simp [reconnects, List.countP_append]

theorem set_timeout_eq (env : Env) (w : World) (fd : Int) (s : Nat) :
    set_timeout env w fd s
      = ((if env.setsockopt fd TCP_USER_TIMEOUT s ≠ 0 then -1 else 0),
         w.log (Call.setsockopt fd TCP_USER_TIMEOUT s)) := by
  unfold set_timeout
  dsimp only
  split_ifs <;> rfl

theorem on_tunnel_check_commit_quiet (env : Env) (params : Params) (w : World)
    (buffer : Bytes) (n : Int) (r : Int) (w' : World)
    (h : on_tunnel_check_commit env params w buffer n = some (r, w')) : Quiet w w' := by
  unfold on_tunnel_check_commit at h
  simp only [World.log, to_tunnel, World.swap, set_timeout_eq] at h
  by_cases hsend : n ≠ env.send w.peer.fd buffer n
  · rw [if_pos hsend] at h
    simp only [Option.some.injEq, Prod.mk.injEq] at h
    obtain ⟨_, rfl⟩ := h
    exact ⟨rfl, rfl, by simp [reconnects, List.countP_append]⟩
  · rw [if_neg hsend] at h
    by_cases hb : w.peer.buff.data.isSome = true
    · by_cases ha : params.auto_level > 0 ∧ params.dp_count > 1
      · simp only [ha, and_self, if_true, hb, Bool.true_eq_false, if_false] at h
        by_cases ht : params.timeout ≠ 0 ∧ params.auto_level < 1
        · rw [if_pos ht] at h
          simp only at h
          split_ifs at h <;>
            first
            | (simp only [Option.some.injEq, Prod.mk.injEq] at h
               obtain ⟨_, rfl⟩ := h
               exact ⟨rfl, rfl, by simp [reconnects, List.countP_append]⟩)
            | (obtain ⟨q1, q2, q3⟩ := mode_add_get_quiet env params _ _ _ r w' h
               exact ⟨q1, q2, by rw [q3]; simp [reconnects, List.countP_append]⟩)
        · rw [if_neg ht] at h
          simp only at h
          split_ifs at h <;>
            first
            | (simp only [Option.some.injEq, Prod.mk.injEq] at h
               obtain ⟨_, rfl⟩ := h
               exact ⟨rfl, rfl, by simp [reconnects, List.countP_append]⟩)
            | (obtain ⟨q1, q2, q3⟩ := mode_add_get_quiet env params _ _ _ r w' h
               exact ⟨q1, q2, by rw [q3]; simp [reconnects, List.countP_append]⟩)
      · simp only [ha, if_false, hb, Bool.true_eq_false] at h
        by_cases ht : params.timeout ≠ 0 ∧ params.auto_level < 1
        · rw [if_pos ht] at h
          simp only at h
          split_ifs at h <;>
            first
            | (simp only [Option.some.injEq, Prod.mk.injEq] at h
               obtain ⟨_, rfl⟩ := h
               exact ⟨rfl, rfl, by simp [reconnects, List.countP_append]⟩)
            | (obtain ⟨q1, q2, q3⟩ := mode_add_get_quiet env params _ _ _ r w' h
               exact ⟨q1, q2, by rw [q3]; simp [reconnects, List.countP_append]⟩)
        · rw [if_neg ht] at h
          simp only at h
          split_ifs at h <;>
            first
            | (simp only [Option.some.injEq, Prod.mk.injEq] at h
               obtain ⟨_, rfl⟩ := h
               exact ⟨rfl, rfl, by simp [reconnects, List.countP_append]⟩)
            | (obtain ⟨q1, q2, q3⟩ := mode_add_get_quiet env params _ _ _ r w' h
               exact ⟨q1, q2, by rw [q3]; simp [reconnects, List.countP_append]⟩)
    · have hb2 : w.peer.buff.data.isSome = false := by simpa using hb
      by_cases ha : params.auto_level > 0 ∧ params.dp_count > 1
      · simp only [ha, and_self, if_true, hb2] at h
        exact Option.noConfusion h
      · simp only [ha, if_false, hb2, if_true] at h
        exact Option.noConfusion h

theorem on_tunnel_check_step (env : Env) (params : Params) (w : World) (bfsize out : Int)
    (r : Int) (w' : World) (h : on_tunnel_check env params w bfsize out = some (r, w')) :
    Quiet w w' ∨ Reconnected params w w' := by
  have hlog : Quiet w (w.log (Call.recv w.val.fd bfsize)) :=
    quiet_log w _ (fun fd h => Call.noConfusion h)
  have lift : ∀ w2, (Quiet (w.log (Call.recv w.val.fd bfsize)) w2
        ∨ Reconnected params (w.log (Call.recv w.val.fd bfsize)) w2) →
      (Quiet w w2 ∨ Reconnected params w w2) := by
    intro w2 h2
    rcases h2 with h2 | h2
    · exact Or.inl (quiet_trans _ _ _ hlog h2)
    · exact Or.inr (quiet_reconnected params _ _ _ hlog h2)
  unfold on_tunnel_check at h
  by_cases ho : out ≠ 0
  · rw [if_pos ho] at h
    exact Option.noConfusion h
  · rw [if_neg ho] at h
    by_cases hn : (env.recv w.val.fd bfsize).n < 1
    · simp only [hn, if_true] at h
      by_cases h0 : (env.recv w.val.fd bfsize).n = 0
      · rw [if_pos h0] at h
        exact lift _ (on_fin_step env params _ r w' h)
      · rw [if_neg h0] at h
        split_ifs at h
        · exact lift _ (on_torst_step env params _ r w' h)
        · simp only [Option.some.injEq, Prod.mk.injEq] at h
          obtain ⟨_, rfl⟩ := h
          exact Or.inl hlog
    · simp only [hn, if_false] at h
      have hresp := on_response_step env params (w.log (Call.recv w.val.fd bfsize))
        (some (env.recv w.val.fd bfsize).data) (env.recv w.val.fd bfsize).n
      by_cases hq : (on_response env params (w.log (Call.recv w.val.fd bfsize))
          (some (env.recv w.val.fd bfsize).data) (env.recv w.val.fd bfsize).n).1 = 0
      · rw [if_pos hq] at h
        simp only [Option.some.injEq, Prod.mk.injEq] at h
        obtain ⟨_, rfl⟩ := h
        exact lift _ hresp
      · rw [if_neg hq] at h
        have hc := on_tunnel_check_commit_quiet env params _ _ _ r w' h
        rcases hresp with h2 | h2
        · exact lift _ (Or.inl (quiet_trans _ _ _ h2 hc))
        · exact lift _ (Or.inr (reconnected_quiet params _ _ _ h2 hc))

theorem event_step (params : Params) (w w' : World) (h : Event params w w') :
    (reconnects w'.trace = reconnects w.trace ∧ w.peer.attempt ≤ w'.peer.attempt
        ∧ (1 ≤ w.peer.attempt → w'.peer.attempt = w.peer.attempt))
    ∨ (reconnects w'.trace = reconnects w.trace + 1
        ∧ w.peer.attempt < w'.peer.attempt ∧ w'.peer.attempt < params.dp_count) := by
  have hq : ∀ w1, Quiet w w1 →
      (reconnects w1.trace = reconnects w.trace ∧ w.peer.attempt ≤ w1.peer.attempt
        ∧ (1 ≤ w.peer.attempt → w1.peer.attempt = w.peer.attempt))
      ∨ (reconnects w1.trace = reconnects w.trace + 1
        ∧ w.peer.attempt < w1.peer.attempt ∧ w1.peer.attempt < params.dp_count) :=
    fun w1 h1 => Or.inl ⟨h1.2.2, by rw [h1.1], fun _ => h1.1⟩
  have hqr : ∀ w1, (Quiet w w1 ∨ Reconnected params w w1) →
      (reconnects w1.trace = reconnects w.trace ∧ w.peer.attempt ≤ w1.peer.attempt
        ∧ (1 ≤ w.peer.attempt → w1.peer.attempt = w.peer.attempt))
      ∨ (reconnects w1.trace = reconnects w.trace + 1
        ∧ w.peer.attempt < w1.peer.attempt ∧ w1.peer.attempt < params.dp_count) := by
    intro w1 h1
    rcases h1 with h1 | h1
    · exact hq w1 h1
    · exact Or.inr ⟨h1.1, h1.2.1, h1.2.2.1⟩
  cases h with
  | on_desync env _ bfsize out r w1 hcall =>
    obtain ⟨h1, h2, h3, h4⟩ := on_desync_step env params w.swap bfsize out r w1 hcall
    exact Or.inl ⟨h4, h2, h3⟩
  | on_desync_upstream env _ bfsize out r _ hcall =>
    obtain ⟨h1, h2, h3, h4⟩ := on_desync_step env params w bfsize out r w' hcall
    exact Or.inl ⟨h4, by rw [h1], fun _ => h1⟩
  | on_desync_again env _ bfsize r w1 hcall =>
    exact hq _ (quiet_swap _ _ (on_desync_again_quiet env params w.swap bfsize r w1 hcall))
  | on_desync_again_upstream env _ bfsize r _ hcall =>
    exact hq _ (on_desync_again_quiet env params w bfsize r w' hcall)
  | on_tunnel_check env _ bfsize out r _ hcall =>
    exact hqr _ (on_tunnel_check_step env params w bfsize out r w' hcall)
  | on_torst env _ r _ hcall => exact hqr _ (on_torst_step env params w r w' hcall)
  | on_fin env _ r _ hcall => exact hqr _ (on_fin_step env params w r w' hcall)
  | on_response env _ resp sn => exact hqr _ (on_response_step env params w resp sn)
  | paired _ v => exact Or.inl ⟨rfl, le_refl _, fun _ => rfl⟩

/-! ## C14 -/

theorem step_attempt_le (params : Params) (w w' : World) (h : Step params w w') :
    w.peer.attempt ≤ w'.peer.attempt := by
  cases h with
  | event _ _ he =>
    rcases event_step params w w' he with ⟨_, h2, _⟩ | ⟨_, h2, _⟩
    · exact h2
    · exact le_of_lt h2
  | reconnect env _ m hm =>
    rcases reconnect_cases env w m with ⟨_, he⟩ | ⟨_, _, ha, _⟩
    · rw [he]
      exact le_refl _
    · rw [ha]
      omega

/-- C14: `attempt` is monotone. Along every sequence of steps of a client flow (events
handled by `on_desync`, `on_desync_again`, `on_tunnel_check`, `on_torst`, `on_fin`,
`on_response`, and calls of `reconnect` with an index of at least `attempt + 1`) the
client's `attempt` never decreases. `on_desync` keeps an `attempt` that is not 0 and
replaces 0 by an index `>= 0`; a classifier either leaves the client's `attempt` as it
is or raises it by a completed reconnect. -/
theorem attempt_monotone (params : Params) (w w' : World)
    (h : Relation.ReflTransGen (Step params) w w') :
    w.peer.attempt ≤ w'.peer.attempt
    ∧ (∀ (env : Env) (wc : World) (bfsize out r : Int) (wc' : World),
        on_desync env params wc bfsize out = some (r, wc') →
        wc.val.attempt ≤ wc'.val.attempt
          ∧ (wc.val.attempt ≠ 0 → wc'.val.attempt = wc.val.attempt))
    ∧ (∀ (env : Env) (wx : World) (r : Int) (wx' : World),
        (on_torst env params wx = some (r, wx') ∨ on_fin env params wx = some (r, wx')
          ∨ (∃ resp sn, on_response env params wx resp sn = (r, wx'))) →
        wx'.peer.attempt = wx.peer.attempt ∨ wx.peer.attempt + 1 ≤ wx'.peer.attempt) := by
  refine ⟨?_, ?_, ?_⟩
  · induction h with
    | refl => exact le_refl _
    | tail _ hbc ih => exact le_trans ih (step_attempt_le params _ _ hbc)
  · intro env wc bfsize out r wc' hcall
    obtain ⟨_, h2, h3, _⟩ := on_desync_step env params wc bfsize out r wc' hcall
    exact ⟨h2, fun hne => h3 (by omega)⟩
  · intro env wx r wx' hcall
    have key : Quiet wx wx' ∨ Reconnected params wx wx' := by
      rcases hcall with hc | hc | ⟨resp, sn, hc⟩
      · exact on_torst_step env params wx r wx' hc
      · exact on_fin_step env params wx r wx' hc
      · have := on_response_step env params wx resp sn
        rw [hc] at this
        exact this
    rcases key with hq | hr
    · exact Or.inl hq.1
    · exact Or.inr hr.2.1

/-- Witness of C14: the reset of `demo_upstream_world` is one step; it raises the
client's `attempt` from 1 to 2. -/
theorem attempt_monotone_witness :
    demo_upstream_world.peer.attempt
      ≤ (reconnect demo_env demo_upstream_world 2).2.peer.attempt :=
  (attempt_monotone demo_params demo_upstream_world
    (reconnect demo_env demo_upstream_world 2).2
    (Relation.ReflTransGen.single
      (Step.event _ _
        (Event.on_torst demo_env demo_upstream_world
          (reconnect demo_env demo_upstream_world 2).1
          (reconnect demo_env demo_upstream_world 2).2 (by decide))))).1

/-! ## C19 -/

theorem on_torst_reconnect_index (env : Env) (params : Params) (w : World) :
    (∃ m, FirstHit torst_hit params (w.peer.attempt + 1) m
        ∧ on_torst env params w = some (reconnect env w m))
    ∨ Call.create_conn w.peer.fd w.val.in6 eid.EV_DESYNC
        ∉ new_calls w (on_torst env params w) := by
  have heq := on_torst_eq env params w
  have hs := detect_scan_spec torst_hit params (w.peer.attempt + 1)
  by_cases hen : can_reconn w ∨ params.auto_level ≥ 1
  · rw [if_pos hen] at heq
    cases hres : detect_scan torst_hit (params.dp.drop (w.peer.attempt + 1))
        (w.peer.attempt + 1) with
    | stop =>
      rw [hres] at heq
      simp only at heq
      right
      rw [heq, new_calls_log]
      simp
    | found m =>
      rw [hres] at heq hs
      simp only at heq
      by_cases hc : can_reconn w
      · rw [if_pos hc] at heq
        exact Or.inl ⟨m, hs, heq⟩
      · rw [if_neg hc] at heq
        right
        rw [heq, new_calls_stored_log]
        simp
    | exhausted m =>
      rw [hres] at heq
      simp only at heq
      right
      rw [heq]
      split_ifs
      · rw [new_calls_deleted_log]
        simp
      · simp [new_calls]
      · rw [new_calls_log]
        simp
  · rw [if_neg hen] at heq
    right
    rw [heq, new_calls_log]
    simp

theorem on_fin_reconnect_index (env : Env) (params : Params) (w : World) :
    (∃ m, FirstHit tls_err_hit params (w.peer.attempt + 1) m
        ∧ on_fin env params w = some (reconnect env w m))
    ∨ Call.create_conn w.peer.fd w.val.in6 eid.EV_DESYNC
        ∉ new_calls w (on_fin env params w) := by
  have heq := on_fin_eq env params w
  have hs := detect_scan_spec tls_err_hit params (w.peer.attempt + 1)
  by_cases hen : tls_failure env params w
  · rw [if_pos hen] at heq
    cases hres : detect_scan tls_err_hit (params.dp.drop (w.peer.attempt + 1))
        (w.peer.attempt + 1) with
    | stop =>
      rw [hres] at heq
      simp only at heq
      right
      rw [heq, new_calls_self]
      simp
    | found m =>
      rw [hres] at heq hs
      simp only at heq
      by_cases hc : can_reconn w
      · rw [if_pos hc] at heq
        exact Or.inl ⟨m, hs, heq⟩
      · rw [if_neg hc] at heq
        right
        rw [heq, new_calls_stored]
        simp
    | exhausted m =>
      rw [hres] at heq
      simp only at heq
      right
      rw [heq]
      split_ifs
      · rw [new_calls_deleted]
        simp
      · simp [new_calls]
      · rw [new_calls_self]
        simp
  · rw [if_neg hen] at heq
    right
    rw [heq, new_calls_self]
    simp

theorem events_reconnects (params : Params) (w w' : World)
    (h : Relation.ReflTransGen (Event params) w w') :
    reconnects w'.trace ≤ reconnects w.trace
      ∨ (reconnects w'.trace ≤ reconnects w.trace + w'.peer.attempt
          ∧ w'.peer.attempt < params.dp_count) := by
  induction h with
  | refl => exact Or.inl (le_refl _)
  | tail _ hbc ih =>
    rcases event_step params _ _ hbc with ⟨e1, e2, e3⟩ | ⟨e1, e2, e3⟩
    · rcases ih with ih | ⟨ih1, ih2⟩
      · exact Or.inl (by omega)
      · rename_i b c _
        by_cases hb : 1 ≤ b.peer.attempt
        · have := e3 hb
          exact Or.inr ⟨by omega, by omega⟩
        · exact Or.inl (by omega)
    · rcases ih with ih | ⟨ih1, ih2⟩
      · exact Or.inr ⟨by omega, e3⟩
      · exact Or.inr ⟨by omega, e3⟩

/-- C19: bounded retries. Every reconnect issued by `on_torst`, `on_fin` or
`on_response` is called with an index `m` such that `pair.attempt < m < dp_count` and
`dp[m].detect != 0`; a reconnect that succeeds sets the client's `attempt` to `m`, which
is greater than before; and along any sequence of events of one client flow at most
`dp_count - 1` reconnects are completed. -/
theorem reconnects_bounded (params : Params) (w w' : World)
    (h : Relation.ReflTransGen (Event params) w w') :
    reconnects w'.trace ≤ reconnects w.trace + (params.dp_count - 1)
    ∧ (∀ (env : Env) (wx : World),
        (∃ m, wx.peer.attempt < m ∧ m < params.dp_count ∧ (params.dp_at m).detect ≠ 0
            ∧ on_torst env params wx = some (reconnect env wx m))
        ∨ Call.create_conn wx.peer.fd wx.val.in6 eid.EV_DESYNC
            ∉ new_calls wx (on_torst env params wx))
    ∧ (∀ (env : Env) (wx : World),
        (∃ m, wx.peer.attempt < m ∧ m < params.dp_count ∧ (params.dp_at m).detect ≠ 0
            ∧ on_fin env params wx = some (reconnect env wx m))
        ∨ Call.create_conn wx.peer.fd wx.val.in6 eid.EV_DESYNC
            ∉ new_calls wx (on_fin env params wx))
    ∧ (∀ (env : Env) (wx : World) (resp : Option Bytes) (sn : Int),
        (∃ m, wx.peer.attempt < m ∧ m < params.dp_count ∧ (params.dp_at m).detect ≠ 0
            ∧ on_response env params wx resp sn = reconnect env wx m)
        ∨ on_response env params wx resp sn = (-1, wx))
    ∧ (∀ (env : Env) (wx : World) (m : Nat), wx.peer.attempt < m →
        (reconnect env wx m).1 = 0 →
        (reconnect env wx m).2.peer.attempt = m
          ∧ wx.peer.attempt < (reconnect env wx m).2.peer.attempt) := by
  refine ⟨?_, ?_, ?_, ?_, ?_⟩
  · rcases events_reconnects params w w' h with h1 | ⟨h1, h2⟩
    · omega
    · omega
  · intro env wx
    rcases on_torst_reconnect_index env params wx with ⟨m, hm, he⟩ | hno
    · exact Or.inl ⟨m, by have := hm.1; omega, hm.2.1, hm.2.2.1, he⟩
    · exact Or.inr hno
  · intro env wx
    rcases on_fin_reconnect_index env params wx with ⟨m, hm, he⟩ | hno
    · exact Or.inl ⟨m, by have := hm.1; omega, hm.2.1, hm.2.2.1, he⟩
    · exact Or.inr hno
  · intro env wx resp sn
    by_cases ht : ∃ m, ResponseTarget env params wx resp sn m
    · obtain ⟨m, hm⟩ := ht
      exact Or.inl ⟨m, hm.1, hm.2.1, hm.2.2.2.2 m (by omega) hm.1,
        on_response_target env params wx resp sn m hm⟩
    · exact Or.inr (on_response_no_target env params wx resp sn ht)
  · intro env wx m hm h0
    rcases reconnect_cases env wx m with ⟨_, he⟩ | ⟨_, _, ha, _⟩
    · rw [he] at h0
      have h1 : (-1 : Int) = 0 := h0
      exact absurd h1 (by decide)
    · exact ⟨ha, by omega⟩

/-- Witness of C19: the reset of `demo_upstream_world` is one event with one completed
reconnect; `demo_params` has four strategies. -/
theorem reconnects_bounded_witness :
    reconnects (reconnect demo_env demo_upstream_world 2).2.trace
      ≤ reconnects demo_upstream_world.trace + (demo_params.dp_count - 1) :=
  (reconnects_bounded demo_params demo_upstream_world
    (reconnect demo_env demo_upstream_world 2).2
    (Relation.ReflTransGen.single
      (Event.on_torst demo_env demo_upstream_world
        (reconnect demo_env demo_upstream_world 2).1
        (reconnect demo_env demo_upstream_world 2).2 (by decide)))).1

/-! ## C15 -/

end Byedpi
